import Mathlib

/-!
# mwaah (v2): console text parsers and command builders

A shallow embedding of the Go package `mwaah` (files `mwaa.go`, `dag.go`,
`tasks.go`, `utils.go`).  Go strings and byte slices are lists of characters,
Go's `error` is an optional message, a pointer that may be nil is an `Option`,
and a run-time panic is an explicit outcome.
-/

namespace Mwaah

/-- Go `string` (and `[]byte`): a sequence of characters. -/
abbrev Str := List Char

/-- Go `error`: `none` is `nil`, `some msg` an error whose `Error()` is `msg`. -/
abbrev GoError := Option Str

/-! ## `strings` -/

/-- Go `strings.HasPrefix`. -/
def HasPrefix : Str → Str → Bool
  | _, [] => true
  | [], _ :: _ => false
  | c :: s, d :: p => c == d && HasPrefix s p

/-- Go `strings.Contains`: `sub` occurs somewhere in `s`. -/
def Contains : Str → Str → Bool
  | [], sub => HasPrefix [] sub
  | c :: s, sub => HasPrefix (c :: s) sub || Contains s sub

/-- Go `strings.HasSuffix`. -/
def HasSuffix (s suffix : Str) : Bool :=
  HasPrefix s.reverse suffix.reverse

/-- Go `strings.TrimSuffix`: drop `suffix` once when `s` ends with it. -/
def TrimSuffix (s suffix : Str) : Str :=
  if HasSuffix s suffix then s.take (s.length - suffix.length) else s

/-- Worker of `Split` for a non-empty separator: `skip` characters of a
separator just found are still to be passed over, `cur` is the piece being
collected. -/
def splitGo (sep : Str) : Nat → Str → Str → List Str
  | _, cur, [] => [cur]
  | skip + 1, cur, _ :: s => splitGo sep skip cur s
  | 0, cur, c :: s =>
    if HasPrefix (c :: s) sep then cur :: splitGo sep (sep.length - 1) [] s
    else splitGo sep 0 (cur ++ [c]) s

/-- Go `strings.Split`: all pieces of `s` between occurrences of `sep`; an
empty `sep` splits after every character. -/
def Split (s sep : Str) : List Str :=
  if sep = [] then s.map (fun c => [c]) else splitGo sep 0 [] s

/-! ## `regexp`: the fragment of RE2 syntax the package's patterns use

Matching is leftmost-first, as in Go: alternatives are tried in order and
`+` is greedy, giving back one character at a time. -/

/-- Regular expressions. -/
inductive Re where
  /-- A literal string. -/
  | lit : Str → Re
  /-- One character of a class. -/
  | cls : (Char → Bool) → Re
  /-- Greedy `c+` for a class `c`. -/
  | plus : (Char → Bool) → Re
  /-- Alternation `a|b`, preferring `a`. -/
  | alt : Re → Re → Re
  /-- Concatenation. -/
  | seq : Re → Re → Re
  /-- Capturing group number `i`. -/
  | cap : Nat → Re → Re

/-- Concatenation of a list of expressions. -/
def Re.cat : List Re → Re
  | [] => Re.lit []
  | [r] => r
  | r :: rs => Re.seq r (Re.cat rs)

/-- Class repeated exactly `n` times, `c{n}`. -/
def Re.rep (c : Char → Bool) : Nat → Re
  | 0 => Re.lit []
  | n + 1 => Re.seq (Re.cls c) (Re.rep c n)

/-- Remove a literal prefix. -/
def stripLit : Str → Str → Option Str
  | [], s => some s
  | _ :: _, [] => none
  | d :: p, c :: s => if c = d then stripLit p s else none

/-- Greedy `c+` followed by the continuation `k`: the longest run first. -/
def matchPlus {α : Type} (p : Char → Bool) (k : Str → Option α) : Str → Option α
  | [] => none
  | c :: s =>
    if p c then
      match matchPlus p k s with
      | some r => some r
      | none => k s
    else none

/-- Captured groups, group 0 first. -/
abbrev Caps := List Str

/-- Backtracking matcher anchored at the start of `s`: `k` receives the
unconsumed input and the groups captured so far. -/
def Re.run : Re → Str → Caps → (Str → Caps → Option (Str × Caps)) → Option (Str × Caps)
  | Re.lit l, s, g, k =>
    match stripLit l s with
    | some s1 => k s1 g
    | none => none
  | Re.cls p, s, g, k =>
    match s with
    | [] => none
    | c :: s1 => if p c then k s1 g else none
  | Re.plus p, s, g, k => matchPlus p (fun s1 => k s1 g) s
  | Re.alt a b, s, g, k =>
    match Re.run a s g k with
    | some r => some r
    | none => Re.run b s g k
  | Re.seq a b, s, g, k => Re.run a s g (fun s1 g1 => Re.run b s1 g1 k)
  | Re.cap i a, s, g, k =>
    Re.run a s g (fun s1 g1 => k s1 (g1.set i (s.take (s.length - s1.length))))

/-- A match of `r` starting exactly at the head of `s`: the input left after
the match and the groups, group 0 being the matched text. -/
def matchHere (r : Re) (n : Nat) (s : Str) : Option (Str × Caps) :=
  match Re.run r s (List.replicate (n + 1) []) (fun s1 g => some (s1, g)) with
  | some (s1, g) => some (s1, g.set 0 (s.take (s.length - s1.length)))
  | none => none

/-- Leftmost match of `r` (with `n` groups) in `s`. -/
def search (r : Re) (n : Nat) : Str → Option (Str × Caps)
  | [] => matchHere r n []
  | c :: s =>
    match matchHere r n (c :: s) with
    | some m => some m
    | none => search r n s

/-- Go `(*Regexp).FindStringSubmatch`: the groups of the leftmost match, or
`none` (a nil slice) when there is none. -/
def FindStringSubmatch (r : Re) (n : Nat) (s : Str) : Option Caps :=
  (search r n s).map Prod.snd

/-- Worker of `FindAllStringSubmatch`: `skip` characters of the match just
reported are still to be passed over; `prevEnd` tells that the last match
ended exactly here, where an empty match is not reported again. -/
def findAllGo (r : Re) (n : Nat) : Nat → Bool → Str → List Caps
  | 0, prevEnd, [] =>
    match matchHere r n [] with
    | some (_, g) => if prevEnd then [] else [g]
    | none => []
  | _ + 1, _, [] => []
  | skip + 1, prevEnd, _ :: s => findAllGo r n skip prevEnd s
  | 0, prevEnd, c :: s =>
    match matchHere r n (c :: s) with
    | some (s1, g) =>
      if (c :: s).length - s1.length = 0 then
        if prevEnd then findAllGo r n 0 false s else g :: findAllGo r n 0 false s
      else g :: findAllGo r n ((c :: s).length - s1.length - 1) true s
    | none => findAllGo r n 0 false s

/-- Go `(*Regexp).FindAllStringSubmatch(s, -1)`: the groups of all successive
non-overlapping matches, leftmost first. -/
def FindAllStringSubmatch (r : Re) (n : Nat) (s : Str) : List Caps :=
  findAllGo r n 0 false s

/-! ## Character classes -/

/-- `.` without the `s` flag: any character but a newline. -/
def dot (c : Char) : Bool := c != '\n'

/-- `[0-9]`. -/
def digit (c : Char) : Bool := '0' ≤ c && c ≤ '9'

/-- `[a-zA-Z0-9]`. -/
def alnum (c : Char) : Bool :=
  ('a' ≤ c && c ≤ 'z') || ('A' ≤ c && c ≤ 'Z') || digit c

/-- `[a-zA-Z0-9\-\_.]`. -/
def dagIdChar (c : Char) : Bool := alnum c || c == '-' || c == '_' || c == '.'

/-- `[a-zA-Z0-9\-\_]`. -/
def taskIdChar (c : Char) : Bool := alnum c || c == '-' || c == '_'

/-- `[+-]`. -/
def signChar (c : Char) : Bool := c == '+' || c == '-'

/-- The timestamp inside the pattern of `ParseNewDagRun`:
`[0-9]{4}-[0-9]{2}-[0-9]{2}T[0-9]{2}:[0-9]{2}:[0-9]{2}[+-][0-9]{2}:[0-9]{2}`. -/
def stampRe : Re :=
  Re.cat [
    Re.rep digit 4, Re.lit ['-'], Re.rep digit 2, Re.lit ['-'], Re.rep digit 2,
    Re.lit ['T'], Re.rep digit 2, Re.lit [':'], Re.rep digit 2, Re.lit [':'],
    Re.rep digit 2, Re.cls signChar, Re.rep digit 2, Re.lit [':'], Re.rep digit 2]

/-- The pattern of `ParseNewDagRun`:
`(?m)(?:.+\nCreated <DagRun )([a-zA-Z0-9\-\_.]+) @ ([0-9]{4}-[0-9]{2}-[0-9]{2}T[0-9]{2}:[0-9]{2}:[0-9]{2}[+-][0-9]{2}:[0-9]{2}): (.+), externally triggered: (True|False)>`. -/
def newDagRunRe : Re :=
  Re.cat [
    Re.plus dot, Re.lit "\nCreated <DagRun ".toList,
    Re.cap 1 (Re.plus dagIdChar),
    Re.lit " @ ".toList,
    Re.cap 2 stampRe,
    Re.lit ": ".toList,
    Re.cap 3 (Re.plus dot),
    Re.lit ", externally triggered: ".toList,
    Re.cap 4 (Re.alt (Re.lit "True".toList) (Re.lit "False".toList)),
    Re.lit ['>']]

/-- The pattern of `UnmarshalTasks`:
`(?:<TaskInstance: )([a-zA-Z0-9\-\_]+).([a-zA-Z0-9\-\_]+) (.+) (?:\[)(failed|success|skipped)(?:]>)`. -/
def listTasksRe : Re :=
  Re.cat [
    Re.lit "<TaskInstance: ".toList,
    Re.cap 1 (Re.plus taskIdChar),
    Re.cls dot,
    Re.cap 2 (Re.plus taskIdChar),
    Re.lit [' '],
    Re.cap 3 (Re.plus dot),
    Re.lit [' '],
    Re.lit ['['],
    Re.cap 4 (Re.alt (Re.lit "failed".toList)
      (Re.alt (Re.lit "success".toList) (Re.lit "skipped".toList))),
    Re.lit "]>".toList]

/-! ## `time`: civil date-times with a zone offset -/

/-- Go `time.Time` as the civil reading it shows in its own zone: the fields
of the wall clock and the zone offset in seconds east of UTC. -/
structure Time where
  year : Int
  month : Nat
  day : Nat
  hour : Nat
  min : Nat
  sec : Nat
  nsec : Nat
  offset : Int
  deriving DecidableEq, Repr

/-- The zero `time.Time{}`: January 1, year 1, 00:00:00 UTC. -/
def Time.zero : Time := ⟨1, 1, 1, 0, 0, 0, 0, 0⟩

/-- The layout `PythonISONoDecimalTimeLayout`. -/
def PythonISONoDecimalTimeLayout : Str := "2006-01-02T15:04:05-07:00".toList

/-- Value of a decimal digit character, `c - '0'`. -/
def digitVal (c : Char) : Nat := c.toNat - 48

/-- Go `time.getnum`: a two-digit number, or a single digit when `fixed` is
false and no second digit follows. -/
def getnum : Str → Bool → Option (Nat × Str)
  | [], _ => none
  | [c], fixed => if digit c && !fixed then some (digitVal c, []) else none
  | c :: d :: s, fixed =>
    if digit c then
      if digit d then some (digitVal c * 10 + digitVal d, s)
      else if fixed then none else some (digitVal c, d :: s)
    else none

/-- Go `time.isLeap`. -/
def isLeap (year : Int) : Bool := year % 4 == 0 && (year % 100 != 0 || year % 400 == 0)

/-- Go `time.daysIn`. -/
def daysIn (month : Nat) (year : Int) : Nat :=
  if month == 2 then (if isLeap year then 29 else 28)
  else if month == 4 || month == 6 || month == 9 || month == 11 then 30 else 31

/-- Value of a run of digits read as a decimal number. -/
def decVal (s : Str) : Nat := s.foldl (fun n c => n * 10 + digitVal c) 0

/-- The optional fraction Go accepts after the seconds although the layout
has none: `.` or `,` and digits, of which nine count, as nanoseconds. -/
def parseFraction (s : Str) : Nat × Str :=
  match s with
  | c :: d :: s1 =>
    if (c == '.' || c == ',') && digit d then
      let ds := (d :: s1).takeWhile digit
      let used := ds.take 9
      (decVal used * 10 ^ (9 - used.length), (d :: s1).dropWhile digit)
    else (0, s)
  | _ => (0, s)

/-- The bytes of the UTF-8 encoding of a character. -/
def utf8Bytes (c : Char) : List Nat :=
  if c.toNat < 0x80 then [c.toNat]
  else if c.toNat < 0x800 then [0xC0 + c.toNat / 64, 0x80 + c.toNat % 64]
  else if c.toNat < 0x10000 then
    [0xE0 + c.toNat / 4096, 0x80 + c.toNat / 64 % 64, 0x80 + c.toNat % 64]
  else
    [0xF0 + c.toNat / 262144, 0x80 + c.toNat / 4096 % 64, 0x80 + c.toNat / 64 % 64,
      0x80 + c.toNat % 64]

/-- Go `time.quote`: the text between double quotes, `"` and `\` escaped and
the bytes of control and non-ASCII characters written `\xNN`. -/
def timeQuote (s : Str) : Str :=
  '"' :: (s.flatMap fun c =>
    if c.toNat < 0x20 ∨ 0x80 ≤ c.toNat then
      (utf8Bytes c).flatMap fun b => ['\\', 'x', Nat.digitChar (b / 16), Nat.digitChar (b % 16)]
    else if c = '"' ∨ c = '\\' then ['\\', c] else [c]) ++ ['"']

/-- The text of a `time.ParseError` for an element of the layout that cannot
be read: `hold` is the value from that element on. -/
def parseErrorElem (layout value hold : Str) (elem : String) : Str :=
  "parsing time ".toList ++ timeQuote value ++ " as ".toList ++ timeQuote layout
    ++ ": cannot parse ".toList ++ timeQuote hold ++ " as ".toList ++ timeQuote elem.toList

/-- The text of a `time.ParseError` that carries a message. -/
def parseErrorMessage (value message : Str) : Str :=
  "parsing time ".toList ++ timeQuote value ++ message

/-- Go `time.Parse(PythonISONoDecimalTimeLayout, value)`: the elements are
read left to right, a malformed element or a field out of range stops the
parse at that element, text left over is an error, and the day is checked
against the month last. -/
def parseNoDecimal (value : Str) : Except Str Time :=
  let bad (elem : String) (hold : Str) : Except Str Time :=
    Except.error (parseErrorElem PythonISONoDecimalTimeLayout value hold elem)
  let range (what : String) : Except Str Time :=
    Except.error (parseErrorMessage value (": " ++ what ++ " out of range").toList)
  match value with
  | y1 :: y2 :: y3 :: y4 :: v1 =>
    if !(digit y1 && digit y2 && digit y3 && digit y4) then bad "2006" value else
    let year := decVal [y1, y2, y3, y4]
    match stripLit ['-'] v1 with
    | none => bad "-" v1
    | some v2 =>
    match getnum v2 true with
    | none => bad "01" v2
    | some (month, v3) =>
    if month = 0 ∨ 12 < month then range "month" else
    match stripLit ['-'] v3 with
    | none => bad "-" v3
    | some v4 =>
    match getnum v4 true with
    | none => bad "02" v4
    | some (day, v5) =>
    match stripLit ['T'] v5 with
    | none => bad "T" v5
    | some v6 =>
    match getnum v6 false with
    | none => bad "15" v6
    | some (hour, v7) =>
    if 24 ≤ hour then range "hour" else
    match stripLit [':'] v7 with
    | none => bad ":" v7
    | some v8 =>
    match getnum v8 true with
    | none => bad "04" v8
    | some (min, v9) =>
    if 60 ≤ min then range "minute" else
    match stripLit [':'] v9 with
    | none => bad ":" v9
    | some v10 =>
    match getnum v10 true with
    | none => bad "05" v10
    | some (sec, v11) =>
    if 60 ≤ sec then range "second" else
    let (nsec, v12) := parseFraction v11
    match v12 with
    | sg :: h1 :: h2 :: c :: m1 :: m2 :: v13 =>
      if c ≠ ':' then bad "-07:00" v12 else
      let hr := getnum [h1, h2] true
      let mm := if hr.isSome then getnum [m1, m2] true else none
      if 60 < (mm.map Prod.fst).getD 0 then range "time zone offset minute" else
      if 24 < (hr.map Prod.fst).getD 0 then range "time zone offset hour" else
      match hr, mm with
      | some (h, _), some (m, _) =>
        if sg ≠ '+' ∧ sg ≠ '-' then bad "-07:00" v12 else
        if v13 ≠ [] then
          Except.error (parseErrorMessage value (": extra text: ".toList ++ timeQuote v13)) else
        if day < 1 ∨ daysIn month year < day then
          Except.error (parseErrorMessage value ": day out of range".toList) else
        let off : Int := (h * 60 + m) * 60
        Except.ok ⟨year, month, day, hour, min, sec, nsec, if sg = '-' then -off else off⟩
      | _, _ => bad "-07:00" v12
    | _ => bad "-07:00" v12
  | _ => bad "2006" value

/-- `GetTimePythonISONoDecimal` (utils.go): the time and the error of
`time.Parse`; the time is the zero time when there is an error. -/
def GetTimePythonISONoDecimal (PythonISONoDecimal : Str) : Time × GoError :=
  match parseNoDecimal PythonISONoDecimal with
  | Except.ok t => (t, none)
  | Except.error e => (Time.zero, some e)

/-- Go `time.appendInt`: `x` in decimal, zero-padded to `width` digits, with
a leading minus sign when negative. -/
def appendInt (x : Int) (width : Nat) : Str :=
  let ds := Nat.toDigits 10 x.natAbs
  (if x < 0 then ['-'] else []) ++ List.replicate (width - ds.length) '0' ++ ds

/-- Go `Time.Format(PythonISONoDecimalTimeLayout)`. -/
def Time.FormatNoDecimal (t : Time) : Str :=
  let zone : Nat := t.offset.natAbs / 60
  appendInt t.year 4 ++ ['-'] ++ appendInt t.month 2 ++ ['-'] ++ appendInt t.day 2 ++ ['T']
    ++ appendInt t.hour 2 ++ [':'] ++ appendInt t.min 2 ++ [':'] ++ appendInt t.sec 2
    ++ [if t.offset < 0 ∧ 0 < zone then '-' else '+']
    ++ appendInt (zone / 60 : Nat) 2 ++ [':'] ++ appendInt (zone % 60 : Nat) 2

/-! ## Outcomes of calls that may panic -/

/-- What a call does: it returns a value, or the goroutine panics. -/
inductive Outcome (α : Type) where
  | ret : α → Outcome α
  | panic : Str → Outcome α
  deriving DecidableEq, Repr

/-- Sequencing: a panic propagates. -/
def Outcome.bind {α β : Type} : Outcome α → (α → Outcome β) → Outcome β
  | Outcome.ret a, f => f a
  | Outcome.panic m, _ => Outcome.panic m

/-! ## `strconv` -/

/-- Go `strconv.ParseBool`. -/
def ParseBool (str : Str) : Bool × GoError :=
  if str ∈ ["1".toList, "t".toList, "T".toList, "TRUE".toList, "true".toList, "True".toList] then
    (true, none)
  else if str ∈ ["0".toList, "f".toList, "F".toList, "FALSE".toList, "false".toList,
      "False".toList] then
    (false, none)
  else (false, some ("strconv.ParseBool: parsing \"".toList ++ str ++ "\": invalid syntax".toList))

/-- Go `strconv.Itoa`. -/
def Itoa (i : Int) : Str :=
  (if i < 0 then ['-'] else []) ++ Nat.toDigits 10 i.natAbs

/-! ## The `airflow` client's types -/

/-- The `airflow.DagState` enumeration is a string. -/
abbrev DagState := Str

/-- The client's `AllowedDagStateEnumValues`. -/
def AllowedDagStateEnumValues : List DagState :=
  ["queued".toList, "running".toList, "success".toList, "failed".toList]

/-- The client's `DagState.IsValid`. -/
def DagState.IsValid (v : DagState) : Bool := decide (v ∈ AllowedDagStateEnumValues)

/-- The client's `NewDagStateFromValue`: a pointer to the state when it is an
allowed value, nil and an error otherwise. -/
def NewDagStateFromValue (v : Str) : Option DagState × GoError :=
  if DagState.IsValid v then (some v, none)
  else (none, some ("invalid value '".toList ++ v
    ++ "' for DagState: valid values are [queued running success failed]".toList))

/-- The client's `NullableString`, `NullableInt`, `NullableBool`: a pointer
and the flag telling whether the field was set at all. -/
structure Nullable (α : Type) where
  value : Option α
  isSet : Bool
  deriving DecidableEq, Repr

/-- A field never set: the zero value of the struct. -/
def Nullable.unset {α : Type} : Nullable α := ⟨none, false⟩

/-- The client's `NewNullableX(val)`: set, to the pointer given. -/
def Nullable.new {α : Type} (val : Option α) : Nullable α := ⟨val, true⟩

/-- The client's `Get`. -/
def Nullable.Get {α : Type} (v : Nullable α) : Option α := v.value

/-- The client's `IsSet`. -/
def Nullable.IsSet {α : Type} (v : Nullable α) : Bool := v.isSet

/-- The client's `airflow.DAGRun`: every field is a pointer. -/
structure DAGRun where
  DagRunId : Option Str
  DagId : Option Str
  LogicalDate : Option Time
  ExecutionDate : Option Time
  StartDate : Option Time
  EndDate : Option Time
  State : Option DagState
  ExternalTrigger : Option Bool
  Conf : Option Str
  deriving DecidableEq, Repr

/-- The zero value `airflow.DAGRun{}`. -/
def DAGRun.zero : DAGRun := ⟨none, none, none, none, none, none, none, none, none⟩

/-- The client's `NewDAGRun()`: the zero run with `ExternalTrigger` at its
default, true. -/
def NewDAGRun : DAGRun := { DAGRun.zero with ExternalTrigger := some true }

/-! ## `mwaa.go`: the response of the console -/

/-- The struct `MWAAData`. -/
structure MWAAData where
  Stderr : Str
  Stdout : Str
  StderrStr : Str
  StdoutStr : Str
  deriving DecidableEq, Repr

/-- The zero value `MWAAData{}`. -/
def MWAAData.zero : MWAAData := ⟨[], [], [], []⟩

/-- `DecodeMWAAData`: `decoded` is the outcome of
`json.NewDecoder(resp.Body).Decode(&data)`, the struct filled from the body
or the decoder's error. -/
def DecodeMWAAData (decoded : Except Str MWAAData) : MWAAData × GoError :=
  match decoded with
  | Except.error err => (MWAAData.zero, some err)
  | Except.ok data =>
    let stderrDecoded : Str := data.Stderr
    let stdoutDecoded : Str := data.Stdout
    let data := { data with StderrStr := TrimSuffix stderrDecoded ['\n'] }
    let data := { data with StdoutStr := TrimSuffix stdoutDecoded ['\n'] }
    if Contains data.StderrStr "airflow.exceptions".toList then
      (data, some data.StderrStr)
    else (data, none)

/-! ## `dag.go`, `tasks.go`: the text parsers -/

/-- `ParseNewDagRun`. -/
def ParseNewDagRun (data : MWAAData) : DAGRun × GoError :=
  let matches' := FindStringSubmatch newDagRunRe 4 data.StdoutStr
  let expectedNumMatches := 5
  match matches' with
  | none => (DAGRun.zero, some ("unable to parse stdout\nStderr:\n".toList ++ data.StdoutStr))
  | some m =>
    if m.length < expectedNumMatches then
      (DAGRun.zero, some ("unable to parse stdout\nStderr:\n".toList ++ data.StdoutStr))
    else
      let airflowDagRun := NewDAGRun
      match ParseBool (m.getD 4 []) with
      | (_, some err) => (DAGRun.zero, some err)
      | (externalTrigger, none) =>
        let airflowDagRun := { airflowDagRun with DagId := some (m.getD 1 []) }
        match GetTimePythonISONoDecimal (m.getD 2 []) with
        | (_, some err) => (DAGRun.zero, some err)
        | (executionDate, none) =>
          let airflowDagRun := { airflowDagRun with ExecutionDate := some executionDate }
          let airflowDagRun := { airflowDagRun with DagRunId := some (m.getD 3 []) }
          let airflowDagRun := { airflowDagRun with ExternalTrigger := some externalTrigger }
          (airflowDagRun, none)

/-- The struct `Task`: five string pointers. -/
structure Task where
  MatchString : Option Str
  DagId : Option Str
  TaskId : Option Str
  DagRunId : Option Str
  State : Option Str
  deriving DecidableEq, Repr

/-- Number of fields of `Task`, `reflect.TypeOf(Task{}).NumField()`. -/
def Task.NumField : Nat := 5

/-- The loop of `populate` from field `i` on, for a destination whose
remaining fields are the string pointers `fields`: field `i` is pointed at
`src[i]`, and indexing `src` past its end panics. -/
def populateFrom (src : List Str) : Nat → List (Option Str) → Outcome (List (Option Str))
  | _, [] => Outcome.ret []
  | i, _ :: fields =>
    match src.get? i with
    | none => Outcome.panic "reflect: slice index out of range".toList
    | some value => (populateFrom src (i + 1) fields).bind (fun r => Outcome.ret (some value :: r))

/-- `populate(&task, src)` for a `Task`. -/
def populate (dst : Task) (src : List Str) : Outcome Task :=
  (populateFrom src 0 [dst.MatchString, dst.DagId, dst.TaskId, dst.DagRunId, dst.State]).bind
    (fun r => Outcome.ret ⟨(r.getD 0 none), (r.getD 1 none), (r.getD 2 none), (r.getD 3 none),
      (r.getD 4 none)⟩)

/-- The loop of `UnmarshalTasks` over the matches. -/
def unmarshalTasksLoop : List Caps → Outcome (List Task)
  | [] => Outcome.ret []
  | m :: ms =>
    (populate ⟨none, none, none, none, none⟩ m).bind (fun task =>
      (unmarshalTasksLoop ms).bind (fun tasks => Outcome.ret (task :: tasks)))

/-- `UnmarshalTasks`. -/
def UnmarshalTasks (data : MWAAData) : Outcome (List Task × GoError) :=
  let matches' := FindAllStringSubmatch listTasksRe 4 data.StdoutStr
  match matches' with
  | [] => Outcome.panic "index out of range [0] with length 0".toList
  | m0 :: _ =>
    if m0.length < Task.NumField then
      Outcome.ret ([], some "unable to parse response using listTasksRegex".toList)
    else (unmarshalTasksLoop matches').bind (fun tasks => Outcome.ret (tasks, none))

/-! ## `mwaa.go`: the client, its token and the console call

Instants of the clock and of the token's expiry are nanoseconds counted from
Go's zero time, so that the zero `time.Time` of a new client is `0`.  The
clock is read as not advancing during one call. -/

/-- The AWS SDK's `mwaa.CreateCliTokenOutput`: two string pointers. -/
structure CreateCliTokenOutput where
  CliToken : Option Str
  WebServerHostname : Option Str
  deriving DecidableEq, Repr

/-- The struct `CLIENT`, without the AWS session `svc`, which is part of
the environment. -/
structure CLIENT where
  Name : Option Str
  tokenOutput : Option CreateCliTokenOutput
  tokenExpiration : Nat
  deriving DecidableEq, Repr

/-- `NewClient`. -/
def NewClient (name : Option Str) : CLIENT := ⟨name, none, 0⟩

/-- The HTTP request `PostMWAACommand` builds: a POST with two headers. -/
structure Request where
  url : Str
  contentType : Str
  authorization : Str
  body : Str
  deriving DecidableEq, Repr

/-- The console's HTTP response: the status and what decoding the JSON body
into an `MWAAData` gives. -/
structure Response where
  StatusCode : Nat
  Status : Str
  Body : Except Str MWAAData

/-- What the client talks to: the clock, the token service of the AWS
session, URL validation in `http.NewRequest`, and the HTTP round trip. -/
structure Env where
  now : Nat
  CreateCliToken : Str → Except Str CreateCliTokenOutput
  NewRequest : Str → GoError
  Do : Request → Except Str Response

/-- The calls made so far, oldest first: environment names passed to
`CreateCliToken` and requests handed to `client.Do`. -/
structure Log where
  issued : List Str
  sent : List Request
  deriving DecidableEq, Repr

/-- One minute, in nanoseconds. -/
def minute : Nat := 60 * 1000000000

/-- `createToken`: panics when the token service fails. -/
def createToken (env : Env) (cli : CLIENT) (log : Log) : Outcome CreateCliTokenOutput × Log :=
  match cli.Name with
  | none => (Outcome.panic "invalid memory address or nil pointer dereference".toList, log)
  | some name =>
    match env.CreateCliToken name with
    | Except.error err => (Outcome.panic err, { log with issued := log.issued ++ [name] })
    | Except.ok tokenOutput => (Outcome.ret tokenOutput, { log with issued := log.issued ++ [name] })

/-- `refreshToken`. -/
def refreshToken (env : Env) (cli : CLIENT) (log : Log) : Outcome Unit × CLIENT × Log :=
  match createToken env cli log with
  | (Outcome.panic m, log1) => (Outcome.panic m, cli, log1)
  | (Outcome.ret tokenOutput, log1) =>
    (Outcome.ret (), { cli with tokenOutput := some tokenOutput,
                                tokenExpiration := env.now + 1 * minute }, log1)

/-- `PostMWAACommand`, after the pre-flight check: build the request, send
it, check the status and decode. -/
def postRequest (env : Env) (cli : CLIENT) (log : Log) (cmd : Str) :
    Outcome (MWAAData × GoError) × CLIENT × Log :=
  match cli.tokenOutput with
  | none => (Outcome.panic "invalid memory address or nil pointer dereference".toList, cli, log)
  | some tokenOutput =>
    match tokenOutput.WebServerHostname with
    | none => (Outcome.panic "invalid memory address or nil pointer dereference".toList, cli, log)
    | some host =>
      let url := "https://".toList ++ host ++ "/aws_mwaa/cli".toList
      match env.NewRequest url with
      | some err => (Outcome.ret (MWAAData.zero, some err), cli, log)
      | none =>
        match tokenOutput.CliToken with
        | none =>
          (Outcome.panic "invalid memory address or nil pointer dereference".toList, cli, log)
        | some token =>
          let req : Request := ⟨url, "text/plain".toList, "Bearer ".toList ++ token, cmd⟩
          let log1 := { log with sent := log.sent ++ [req] }
          match env.Do req with
          | Except.error err => (Outcome.ret (MWAAData.zero, some err), cli, log1)
          | Except.ok resp =>
            if resp.StatusCode ≠ 200 then
              (Outcome.ret (MWAAData.zero, some ("Status: ".toList ++ resp.Status)), cli, log1)
            else (Outcome.ret (DecodeMWAAData resp.Body), cli, log1)

/-- `PostMWAACommand`. -/
def PostMWAACommand (env : Env) (cli : CLIENT) (log : Log) (cmd : Str) :
    Outcome (MWAAData × GoError) × CLIENT × Log :=
  if env.now > cli.tokenExpiration then
    match refreshToken env cli log with
    | (Outcome.panic m, cli1, log1) => (Outcome.panic m, cli1, log1)
    | (Outcome.ret _, cli1, log1) => postRequest env cli1 log1 cmd
  else postRequest env cli log cmd

/-! ## `dag.go`: state and jobs of a DAG -/

/-- `GetDagState`: the pointer to the state and the error. -/
def GetDagState (env : Env) (cli : CLIENT) (log : Log) (dagId : Str) (executionDate : Time) :
    Outcome (Option DagState × GoError) × CLIENT × Log :=
  let ev : DagState := []
  let executionDateFormatted := executionDate.FormatNoDecimal
  let dagIdNotFoundException :=
    "airflow.exceptions.AirflowException: Dag '".toList ++ dagId ++ "' could not be found".toList
  let cmd := "dags state '".toList ++ dagId ++ "' '".toList ++ executionDateFormatted ++ ['\'']
  match PostMWAACommand env cli log cmd with
  | (Outcome.panic m, cli1, log1) => (Outcome.panic m, cli1, log1)
  | (Outcome.ret (_, some err), cli1, log1) => (Outcome.ret (some ev, some err), cli1, log1)
  | (Outcome.ret (data, none), cli1, log1) =>
    if Contains data.StderrStr dagIdNotFoundException then
      (Outcome.ret (some ev, some dagIdNotFoundException), cli1, log1)
    else
      match (Split data.StdoutStr ['\n']).get? 1 with
      | none => (Outcome.panic "index out of range [1]".toList, cli1, log1)
      | some line =>
        let state := (Split line [',']).headD []
        if state = "None".toList then
          (Outcome.ret (some ev,
            some ("no dag found with executionDate: ".toList ++ executionDateFormatted)), cli1, log1)
        else
          let notExists := dagId ++ " does not exist".toList
          if Contains data.StdoutStr notExists then
            (Outcome.ret (some ev, some data.StdoutStr), cli1, log1)
          else (Outcome.ret (NewDagStateFromValue state), cli1, log1)

/-- The embedded struct `dagFields`. -/
structure dagFields where
  DagId : Str
  State : Str
  StartDate : Str
  EndDate : Str
  deriving DecidableEq, Repr

/-- An element of `DagJobs`. -/
structure DagJob where
  JobType : Str
  fields : dagFields
  deriving DecidableEq, Repr

/-- The type `DagJobs`. -/
abbrev DagJobs := List DagJob

/-- The struct `DagJobsInput`. -/
structure DagJobsInput where
  DagId : Nullable Str
  State : DagState
  Limit : Nullable Int
  deriving DecidableEq, Repr

/-- `UnmarshalGetDagJobs`; `unmarshal` is `json.Unmarshal` into a `DagJobs`. -/
def UnmarshalGetDagJobs (unmarshal : Str → Except Str DagJobs) (data : MWAAData) :
    DagJobs × GoError :=
  match unmarshal data.Stdout with
  | Except.error err => ([], some err)
  | Except.ok dagReport => (dagReport, none)

/-- `GetDagJobs`, once the command is built: the state check, the console
call and the decoding of its answer. -/
def getDagJobsSend (unmarshal : Str → Except Str DagJobs) (env : Env) (cli : CLIENT) (log : Log)
    (i : DagJobsInput) (cmd : Str) : Outcome (DagJobs × GoError) × CLIENT × Log :=
  let cmd := cmd ++ " --output json".toList
  if !DagState.IsValid i.State then
    (Outcome.ret ([], some (['\''] ++ i.State ++ "' is not a valid DagState".toList)), cli, log)
  else
    let cmd := cmd ++ " --state '".toList ++ i.State ++ ['\'']
    match PostMWAACommand env cli log cmd with
    | (Outcome.panic m, cli1, log1) => (Outcome.panic m, cli1, log1)
    | (Outcome.ret (_, some err), cli1, log1) => (Outcome.ret ([], some err), cli1, log1)
    | (Outcome.ret (data, none), cli1, log1) =>
      if i.DagId.IsSet then
        match i.DagId.Get with
        | none =>
          (Outcome.panic "invalid memory address or nil pointer dereference".toList, cli1, log1)
        | some dagId =>
          let dagIdNotFoundException :=
            "airflow.exceptions.AirflowException: Dag id ".toList ++ dagId ++ " not found".toList
          if Contains data.StderrStr dagIdNotFoundException then
            (Outcome.ret ([], some dagIdNotFoundException), cli1, log1)
          else (Outcome.ret (UnmarshalGetDagJobs unmarshal data), cli1, log1)
      else (Outcome.ret (UnmarshalGetDagJobs unmarshal data), cli1, log1)

/-- `GetDagJobs`. -/
def GetDagJobs (unmarshal : Str → Except Str DagJobs) (env : Env) (cli : CLIENT) (log : Log)
    (i : DagJobsInput) : Outcome (DagJobs × GoError) × CLIENT × Log :=
  let cmd := "dags list-jobs".toList
  let withDagId : Outcome Str :=
    if i.DagId.IsSet then
      match i.DagId.Get with
      | none => Outcome.panic "invalid memory address or nil pointer dereference".toList
      | some dagId => Outcome.ret (cmd ++ " --dag-id '".toList ++ dagId ++ ['\''])
    else Outcome.ret cmd
  match withDagId with
  | Outcome.panic m => (Outcome.panic m, cli, log)
  | Outcome.ret cmd =>
    if i.Limit.IsSet then
      match i.Limit.Get with
      | none =>
        (Outcome.panic "invalid memory address or nil pointer dereference".toList, cli, log)
      | some limit =>
        if limit > 0 then
          getDagJobsSend unmarshal env cli log i
            (cmd ++ " --limit '".toList ++ Itoa limit ++ ['\''])
        else (Outcome.ret ([], none), cli, log)
    else getDagJobsSend unmarshal env cli log i cmd

/-! ## `tasks.go`: the tasks of a DAG -/

/-- The struct `DagTask`. -/
structure DagTask where
  TaskId : Option Str
  Operator : Nullable Str
  deriving DecidableEq, Repr

/-- The replacer `strings.NewReplacer("<", "", ">", "", "(", "", ")", "")`
applied to a line: the four characters are removed. -/
def removeDecoration (line : Str) : Str :=
  line.filter (fun c => !(c == '<' || c == '>' || c == '(' || c == ')'))

/-- The loop of `UnmarshalDagTasks` over the lines: each line is split on
`: `, `vals[0]` is the operator and `vals[1]` the task id; indexing `vals`
past its end panics. -/
def unmarshalDagTasksLoop : List Str → Outcome (List DagTask)
  | [] => Outcome.ret []
  | line :: splitLines =>
    let vals := Split (removeDecoration line) ": ".toList
    let operator := Nullable.new (some (vals.headD []))
    match vals.get? 1 with
    | none => Outcome.panic "index out of range [1] with length 1".toList
    | some taskId =>
      (unmarshalDagTasksLoop splitLines).bind (fun tasks =>
        Outcome.ret (⟨some taskId, operator⟩ :: tasks))

/-- `UnmarshalDagTasks`. -/
def UnmarshalDagTasks (data : MWAAData) : Outcome (List DagTask × GoError) :=
  let splitLines := Split data.StdoutStr ['\n']
  (unmarshalDagTasksLoop splitLines).bind (fun tasks => Outcome.ret (tasks, none))

/-- `GetDagTasks`. -/
def GetDagTasks (env : Env) (cli : CLIENT) (log : Log) (dagId : Str) :
    Outcome (List DagTask × GoError) × CLIENT × Log :=
  let cmd := "tasks list '".toList ++ dagId ++ "' --tree".toList
  match PostMWAACommand env cli log cmd with
  | (Outcome.panic m, cli1, log1) => (Outcome.panic m, cli1, log1)
  | (Outcome.ret (_, some err), cli1, log1) => (Outcome.ret ([], some err), cli1, log1)
  | (Outcome.ret (data, none), cli1, log1) =>
    let dagIdNotFoundException :=
      "airflow.exceptions.AirflowException: Dag '".toList ++ dagId
        ++ "' could not be found; either it does not exist or it failed to parse.".toList
    if Contains data.StderrStr dagIdNotFoundException then
      (Outcome.ret ([], some dagIdNotFoundException), cli1, log1)
    else
      match UnmarshalDagTasks data with
      | Outcome.panic m => (Outcome.panic m, cli1, log1)
      | Outcome.ret r => (Outcome.ret r, cli1, log1)

/-! ## `connection.go` -/

/-- The struct `Connection`: `Description` and the fields of the embedded
`airflow.Connection`. -/
structure Connection where
  Description : Nullable Str
  ConnectionId : Option Str
  ConnType : Option Str
  Host : Nullable Str
  Login : Nullable Str
  Schema : Nullable Str
  Port : Nullable Int
  Password : Option Str
  Extra : Nullable Str
  deriving DecidableEq, Repr

/-- `GetDescription`: the value, or the zero value when the field is not set
or set to explicit null. -/
def Connection.GetDescription (o : Connection) : Str := o.Description.Get.getD []

/-- `HasDescription`. -/
def Connection.HasDescription (o : Connection) : Bool := o.Description.IsSet

/-- Go's conversion `string(i)` of an integer: the character with that code
point, U+FFFD when there is none. -/
def runeToString (i : Int) : Str :=
  if 0 ≤ i ∧ i.toNat.isValidChar then [Char.ofNat i.toNat] else [Char.ofNat 0xFFFD]

/-- The command `AddConnection` builds for a connection. -/
def addConnectionCommand (conn : Connection) : Str :=
  let connId := conn.ConnectionId.getD []
  let cmd := "connections add".toList
  let cmd := if conn.HasDescription then
    cmd ++ " --conn-description '".toList ++ conn.GetDescription ++ ['\''] else cmd
  let cmd := if conn.Extra.IsSet then
    cmd ++ " --conn-extra '".toList ++ conn.Extra.Get.getD [] ++ ['\''] else cmd
  let cmd := if conn.Login.IsSet then
    cmd ++ " --conn-login '".toList ++ conn.Login.Get.getD [] ++ ['\''] else cmd
  let cmd := if conn.Password.isSome then
    cmd ++ " --conn-password '".toList ++ conn.Password.getD [] ++ ['\''] else cmd
  let cmd := if conn.Port.IsSet then
    cmd ++ " --conn-port '".toList ++ runeToString (conn.Port.Get.getD 0) ++ ['\''] else cmd
  let cmd := if conn.ConnType.isSome then
    cmd ++ " --conn-type '".toList ++ conn.ConnType.getD [] ++ ['\''] else cmd
  cmd ++ " '".toList ++ connId ++ ['\'']

/-- `AddConnection`. -/
def AddConnection (env : Env) (cli : CLIENT) (log : Log) (conn : Connection) :
    Outcome GoError × CLIENT × Log :=
  let connId := conn.ConnectionId.getD []
  if connId = [] then
    (Outcome.ret (some "ConnectionId is empty, please provide ConnectionId".toList), cli, log)
  else
    match PostMWAACommand env cli log (addConnectionCommand conn) with
    | (Outcome.panic m, cli1, log1) => (Outcome.panic m, cli1, log1)
    | (Outcome.ret (_, some err), cli1, log1) => (Outcome.ret (some err), cli1, log1)
    | (Outcome.ret (_, none), cli1, log1) => (Outcome.ret none, cli1, log1)

/-! ## `tasks.go`: clearing tasks and the state of a task -/

/-- The struct `ClearTasks`, without the client `CLI`, which is passed
alongside: its own fields and those of the embedded
`airflow.ClearTaskInstance` that `clearTasks` reads. -/
structure ClearTasks where
  DagId : Option Str
  TaskRegexp : Nullable Str
  UseDagIdRegex : Nullable Bool
  IncludeDownstream : Nullable Bool
  IncludeUpstream : Nullable Bool
  TaskIds : Option (List Str)
  StartDate : Option Str
  EndDate : Option Str
  OnlyFailed : Option Bool
  OnlyRunning : Option Bool
  IncludeSubdags : Option Bool
  IncludeParentdag : Option Bool
  deriving DecidableEq, Repr

/-- What building the command of `clearTasks` comes to: a panic, an error
returned, or the command. -/
abbrev Built := Outcome (Except Str Str)

/-- Dereferencing a pointer: a nil pointer panics. -/
def deref {α : Type} (p : Option α) : Outcome α :=
  match p with
  | none => Outcome.panic "invalid memory address or nil pointer dereference".toList
  | some a => Outcome.ret a

/-- The command `clearTasks` builds; `parseDay` is the error of
`time.Parse("2006-01-02", s)`. -/
def clearTasksCommand (parseDay : Str → GoError) (o : ClearTasks) (dryRun : Bool) : Built :=
  if o.TaskIds.isSome then
    Outcome.ret (Except.error
      "Cannot use TaskIds as constraints for Clearing Tasks with the CLI".toList)
  else
    let cmd := "tasks clear".toList
    (deref o.UseDagIdRegex.Get).bind fun useDagIdRegex =>
    let cmd := if useDagIdRegex then cmd ++ " --dag-regex".toList else cmd
    (deref o.IncludeDownstream.Get).bind fun includeDownstream =>
    let cmd := if includeDownstream then cmd ++ " --downstream".toList else cmd
    let endDate : Except Str Str :=
      match o.EndDate with
      | none => Except.ok cmd
      | some endDateString =>
        match parseDay endDateString with
        | some err => Except.error err
        | none => Except.ok (cmd ++ " --end-date '".toList ++ endDateString ++ ['\''])
    match endDate with
    | Except.error err => Outcome.ret (Except.error err)
    | Except.ok cmd =>
      let cmd := if !(o.IncludeParentdag.getD false) then cmd ++ " --exclude-parentdag".toList
        else cmd
      let cmd := if !(o.IncludeSubdags.getD false) then cmd ++ " --exclude-subdags".toList
        else cmd
      let cmd := if !(o.IncludeSubdags.getD false) then cmd ++ " --exclude-subdags".toList
        else cmd
      let cmd := if o.OnlyFailed.getD false then cmd ++ " --only-failed".toList else cmd
      let cmd := if o.OnlyRunning.getD false then cmd ++ " --only-running".toList else cmd
      let startDate : Except Str Str :=
        match o.StartDate with
        | none => Except.ok cmd
        | some startDateString =>
          match parseDay startDateString with
          | some err => Except.error err
          | none => Except.ok (cmd ++ " --start-date '".toList ++ startDateString ++ ['\''])
      match startDate with
      | Except.error err => Outcome.ret (Except.error err)
      | Except.ok cmd =>
        (if o.TaskRegexp.IsSet then
            (deref o.TaskRegexp.Get).bind fun taskRegexp =>
              Outcome.ret (cmd ++ " --task-regex '".toList ++ taskRegexp ++ ['\''])
          else Outcome.ret cmd).bind fun cmd =>
        (if o.IncludeUpstream.IsSet then
            (deref o.IncludeUpstream.Get).bind fun includeUpstream =>
              Outcome.ret (if includeUpstream then cmd ++ " --upstream".toList else cmd)
          else Outcome.ret cmd).bind fun cmd =>
        let cmd := if !dryRun then cmd ++ " --yes".toList else cmd
        Outcome.ret (Except.ok cmd)

/-- `clearTasks`. -/
def clearTasks (parseDay : Str → GoError) (env : Env) (cli : CLIENT) (log : Log)
    (o : ClearTasks) (dryRun : Bool) : Outcome (MWAAData × GoError) × CLIENT × Log :=
  match clearTasksCommand parseDay o dryRun with
  | Outcome.panic m => (Outcome.panic m, cli, log)
  | Outcome.ret (Except.error err) => (Outcome.ret (MWAAData.zero, some err), cli, log)
  | Outcome.ret (Except.ok cmd) =>
    match PostMWAACommand env cli log cmd with
    | (Outcome.panic m, cli1, log1) => (Outcome.panic m, cli1, log1)
    | (Outcome.ret (_, some err), cli1, log1) =>
      (Outcome.ret (MWAAData.zero, some err), cli1, log1)
    | (Outcome.ret (data, none), cli1, log1) => (Outcome.ret (data, none), cli1, log1)

/-- `GetTaskState`; `fmtTime` is what `%s` prints for the pointer
`executionDate.Get()`. -/
def GetTaskState (fmtTime : Option Time → Str) (env : Env) (cli : CLIENT) (log : Log)
    (dagId taskId : Str) (executionDate : Nullable Time) (runId : Nullable Str) :
    Outcome (DagState × GoError) × CLIENT × Log :=
  if executionDate.IsSet && runId.IsSet then
    (Outcome.ret ([], some "executionDate and runId are mutually exclusive".toList), cli, log)
  else if !executionDate.IsSet && !runId.IsSet then
    (Outcome.ret ([], some "executionDate or runId required".toList), cli, log)
  else
    let cmd := "tasks failed-deps '".toList ++ dagId ++ "' '".toList ++ taskId ++ ['\'']
    let full : Outcome Str :=
      if executionDate.IsSet then
        Outcome.ret (cmd ++ " '".toList ++ fmtTime executionDate.Get ++ ['\''])
      else (deref runId.Get).bind fun r => Outcome.ret (cmd ++ " '".toList ++ r ++ ['\''])
    match full with
    | Outcome.panic m => (Outcome.panic m, cli, log)
    | Outcome.ret cmd =>
      match PostMWAACommand env cli log cmd with
      | (Outcome.panic m, cli1, log1) => (Outcome.panic m, cli1, log1)
      | (Outcome.ret (_, some err), cli1, log1) => (Outcome.ret ([], some err), cli1, log1)
      | (Outcome.ret (data, none), cli1, log1) => (Outcome.ret (data.StdoutStr, none), cli1, log1)

/-! ## `dag.go`: listing and triggering DAG runs -/

/-- The struct `DagRun`, a row of `airflow dags list-runs`: all strings. -/
structure DagRun where
  fields : dagFields
  DagRunId : Str
  ExecutionDate : Str
  DagRunIdOutput : Str
  deriving DecidableEq, Repr

/-- A string member that `omitempty` leaves out when empty and that the
client reads back into a pointer. -/
def omitEmpty (v : Str) : Option Str := if v = [] then none else some v

/-- A date member: left out when empty, otherwise read back by the client
with `parseTime` (the JSON decoding of a `time.Time`). -/
def dateMember (parseTime : Str → Except Str Time) (v : Str) : Except Str (Option Time) :=
  if v = [] then Except.ok none
  else
    match parseTime v with
    | Except.error err => Except.error err
    | Except.ok t => Except.ok (some t)

/-- A state member: left out when empty, otherwise checked by the client's
`DagState.UnmarshalJSON`. -/
def stateMember (v : Str) : Except Str (Option DagState) :=
  if v = [] then Except.ok none
  else if DagState.IsValid v then Except.ok (some v)
  else Except.error (v ++ " is not a valid DagState".toList)

/-- One row through `json.Marshal` and `json.Unmarshal` into an
`airflow.DAGRun`: `DagRun.MarshalJSON` copies `run_id` into `dag_run_id`,
empty members are omitted, and the client reads `dag_id`, `state`,
`start_date`, `end_date`, `execution_date` and `dag_run_id` in that order,
the first member it cannot read giving the error. -/
def DagRun.toAirflow (parseTime : Str → Except Str Time) (d : DagRun) : Except Str DAGRun :=
  let d := { d with DagRunIdOutput := d.DagRunId }
  match stateMember d.fields.State with
  | Except.error err => Except.error err
  | Except.ok state =>
    match dateMember parseTime d.fields.StartDate with
    | Except.error err => Except.error err
    | Except.ok startDate =>
      match dateMember parseTime d.fields.EndDate with
      | Except.error err => Except.error err
      | Except.ok endDate =>
        match dateMember parseTime d.ExecutionDate with
        | Except.error err => Except.error err
        | Except.ok executionDate =>
          Except.ok ⟨omitEmpty d.DagRunIdOutput, omitEmpty d.fields.DagId, none, executionDate,
            startDate, endDate, state, none, none⟩

/-- The rows through `json.Marshal` and `json.Unmarshal`, in order. -/
def toAirflowRuns (parseTime : Str → Except Str Time) : List DagRun → Except Str (List DAGRun)
  | [] => Except.ok []
  | d :: ds =>
    match d.toAirflow parseTime with
    | Except.error err => Except.error err
    | Except.ok r =>
      match toAirflowRuns parseTime ds with
      | Except.error err => Except.error err
      | Except.ok rs => Except.ok (r :: rs)

/-- `UnmarshalDagRuns`; `unmarshal` is `json.Unmarshal` of stdout into a
`[]DagRun`. -/
def UnmarshalDagRuns (unmarshal : Str → Except Str (List DagRun))
    (parseTime : Str → Except Str Time) (data : MWAAData) : List DAGRun × GoError :=
  match unmarshal data.Stdout with
  | Except.error err => ([], some err)
  | Except.ok dags =>
    match toAirflowRuns parseTime dags with
    | Except.error err => ([], some err)
    | Except.ok AirflowDagRuns => (AirflowDagRuns, none)

/-- `GetDagByRunId`. -/
def GetDagByRunId : List DAGRun → Str → DAGRun × Bool
  | [], _ => (DAGRun.zero, false)
  | dag :: dags, runId =>
    if dag.DagRunId.getD [] = runId then (dag, true) else GetDagByRunId dags runId

/-- `GetDagRuns`; `fmtLayout` is `Format(time.Layout)`. -/
def GetDagRuns (unmarshal : Str → Except Str (List DagRun)) (parseTime : Str → Except Str Time)
    (fmtLayout : Time → Str) (env : Env) (cli : CLIENT) (log : Log) (dagRun : DAGRun) :
    Outcome (List DAGRun × GoError) × CLIENT × Log :=
  let cmd := "dags list-runs".toList
  let cmd := if dagRun.StartDate.isSome then
    cmd ++ " --start-date '".toList ++ fmtLayout (dagRun.LogicalDate.getD Time.zero) ++ ['\'']
    else cmd
  let cmd := cmd ++ " --output json".toList
  match PostMWAACommand env cli log cmd with
  | (Outcome.panic m, cli1, log1) => (Outcome.panic m, cli1, log1)
  | (Outcome.ret (_, some err), cli1, log1) => (Outcome.ret ([], some err), cli1, log1)
  | (Outcome.ret (data, none), cli1, log1) =>
    match UnmarshalDagRuns unmarshal parseTime data with
    | (_, some err) => (Outcome.ret ([], some err), cli1, log1)
    | (dagRuns, none) =>
      if dagRun.DagId.isSome then
        match GetDagByRunId dagRuns (dagRun.DagRunId.getD []) with
        | (_, false) =>
          (Outcome.ret ([], some ("found no dag with runId: ".toList
            ++ dagRun.DagRunId.getD [])), cli1, log1)
        | (foundDagRun, true) => (Outcome.ret ([foundDagRun], none), cli1, log1)
      else (Outcome.ret (dagRuns, none), cli1, log1)

/-- `GetAllDagRuns`. -/
def GetAllDagRuns (unmarshal : Str → Except Str (List DagRun))
    (parseTime : Str → Except Str Time) (fmtLayout : Time → Str) (env : Env) (cli : CLIENT)
    (log : Log) : Outcome (List DAGRun × GoError) × CLIENT × Log :=
  GetDagRuns unmarshal parseTime fmtLayout env cli log NewDAGRun

/-- The command `NewDagRun` builds; `Conf` holds the JSON text of the
configuration. -/
def newDagRunCommand (dagRun : DAGRun) : Str :=
  let cmd := "dags trigger".toList
  let cmd := match dagRun.Conf with
    | some jsonStr => cmd ++ " --conf '".toList ++ jsonStr ++ ['\'']
    | none => cmd
  let cmd := if dagRun.ExecutionDate.isSome || dagRun.LogicalDate.isSome then
    let date := match dagRun.ExecutionDate with
      | some d => d.FormatNoDecimal
      | none => (dagRun.LogicalDate.getD Time.zero).FormatNoDecimal
    cmd ++ " --exec-date '".toList ++ date ++ ['\'']
    else cmd
  let cmd := match dagRun.DagRunId with
    | some runId => cmd ++ " --run-id '".toList ++ runId ++ ['\'']
    | none => cmd
  cmd ++ " '".toList ++ dagRun.DagId.getD [] ++ ['\'']

/-- `NewDagRun`: the run returned and the error. -/
def NewDagRun (env : Env) (cli : CLIENT) (log : Log) (dagRun : DAGRun) :
    Outcome (DAGRun × GoError) × CLIENT × Log :=
  if dagRun.DagId.getD [] = [] then
    (Outcome.ret (DAGRun.zero, some "DagRun.DagId is empty, please provide a DagId".toList),
      cli, log)
  else
    match PostMWAACommand env cli log (newDagRunCommand dagRun) with
    | (Outcome.panic m, cli1, log1) => (Outcome.panic m, cli1, log1)
    | (Outcome.ret (_, some err), cli1, log1) =>
      (Outcome.ret (DAGRun.zero, some err), cli1, log1)
    | (Outcome.ret (data, none), cli1, log1) =>
      match ParseNewDagRun data with
      | (newDagRun, err) =>
        match dagRun.Conf with
        | none =>
          (Outcome.panic "invalid memory address or nil pointer dereference".toList, cli1, log1)
        | some conf =>
          let newDagRun := { newDagRun with Conf := some conf }
          match err with
          | some e => (Outcome.ret (DAGRun.zero, some e), cli1, log1)
          | none => (Outcome.ret (newDagRun, none), cli1, log1)

/-! ## `encoding/json`: reading a JSON text -/

/-- Storing a string in the field of a JSON name. -/
def DagRun.set (d : DagRun) (field v : Str) : DagRun :=
  if field = "dag_id".toList then { d with fields := { d.fields with DagId := v } }
  else if field = "state".toList then { d with fields := { d.fields with State := v } }
  else if field = "start_date".toList then { d with fields := { d.fields with StartDate := v } }
  else if field = "end_date".toList then { d with fields := { d.fields with EndDate := v } }
  else if field = "run_id".toList then { d with DagRunId := v }
  else if field = "execution_date".toList then { d with ExecutionDate := v }
  else if field = "dag_run_id".toList then { d with DagRunIdOutput := v }
  else d

/-- The ` --dag-id '<id>'` flag `GetDagJobs` writes for a `DagId` holding a
string, nothing for one that is unset. -/
def dagIdFlag (dagId : Nullable Str) : Str :=
  match dagId.isSet, dagId.value with
  | true, some d => " --dag-id '".toList ++ d ++ ['\'']
  | _, _ => []

/-- The command of `GetDagJobs` for a dag-id flag, a limit flag and a
state: `dags list-jobs<dag flag><limit flag> --output json --state '<state>'`. -/
def listJobsCommand (dagFlag limitFlag : Str) (state : DagState) : Str :=
  "dags list-jobs".toList ++ dagFlag ++ limitFlag ++ " --output json".toList
    ++ " --state '".toList ++ state ++ ['\'']

/-- The flag ` --limit '<L>'` with `L` in decimal digits. -/
def limitFlag (L : Int) : Str := " --limit '".toList ++ Nat.toDigits 10 L.toNat ++ ['\'']

/-- The command of `GetDagState`: `dags state '<dagId>' '<date>'`, the date
in the no-decimal layout. -/
def dagStateCommand (dagId : Str) (executionDate : Time) : Str :=
  "dags state '".toList ++ dagId ++ "' '".toList ++ executionDate.FormatNoDecimal ++ ['\'']

/-- A number below 100 written with two decimal digits. -/
def twoDigits (n : Nat) : Str := [Nat.digitChar (n / 10), Nat.digitChar (n % 10)]

/-- A number below 10000 written with four decimal digits. -/
def fourDigits (n : Nat) : Str :=
  [Nat.digitChar (n / 1000), Nat.digitChar (n / 100 % 10), Nat.digitChar (n / 10 % 10),
    Nat.digitChar (n % 10)]

/-- A date-time written in the layout `2006-01-02T15:04:05-07:00`: the
fields of the date and the time of day, the sign of the zone offset and its
hours and minutes. -/
def stampText (year month day hour min sec : Nat) (sign : Char) (zh zm : Nat) : Str :=
  fourDigits year ++ '-' :: (twoDigits month ++ '-' :: (twoDigits day ++ 'T' :: (twoDigits hour
    ++ ':' :: (twoDigits min ++ ':' :: (twoDigits sec ++ sign :: (twoDigits zh
    ++ ':' :: twoDigits zm))))))

/-- The fields name a real date-time: a month, a day of that month in that
year, a time of day, and a zone offset of less than a day. -/
def realDateTime (year month day hour min sec : Nat) (sign : Char) (zh zm : Nat) : Prop :=
  year < 10000 ∧ 1 ≤ month ∧ month ≤ 12 ∧ 1 ≤ day ∧ day ≤ daysIn month year ∧ hour < 24
    ∧ min < 60 ∧ sec < 60 ∧ (sign = '+' ∨ sign = '-') ∧ zh < 24 ∧ zm < 60

/-- The token `True` or `False` of a creation line. -/
def boolText (b : Bool) : Str := if b then "True".toList else "False".toList

/-- The line `Created <DagRun D @ T: R, externally triggered: B>`. -/
def creationLine (D T R : Str) (B : Bool) : Str :=
  "Created <DagRun ".toList ++ (D ++ (" @ ".toList ++ (T ++ (": ".toList ++ (R
    ++ (", externally triggered: ".toList ++ (boolText B ++ ['>'])))))))

/-- The creation line the specification quotes. -/
def specCreationLine : Str :=
  "Created <DagRun sizzle_reel_dev @ 2022-11-05T18:15:05-00:00: manual__2022-11-05T18:15:05+00:00, externally triggered: False>".toList

/-- The text that opens an entry of a task listing. -/
def taskOpen : Str := "<TaskInstance: ".toList

/-- One entry of a task listing with the text that stands before it: the
text `before` (a header, blank lines, indentation) and the four tokens. -/
structure TaskEntry where
  before : Str
  dagId : Str
  taskId : Str
  runId : Str
  state : Str

/-- The entry as written, `<TaskInstance: D.K R [S]>`. -/
def TaskEntry.text (e : TaskEntry) : Str :=
  taskOpen ++ (e.dagId ++ '.' :: (e.taskId ++ ' ' :: (e.runId ++ ' ' :: '[' :: (e.state
    ++ "]>".toList))))

/-- The `Task` record an entry stands for. -/
def TaskEntry.task (e : TaskEntry) : Task :=
  ⟨some e.text, some e.dagId, some e.taskId, some e.runId, some e.state⟩

/-- A stdout with the entries `es` in order, each after its `before` text,
and `trailer` after the last one. -/
def listing : List TaskEntry → Str → Str
  | [], trailer => trailer
  | e :: es, trailer => e.before ++ (e.text ++ listing es trailer)

/-- A line ends here: the text is empty or begins with a newline. -/
def lineEnds (s : Str) : Prop := s = [] ∨ ∃ t, s = '\n' :: t

/-- A well-formed entry: the text before it opens no entry, `D` and `K` are
non-empty over letters, digits, `_` and `-`, `R` is non-empty without a
newline and `S` is one of failed, success, skipped. -/
def TaskEntry.wellFormed (e : TaskEntry) : Prop :=
  ¬ taskOpen <:+: e.before
    ∧ e.dagId ≠ [] ∧ (∀ c ∈ e.dagId, c.isAlphanum = true ∨ c = '_' ∨ c = '-')
    ∧ e.taskId ≠ [] ∧ (∀ c ∈ e.taskId, c.isAlphanum = true ∨ c = '_' ∨ c = '-')
    ∧ e.runId ≠ [] ∧ '\n' ∉ e.runId
    ∧ e.state ∈ ["failed".toList, "success".toList, "skipped".toList]

/-- Every entry is well formed and ends its line, and the trailer opens no
entry. -/
def wellFormedListing : List TaskEntry → Str → Prop
  | [], trailer => ¬ taskOpen <:+: trailer
  | e :: es, trailer =>
    e.wellFormed ∧ lineEnds (listing es trailer) ∧ wellFormedListing es trailer

/-- The five groups the listing pattern yields at an entry: the entry and
its four tokens. -/
def TaskEntry.groups (e : TaskEntry) : Caps := [e.text, e.dagId, e.taskId, e.runId, e.state]

/-- The two entries of the listing in `TestClearTask`, each with the text
that stands before it. -/
def testEntries : List TaskEntry :=
  [⟨"You are about to delete these 3 tasks:\n\n\t".toList, "example_bash_operator".toList,
      "run_after_loop".toList, "manual__2022-11-07T00:31:19.756196+00:00".toList,
      "success".toList⟩,
    ⟨"\n\n".toList, "sizzle_reel_dev".toList, "sizzle_reel".toList,
      "2GrxGljf6YHeLgXWNlHOtyZuF1I".toList, "failed".toList⟩]

/-- The flags `AddConnection` writes after the description and the
connection id that ends the command. -/
def connectionTail (conn : Connection) : Str :=
  (if conn.Extra.IsSet then " --conn-extra '".toList ++ conn.Extra.Get.getD [] ++ ['\''] else [])
    ++ (if conn.Login.IsSet then " --conn-login '".toList ++ conn.Login.Get.getD [] ++ ['\'']
      else [])
    ++ (if conn.Password.isSome then
      " --conn-password '".toList ++ conn.Password.getD [] ++ ['\''] else [])
    ++ (if conn.Port.IsSet then
      " --conn-port '".toList ++ runeToString (conn.Port.Get.getD 0) ++ ['\''] else [])
    ++ (if conn.ConnType.isSome then
      " --conn-type '".toList ++ conn.ConnType.getD [] ++ ['\''] else [])
    ++ (" '".toList ++ conn.ConnectionId.getD [] ++ ['\''])

/-- The connection of `TestAddConnection`. -/
def testConnection : Connection where
  Description := Nullable.new (some "new4 description".toList)
  ConnectionId := some "new4".toList
  ConnType := some "hive_metastore".toList
  Host := Nullable.new (some "host".toList)
  Login := Nullable.new (some "airflow".toList)
  Schema := Nullable.new (some "airflow".toList)
  Port := Nullable.new (some 9083)
  Password := some "airflow".toList
  Extra := Nullable.unset

/-- A `ClearTasks` for the DAG `d` with the three optional flags set to
false and nothing else set. -/
def plainClearTasks (d : Str) : ClearTasks where
  DagId := some d
  TaskRegexp := Nullable.unset
  UseDagIdRegex := Nullable.new (some false)
  IncludeDownstream := Nullable.new (some false)
  IncludeUpstream := Nullable.new (some false)
  TaskIds := none
  StartDate := none
  EndDate := none
  OnlyFailed := none
  OnlyRunning := none
  IncludeSubdags := none
  IncludeParentdag := none

/-- The fields fit the digit pattern of the timestamp: a year of four
digits, two digits for every other field, and a sign. -/
def stampDigits (year month day hour min sec : Nat) (sign : Char) (zh zm : Nat) : Prop :=
  year < 10000 ∧ month < 100 ∧ day < 100 ∧ hour < 100 ∧ min < 100 ∧ sec < 100
    ∧ (sign = '+' ∨ sign = '-') ∧ zh < 100 ∧ zm < 100

/-- A field is out of range: no such month, no such day in that month of
that year, an hour of 24 or more, a minute or second of 60 or more, or a
zone offset of more than 24 hours or with more than 60 minutes. -/
def fieldOutOfRange (year month day hour min sec zh zm : Nat) : Prop :=
  month = 0 ∨ 12 < month ∨ day = 0 ∨ daysIn month year < day ∨ 24 ≤ hour ∨ 60 ≤ min ∨ 60 ≤ sec
    ∨ 24 < zh ∨ 60 < zm

/-- The value of a date member of a row: none when the text is empty,
otherwise the date-time the text names. -/
def dateOf (parseTime : Str → Except Str Time) (v : Str) : Option Time :=
  if v = [] then none else (parseTime v).toOption

/-- The DAG run a row describes: `run_id` as the run id, and the row's DAG
id, state and dates. -/
def describedRun (parseTime : Str → Except Str Time) (d : DagRun) : DAGRun where
  DagRunId := omitEmpty d.DagRunId
  DagId := omitEmpty d.fields.DagId
  LogicalDate := none
  ExecutionDate := dateOf parseTime d.ExecutionDate
  StartDate := dateOf parseTime d.fields.StartDate
  EndDate := dateOf parseTime d.fields.EndDate
  State := omitEmpty d.fields.State
  ExternalTrigger := none
  Conf := none

/-- The row of `TestUnmarshalDagRuns`. -/
def testRow : DagRun :=
  ⟨⟨"sizzle_reel_dev".toList, "failed".toList, "2022-10-30T20:06:52.368385+00:00".toList,
    "2022-10-30T20:06:55.845341+00:00".toList⟩, "2GrxGljf6YHeLgXWNlHOtyZuF1I".toList,
    "2022-10-30T20:06:51.884209+00:00".toList, []⟩

/-- A sample reading of the three date-times of `TestUnmarshalDagRuns`. -/
def testParseTime (v : Str) : Except Str Time :=
  if v = "2022-10-30T20:06:52.368385+00:00".toList then
    Except.ok ⟨2022, 10, 30, 20, 6, 52, 368385000, 0⟩
  else if v = "2022-10-30T20:06:55.845341+00:00".toList then
    Except.ok ⟨2022, 10, 30, 20, 6, 55, 845341000, 0⟩
  else if v = "2022-10-30T20:06:51.884209+00:00".toList then
    Except.ok ⟨2022, 10, 30, 20, 6, 51, 884209000, 0⟩
  else Except.error ("parsing time \"".toList ++ v ++ "\"".toList)

/-- The texts an expression matches in full. -/
def Re.accepts : Re → Str → Prop
  | Re.lit l, w => w = l
  | Re.cls p, w => ∃ c, w = [c] ∧ p c = true
  | Re.plus p, w => w ≠ [] ∧ ∀ c ∈ w, p c = true
  | Re.alt a b, w => Re.accepts a w ∨ Re.accepts b w
  | Re.seq a b, w => ∃ u v, w = u ++ v ∧ Re.accepts a u ∧ Re.accepts b v
  | Re.cap _ a, w => Re.accepts a w

/-- The texts an expression matches in full, with the groups before and
after the match. -/
def Re.acceptsWith : Re → Str → Caps → Caps → Prop
  | Re.lit l, w, g, g1 => w = l ∧ g1 = g
  | Re.cls p, w, g, g1 => (∃ c, w = [c] ∧ p c = true) ∧ g1 = g
  | Re.plus p, w, g, g1 => (w ≠ [] ∧ ∀ c ∈ w, p c = true) ∧ g1 = g
  | Re.alt a b, w, g, g1 => Re.acceptsWith a w g g1 ∨ Re.acceptsWith b w g g1
  | Re.seq a b, w, g, g1 =>
    ∃ u v gm, w = u ++ v ∧ Re.acceptsWith a u g gm ∧ Re.acceptsWith b v gm g1
  | Re.cap i a, w, g, g1 => ∃ g0, Re.acceptsWith a w g g0 ∧ g1 = g0.set i w

/-- An expression without capturing groups. -/
def Re.capFree : Re → Bool
  | Re.lit _ => true
  | Re.cls _ => true
  | Re.plus _ => true
  | Re.alt a b => Re.capFree a && Re.capFree b
  | Re.seq a b => Re.capFree a && Re.capFree b
  | Re.cap _ _ => false

/-- The stdout holds a run-creation line: after a non-empty line, the line
`Created <DagRun D @ T: R, externally triggered: B>` with `D` non-empty over
letters, digits, `_`, `.` and `-`, `T` in the digit pattern of the
timestamp, `R` non-empty and `B` True or False. -/
def holdsCreationLine (s : Str) : Prop :=
  ∃ (pre P D R post : Str) (year month day hour min sec : Nat) (sign : Char) (zh zm : Nat)
    (B : Bool),
    s = pre ++ (P ++ '\n' :: (creationLine D
        (stampText year month day hour min sec sign zh zm) R B ++ post))
      ∧ P ≠ [] ∧ '\n' ∉ P ∧ D ≠ []
      ∧ (∀ c ∈ D, c.isAlphanum = true ∨ c = '_' ∨ c = '.' ∨ c = '-')
      ∧ R ≠ [] ∧ '\n' ∉ R ∧ stampDigits year month day hour min sec sign zh zm

/-- The URL of the console for a host. -/
def consoleURL (host : Str) : Str := "https://".toList ++ host ++ "/aws_mwaa/cli".toList

/-- A sample environment: the clock reads `100`, the token service issues
token `tok` for host `host.example`, every URL is accepted and the console
answers every request with status 200 and the two streams given. -/
def sampleEnv (stdout stderr : Str) : Env where
  now := 100
  CreateCliToken := fun _ => Except.ok ⟨some "tok".toList, some "host.example".toList⟩
  NewRequest := fun _ => none
  Do := fun _ => Except.ok ⟨200, "200 OK".toList, Except.ok ⟨stderr, stdout, [], []⟩⟩

/-- A sample environment whose console answers every request with the
status given and an empty body that decodes. -/
def statusEnv (code : Nat) (status : Str) : Env where
  now := 100
  CreateCliToken := fun _ => Except.ok ⟨some "tok".toList, some "host.example".toList⟩
  NewRequest := fun _ => none
  Do := fun _ => Except.ok ⟨code, status, Except.ok ⟨[], [], [], []⟩⟩

/-- A sample environment whose token service refuses to issue a token. -/
def deniedEnv : Env where
  now := 100
  CreateCliToken := fun _ => Except.error "AccessDeniedException".toList
  NewRequest := fun _ => none
  Do := fun _ => Except.ok ⟨200, "200 OK".toList, Except.ok ⟨[], [], [], []⟩⟩

/-- A sample client holding a token that expires at the instant given. -/
def heldClient (expiry : Nat) : CLIENT :=
  ⟨some "env1".toList, some ⟨some "tok".toList, some "host.example".toList⟩, expiry⟩

/-- A sample client: a new client for the environment `env1`. -/
def sampleClient : CLIENT := NewClient (some "env1".toList)

/-! ## Facts about the string functions -/

theorem hasPrefix_iff (s p : Str) : HasPrefix s p = true ↔ p <+: s := by
  induction p generalizing s with
  | nil => simp [HasPrefix]
  | cons d p ih =>
    cases s with
    | nil => simp [HasPrefix]
    | cons c s =>
      simp only [HasPrefix, Bool.and_eq_true, beq_iff_eq, ih, List.cons_prefix_cons]
      constructor
      · rintro ⟨h1, h2⟩; exact ⟨h1.symm, h2⟩
      · rintro ⟨h1, h2⟩; exact ⟨h1.symm, h2⟩

theorem contains_iff (s sub : Str) : Contains s sub = true ↔ sub <:+: s := by
  induction s with
  | nil =>
    simp only [Contains, hasPrefix_iff]
    constructor
    · intro h; exact h.isInfix
    · intro h
      have := List.eq_nil_of_infix_nil h
      subst this; exact List.prefix_refl _
  | cons c s ih =>
    simp only [Contains, Bool.or_eq_true, hasPrefix_iff, ih, List.infix_cons_iff]

theorem contains_eq_false_iff (s sub : Str) : Contains s sub = false ↔ ¬ sub <:+: s := by
  rw [← contains_iff]; simp

theorem hasSuffix_iff (s suffix : Str) : HasSuffix s suffix = true ↔ suffix <:+ s := by
  simp [HasSuffix, hasPrefix_iff, List.reverse_prefix]

theorem trimSuffix_append (o suffix : Str) : TrimSuffix (o ++ suffix) suffix = o := by
  have h : HasSuffix (o ++ suffix) suffix = true := (hasSuffix_iff _ _).2 (List.suffix_append _ _)
  simp [TrimSuffix, h]

theorem trimSuffix_of_not_suffix (o suffix : Str) (h : ¬ suffix <:+ o) :
    TrimSuffix o suffix = o := by
  have h1 : HasSuffix o suffix = false := by
    rw [← Bool.not_eq_true, hasSuffix_iff]; exact h
  simp [TrimSuffix, h1]

theorem trimSuffix_newline (o : Str) :
    TrimSuffix o ['\n'] = if o.getLast? = some '\n' then o.dropLast else o := by
  rcases List.eq_nil_or_concat o with h | ⟨l, c, h⟩
  · subst h; decide
  · subst h
    by_cases hc : c = '\n'
    · subst hc
      simp [trimSuffix_append]
    · rw [trimSuffix_of_not_suffix]
      · simp [hc]
      · rintro ⟨t, ht⟩
        rw [List.concat_eq_append] at ht
        have := List.append_inj_right' ht rfl
        simp at this
        exact hc this.symm

theorem splitGo_single_append (c : Char) (a b cur : Str) (ha : c ∉ a) :
    splitGo [c] 0 cur (a ++ c :: b) = (cur ++ a) :: splitGo [c] 0 [] b := by
  induction a generalizing cur with
  | nil => simp [splitGo, HasPrefix]
  | cons x a ih =>
    have hx : x ≠ c := fun h => ha (by simp [h])
    have ha1 : c ∉ a := fun h => ha (by simp [h])
    simp [splitGo, HasPrefix, hx, ih _ ha1]

theorem splitGo_single_none (c : Char) (a cur : Str) (ha : c ∉ a) :
    splitGo [c] 0 cur a = [cur ++ a] := by
  induction a generalizing cur with
  | nil => simp [splitGo]
  | cons x a ih =>
    have hx : x ≠ c := fun h => ha (by simp [h])
    have ha1 : c ∉ a := fun h => ha (by simp [h])
    simp [splitGo, HasPrefix, hx, ih _ ha1]

theorem split_single_append (c : Char) (a b : Str) (ha : c ∉ a) :
    Split (a ++ c :: b) [c] = a :: Split b [c] := by
  simp [Split, splitGo_single_append c a b [] ha]

theorem split_single_none (c : Char) (a : Str) (ha : c ∉ a) : Split a [c] = [a] := by
  simp [Split, splitGo_single_none c a [] ha]

theorem splitGo_single_head (c : Char) (x cur : Str) :
    (splitGo [c] 0 cur x).head? = some (cur ++ x.takeWhile (fun a => a != c)) := by
  induction x generalizing cur with
  | nil => simp [splitGo]
  | cons a x ih =>
    by_cases ha : a = c
    · subst ha
      simp [splitGo, HasPrefix]
    · simp [splitGo, HasPrefix, ha, ih]

theorem split_single_head (c : Char) (x : Str) :
    (Split x [c]).head? = some (x.takeWhile (fun a => a != c)) := by
  simp [Split, splitGo_single_head]

theorem split_second_line (h x : Str) (hh : '\n' ∉ h) :
    (Split (h ++ '\n' :: x) ['\n']).get? 1 = some (x.takeWhile (fun a => a != '\n')) := by
  rw [split_single_append _ _ _ hh]
  have := split_single_head '\n' x
  rw [List.head?_eq_getElem?] at this
  simpa using this

theorem split_first_field (line : Str) :
    (Split line [',']).headD [] = line.takeWhile (fun a => a != ',') := by
  have := split_single_head ',' line
  cases hS : Split line [','] with
  | nil => rw [hS] at this; simp at this
  | cons a l => rw [hS] at this; simpa using this

/-! ## Facts about the console call -/

theorem decode_ok (data : MWAAData) :
    DecodeMWAAData (Except.ok data) =
      (⟨data.Stderr, data.Stdout, TrimSuffix data.Stderr ['\n'], TrimSuffix data.Stdout ['\n']⟩,
        if Contains (TrimSuffix data.Stderr ['\n']) "airflow.exceptions".toList then
          some (TrimSuffix data.Stderr ['\n']) else none) := by
  unfold DecodeMWAAData
  by_cases hc : Contains (TrimSuffix data.Stderr ['\n']) "airflow.exceptions".toList = true
  · simp only [hc, if_true]
  · simp only [hc, if_false, Bool.false_eq_true]

theorem decode_nil_error (b : Except Str MWAAData) (data : MWAAData)
    (h : DecodeMWAAData b = (data, none)) :
    Contains data.StderrStr "airflow.exceptions".toList = false := by
  cases b with
  | error e => simp [DecodeMWAAData] at h
  | ok d =>
    rw [decode_ok] at h
    by_cases hc : Contains (TrimSuffix d.Stderr ['\n']) "airflow.exceptions".toList = true
    · rw [if_pos hc] at h
      simp only [Prod.mk.injEq] at h
      exact absurd h.2 (by simp)
    · rw [if_neg hc] at h
      simp only [Prod.mk.injEq, and_true] at h
      rw [← h]
      exact Bool.eq_false_iff.2 hc

theorem postRequest_nil_error (env : Env) (cli cli1 : CLIENT) (log log1 : Log) (cmd : Str)
    (data : MWAAData) (h : postRequest env cli log cmd = (Outcome.ret (data, none), cli1, log1)) :
    Contains data.StderrStr "airflow.exceptions".toList = false := by
  unfold postRequest at h
  cases h1 : cli.tokenOutput with
  | none => simp only [h1] at h; exact absurd h (by simp)
  | some tokenOutput =>
    simp only [h1] at h
    cases h2 : tokenOutput.WebServerHostname with
    | none => simp only [h2] at h; exact absurd h (by simp)
    | some host =>
      simp only [h2] at h
      cases h3 : env.NewRequest ("https://".toList ++ host ++ "/aws_mwaa/cli".toList) with
      | some err => simp only [h3] at h; exact absurd h (by simp [MWAAData.zero])
      | none =>
        simp only [h3] at h
        cases h4 : tokenOutput.CliToken with
        | none => simp only [h4] at h; exact absurd h (by simp)
        | some token =>
          simp only [h4] at h
          cases h5 : env.Do ⟨"https://".toList ++ host ++ "/aws_mwaa/cli".toList,
              "text/plain".toList, "Bearer ".toList ++ token, cmd⟩ with
          | error err => simp only [h5] at h; exact absurd h (by simp)
          | ok resp =>
            simp only [h5] at h
            by_cases h6 : resp.StatusCode = 200
            · simp only [h6, ne_eq, not_true_eq_false, if_false, Prod.mk.injEq,
                Outcome.ret.injEq] at h
              exact decode_nil_error _ _ h.1
            · simp only [ne_eq, h6, not_false_eq_true, if_true] at h
              exact absurd h (by simp)

theorem post_nil_error (env : Env) (cli cli1 : CLIENT) (log log1 : Log) (cmd : Str)
    (data : MWAAData)
    (h : PostMWAACommand env cli log cmd = (Outcome.ret (data, none), cli1, log1)) :
    Contains data.StderrStr "airflow.exceptions".toList = false := by
  unfold PostMWAACommand at h
  split at h
  · split at h
    · simp at h
    · exact postRequest_nil_error _ _ _ _ _ _ _ h
  · exact postRequest_nil_error _ _ _ _ _ _ _ h

/-- A longer text that holds the marker cannot occur where the marker does
not. -/
theorem not_contains_of_marker (s big marker : Str) (hm : marker <:+: big)
    (h : Contains s marker = false) : Contains s big = false := by
  rw [contains_eq_false_iff] at h ⊢
  exact fun hb => h (hm.trans hb)

/-! ## The decoder -/

/-- C3: for a body that decodes, `DecodeMWAAData` returns an error exactly
when the error-stream text (stderr less one trailing newline) contains
`airflow.exceptions`; the error then is that text, otherwise it is nil, and
in both cases the data returned carries the two decoded streams. -/
theorem DecodeMWAAData_error_iff_marker (data : MWAAData) :
    ((DecodeMWAAData (Except.ok data)).2 ≠ none ↔
        "airflow.exceptions".toList <:+: TrimSuffix data.Stderr ['\n'])
      ∧ ("airflow.exceptions".toList <:+: TrimSuffix data.Stderr ['\n'] →
          (DecodeMWAAData (Except.ok data)).2 = some (TrimSuffix data.Stderr ['\n']))
      ∧ (¬ "airflow.exceptions".toList <:+: TrimSuffix data.Stderr ['\n'] →
          (DecodeMWAAData (Except.ok data)).2 = none)
      ∧ (DecodeMWAAData (Except.ok data)).1
          = ⟨data.Stderr, data.Stdout, TrimSuffix data.Stderr ['\n'],
              TrimSuffix data.Stdout ['\n']⟩ := by
  rw [decode_ok]
  by_cases hc : Contains (TrimSuffix data.Stderr ['\n']) "airflow.exceptions".toList = true
  · have hi := (contains_iff _ _).1 hc
    rw [if_pos hc]
    exact ⟨⟨fun _ => hi, fun _ => by simp⟩, fun _ => rfl, fun h => absurd hi h, rfl⟩
  · have hi : ¬ "airflow.exceptions".toList <:+: TrimSuffix data.Stderr ['\n'] :=
      fun h => hc ((contains_iff _ _).2 h)
    rw [if_neg hc]
    exact ⟨⟨fun h => absurd rfl h, fun h => absurd h hi⟩, fun h => absurd h hi, fun _ => rfl, rfl⟩

/-- C4: for a body whose stdout and stderr fields hold `o` and `e`,
`StdoutStr` is `o` without its last character when `o` ends in a newline and
`o` itself otherwise, `StderrStr` likewise from `e`; a stream ending in two
newlines keeps one; the raw `Stdout` and `Stderr` are as received. -/
theorem DecodeMWAAData_trims_one_newline (o e x y : Str) :
    (DecodeMWAAData (Except.ok ⟨e, o, x, y⟩)).1.StdoutStr
        = (if o.getLast? = some '\n' then o.dropLast else o)
      ∧ (DecodeMWAAData (Except.ok ⟨e, o, x, y⟩)).1.StderrStr
        = (if e.getLast? = some '\n' then e.dropLast else e)
      ∧ (DecodeMWAAData (Except.ok ⟨e, o ++ ['\n', '\n'], x, y⟩)).1.StdoutStr = o ++ ['\n']
      ∧ (DecodeMWAAData (Except.ok ⟨e ++ ['\n', '\n'], o, x, y⟩)).1.StderrStr = e ++ ['\n']
      ∧ (DecodeMWAAData (Except.ok ⟨e, o, x, y⟩)).1.Stdout = o
      ∧ (DecodeMWAAData (Except.ok ⟨e, o, x, y⟩)).1.Stderr = e := by
  have h2 : ∀ t : Str, TrimSuffix (t ++ ['\n', '\n']) ['\n'] = t ++ ['\n'] := fun t => by
    have := trimSuffix_append (t ++ ['\n']) ['\n']
    simpa using this
  simp only [decode_ok, trimSuffix_newline, h2]
  simp

/-! ## Listing jobs -/

/-- C5: when `Limit` holds a value `L ≤ 0` and `DagId` is unset or holds a
string, `GetDagJobs` returns the empty `DagJobs` and a nil error, and leaves
the client and the log of calls as they were: no token is requested and no
request is sent. -/
theorem GetDagJobs_nonpositive_limit (unmarshal : Str → Except Str DagJobs) (env : Env)
    (cli : CLIENT) (log : Log) (i : DagJobsInput) (L : Int) (hL : L ≤ 0)
    (hLimit : i.Limit = Nullable.new (some L))
    (hDag : i.DagId = Nullable.unset ∨ ∃ d, i.DagId = Nullable.new (some d)) :
    GetDagJobs unmarshal env cli log i = (Outcome.ret ([], none), cli, log) := by
  have hL' : ¬ L > 0 := not_lt.2 hL
  rcases hDag with hd | ⟨d, hd⟩
  · simp only [GetDagJobs, hd, hLimit, Nullable.unset, Nullable.new, Nullable.IsSet, Nullable.Get,
      hL', if_true, if_false, Bool.false_eq_true]
  · simp only [GetDagJobs, hd, hLimit, Nullable.new, Nullable.IsSet, Nullable.Get,
      hL', if_true, if_false]

theorem GetDagJobs_nonpositive_limit_witness :
    GetDagJobs (fun _ => Except.ok []) ⟨5, fun _ => Except.error [], fun _ => none,
        fun _ => Except.error []⟩ (NewClient (some "env".toList)) ⟨[], []⟩
        ⟨Nullable.new (some "dag".toList), "success".toList, Nullable.new (some (-1))⟩
      = (Outcome.ret ([], none), NewClient (some "env".toList), ⟨[], []⟩) :=
  GetDagJobs_nonpositive_limit _ _ _ _ _ (-1) (by decide) rfl (Or.inr ⟨_, rfl⟩)

/-- A pattern that lacks the character `q` and occurs in `a ++ q :: m`
occurs in `a` or in `m`. -/
theorem infix_of_infix_sep (P a m : Str) (q : Char) (hq : q ∉ P) (h : P <:+: a ++ q :: m) :
    P <:+: a ∨ P <:+: m := by
  have key : ∀ b : Str, P <+: b ++ q :: m → P <+: b := by
    intro b hb
    by_cases hl : P.length ≤ b.length
    · exact List.prefix_of_prefix_length_le hb (List.prefix_append _ _) hl
    · exfalso
      have h1 : b ++ [q] <+: b ++ q :: m := by simp
      have h2 : b ++ [q] <+: P :=
        List.prefix_of_prefix_length_le h1 hb (by simp; omega)
      exact hq (h2.subset (by simp))
  induction a with
  | nil =>
    rcases List.infix_cons_iff.1 h with h1 | h1
    · exact Or.inl (key [] h1).isInfix
    · exact Or.inr h1
  | cons x a ih =>
    rcases List.infix_cons_iff.1 h with h1 | h1
    · exact Or.inl (key (x :: a) h1).isInfix
    · rcases ih h1 with h2 | h2
      · exact Or.inl (List.infix_cons h2)
      · exact Or.inr h2

theorem postRequest_state (env : Env) (cli : CLIENT) (log : Log) (cmd tok host : Str)
    (hTok : cli.tokenOutput = some ⟨some tok, some host⟩)
    (hURL : env.NewRequest (consoleURL host) = none) :
    (postRequest env cli log cmd).2
      = (cli, { log with sent := log.sent
          ++ [⟨consoleURL host, "text/plain".toList, "Bearer ".toList ++ tok, cmd⟩] }) := by
  unfold consoleURL at hURL ⊢
  unfold postRequest
  simp only [hTok, hURL]
  cases h5 : env.Do ⟨"https://".toList ++ host ++ "/aws_mwaa/cli".toList,
      "text/plain".toList, "Bearer ".toList ++ tok, cmd⟩ with
  | error err => rfl
  | ok resp =>
    by_cases h6 : resp.StatusCode = 200
    · simp only [h6, ne_eq, not_true_eq_false, if_false]
    · simp only [ne_eq, h6, not_false_eq_true, if_true]

theorem getDagJobsSend_state (unmarshal : Str → Except Str DagJobs) (env : Env) (cli : CLIENT)
    (log : Log) (i : DagJobsInput) (cmd : Str) (hState : i.State ∈ AllowedDagStateEnumValues)
    (hDag : i.DagId = Nullable.unset ∨ ∃ d, i.DagId = Nullable.new (some d)) :
    (getDagJobsSend unmarshal env cli log i cmd).2
      = (PostMWAACommand env cli log
          (cmd ++ " --output json".toList ++ " --state '".toList ++ i.State ++ ['\''])).2 := by
  have hv : DagState.IsValid i.State = true := by simp [DagState.IsValid, hState]
  unfold getDagJobsSend
  simp only [hv, Bool.not_true, Bool.false_eq_true, if_false]
  rcases h : PostMWAACommand env cli log
      (cmd ++ " --output json".toList ++ " --state '".toList ++ i.State ++ ['\''])
    with ⟨out, cli1, log1⟩
  cases out with
  | panic m => rfl
  | ret r =>
    rcases r with ⟨data, err⟩
    cases err with
    | some e => rfl
    | none =>
      rcases hDag with hd | ⟨d, hd⟩
      · simp only [hd, Nullable.unset, Nullable.IsSet, Bool.false_eq_true, if_false]
      · simp only [hd, Nullable.new, Nullable.IsSet, Nullable.Get, if_true]
        split <;> rfl

theorem itoa_pos (L : Int) (hL : 0 < L) : Itoa L = Nat.toDigits 10 L.toNat := by
  have h1 : ¬ L < 0 := by omega
  have h2 : L.natAbs = L.toNat := by omega
  simp [Itoa, h1, h2]

theorem getDagJobs_limit_state (unmarshal : Str → Except Str DagJobs) (env : Env) (cli : CLIENT)
    (log : Log) (i : DagJobsInput) (L : Int) (hL : 0 < L)
    (hLimit : i.Limit = Nullable.new (some L))
    (hState : i.State ∈ AllowedDagStateEnumValues)
    (hDag : i.DagId = Nullable.unset ∨ ∃ d, i.DagId = Nullable.new (some d)) :
    (GetDagJobs unmarshal env cli log i).2
      = (PostMWAACommand env cli log
          (listJobsCommand (dagIdFlag i.DagId) (limitFlag L) i.State)).2 := by
  have hL' : L > 0 := hL
  rcases hDag with hd | ⟨d, hd⟩
  · simp only [GetDagJobs, hd, hLimit, Nullable.unset, Nullable.new, Nullable.IsSet,
      Nullable.Get, hL', if_true, if_false, Bool.false_eq_true]
    rw [getDagJobsSend_state unmarshal env cli log i _ hState (Or.inl hd), itoa_pos L hL]
    simp only [listJobsCommand, limitFlag, dagIdFlag, List.append_assoc, List.append_nil,
      List.nil_append]
  · simp only [GetDagJobs, hd, hLimit, Nullable.new, Nullable.IsSet, Nullable.Get, hL', if_true]
    rw [getDagJobsSend_state unmarshal env cli log i _ hState (Or.inr ⟨d, hd⟩), itoa_pos L hL]
    simp only [listJobsCommand, limitFlag, dagIdFlag, List.append_assoc]

theorem getDagJobs_nolimit_state (unmarshal : Str → Except Str DagJobs) (env : Env)
    (cli : CLIENT) (log : Log) (i : DagJobsInput)
    (hLimit : i.Limit = Nullable.unset)
    (hState : i.State ∈ AllowedDagStateEnumValues)
    (hDag : i.DagId = Nullable.unset ∨ ∃ d, i.DagId = Nullable.new (some d)) :
    (GetDagJobs unmarshal env cli log i).2
      = (PostMWAACommand env cli log (listJobsCommand (dagIdFlag i.DagId) [] i.State)).2 := by
  rcases hDag with hd | ⟨d, hd⟩
  · simp only [GetDagJobs, hd, hLimit, Nullable.unset, Nullable.IsSet,
      if_false, Bool.false_eq_true]
    rw [getDagJobsSend_state unmarshal env cli log i _ hState (Or.inl hd)]
    simp only [listJobsCommand, dagIdFlag, List.append_assoc, List.append_nil, List.nil_append]
  · simp only [GetDagJobs, hd, hLimit, Nullable.new, Nullable.unset, Nullable.IsSet,
      Nullable.Get, if_true, if_false, Bool.false_eq_true]
    rw [getDagJobsSend_state unmarshal env cli log i _ hState (Or.inr ⟨d, hd⟩)]
    simp only [listJobsCommand, dagIdFlag, List.append_assoc, List.append_nil, List.nil_append]

theorem post_state_of_valid_token (env : Env) (cli : CLIENT) (log : Log) (cmd tok host : Str)
    (hTok : cli.tokenOutput = some ⟨some tok, some host⟩)
    (hExp : env.now ≤ cli.tokenExpiration)
    (hURL : env.NewRequest (consoleURL host) = none) :
    (PostMWAACommand env cli log cmd).2
      = (cli, { log with sent := log.sent
          ++ [⟨consoleURL host, "text/plain".toList, "Bearer ".toList ++ tok, cmd⟩] }) := by
  have h : ¬ env.now > cli.tokenExpiration := not_lt.2 hExp
  unfold PostMWAACommand
  rw [if_neg h]
  exact postRequest_state env cli log cmd tok host hTok hURL

theorem no_limit_in_command (dagId : Nullable Str) (state : DagState)
    (hState : state ∈ AllowedDagStateEnumValues)
    (hDag : dagId = Nullable.unset ∨
      ∃ d, dagId = Nullable.new (some d) ∧ ¬ "--limit".toList <:+: d) :
    ¬ "--limit".toList <:+: listJobsCommand (dagIdFlag dagId) [] state := by
  intro h
  have hq : '\'' ∉ "--limit".toList := by decide
  simp only [AllowedDagStateEnumValues, List.mem_cons, List.mem_singleton, List.not_mem_nil,
    or_false] at hState
  have hs : ¬ "--limit".toList <:+: state := by
    rw [← contains_iff]
    rcases hState with h1 | h1 | h1 | h1 <;> subst h1 <;> decide
  rcases hDag with hd | ⟨d, hd, hnd⟩
  · subst hd
    rw [← contains_iff] at h
    revert h
    rcases hState with h1 | h1 | h1 | h1 <;> subst h1 <;> decide
  · subst hd
    have e : listJobsCommand (dagIdFlag (Nullable.new (some d))) [] state
        = " dags list-jobs --dag-id ".toList.tail
          ++ '\'' :: (d ++ '\'' :: (" --output json --state ".toList
            ++ '\'' :: (state ++ '\'' :: []))) := by
      simp [listJobsCommand, dagIdFlag, Nullable.new]
    rw [e] at h
    rcases infix_of_infix_sep _ _ _ _ hq h with h1 | h1
    · rw [← contains_iff] at h1
      revert h1
      decide
    · rcases infix_of_infix_sep _ _ _ _ hq h1 with h2 | h2
      · exact hnd h2
      · rcases infix_of_infix_sep _ _ _ _ hq h2 with h3 | h3
        · rw [← contains_iff] at h3
          revert h3
          decide
        · rcases infix_of_infix_sep _ _ _ _ hq h3 with h4 | h4
          · exact hs h4
          · have := List.eq_nil_of_infix_nil h4
            exact absurd this (by decide)

/-- C6, as amended: when `Limit` holds `L > 0`, `State` is a valid `DagState`
and `DagId` is unset or holds a string, what `GetDagJobs` does to the client
and the log of calls is what `PostMWAACommand` does with the command
`dags list-jobs[ --dag-id '<id>'] --limit '<L>' --output json --state '<state>'`,
which contains ` --limit '<L>'` with `L` in decimal; with a held, unexpired
token that request is sent.  With `Limit` unset the command is the same
without the limit flag, and `--limit` does not occur in it unless it occurs
in the dag id. -/
theorem GetDagJobs_positive_limit (unmarshal : Str → Except Str DagJobs) (env : Env) (cli : CLIENT)
    (log : Log) (i : DagJobsInput) (L : Int) (hL : 0 < L)
    (hLimit : i.Limit = Nullable.new (some L))
    (hState : i.State ∈ AllowedDagStateEnumValues)
    (hDag : i.DagId = Nullable.unset ∨ ∃ d, i.DagId = Nullable.new (some d)) :
    (GetDagJobs unmarshal env cli log i).2
        = (PostMWAACommand env cli log
            (listJobsCommand (dagIdFlag i.DagId) (limitFlag L) i.State)).2
      ∧ limitFlag L <:+: listJobsCommand (dagIdFlag i.DagId) (limitFlag L) i.State
      ∧ (∀ tok host, cli.tokenOutput = some ⟨some tok, some host⟩ →
          env.now ≤ cli.tokenExpiration → env.NewRequest (consoleURL host) = none →
          (GetDagJobs unmarshal env cli log i).2.2.sent = log.sent
            ++ [⟨consoleURL host, "text/plain".toList, "Bearer ".toList ++ tok,
                listJobsCommand (dagIdFlag i.DagId) (limitFlag L) i.State⟩])
      ∧ (GetDagJobs unmarshal env cli log { i with Limit := Nullable.unset }).2
        = (PostMWAACommand env cli log (listJobsCommand (dagIdFlag i.DagId) [] i.State)).2
      ∧ ((∀ d, i.DagId.value = some d → ¬ "--limit".toList <:+: d) →
          ¬ "--limit".toList <:+: listJobsCommand (dagIdFlag i.DagId) [] i.State) := by
  have h1 := getDagJobs_limit_state unmarshal env cli log i L hL hLimit hState hDag
  refine ⟨h1, ?_, ?_, ?_, ?_⟩
  · unfold listJobsCommand
    exact ⟨"dags list-jobs".toList ++ dagIdFlag i.DagId,
      " --output json".toList ++ " --state '".toList ++ i.State ++ ['\''], by
        simp only [List.append_assoc]⟩
  · intro tok host hTok hExp hURL
    rw [h1, post_state_of_valid_token env cli log _ tok host hTok hExp hURL]
  · exact getDagJobs_nolimit_state unmarshal env cli log { i with Limit := Nullable.unset } rfl
      hState hDag
  · intro hd
    apply no_limit_in_command _ _ hState
    rcases hDag with h | ⟨d, h⟩
    · exact Or.inl h
    · exact Or.inr ⟨d, h, hd d (by rw [h]; rfl)⟩

theorem GetDagJobs_positive_limit_witness :
    (GetDagJobs (fun _ => Except.ok []) (sampleEnv "[]".toList [])
        ⟨some "env1".toList, some ⟨some "tok".toList, some "host.example".toList⟩, 200⟩ ⟨[], []⟩
        ⟨Nullable.new (some "dag".toList), "success".toList, Nullable.new (some 1)⟩).2.2.sent
      = [⟨consoleURL "host.example".toList, "text/plain".toList, "Bearer tok".toList,
          "dags list-jobs --dag-id 'dag' --limit '1' --output json --state 'success'".toList⟩] :=
  (GetDagJobs_positive_limit (fun _ => Except.ok []) (sampleEnv "[]".toList [])
    ⟨some "env1".toList, some ⟨some "tok".toList, some "host.example".toList⟩, 200⟩ ⟨[], []⟩
    ⟨Nullable.new (some "dag".toList), "success".toList, Nullable.new (some 1)⟩ 1 (by decide) rfl
    (by decide) (Or.inr ⟨_, rfl⟩)).2.2.1 "tok".toList "host.example".toList rfl (by decide) rfl

/-- C6, the claim as stated fails: with `Limit` holding `1` and a `State`
that is no valid `DagState`, `GetDagJobs` returns the validation error and
issues no call, although the console is reachable. -/
theorem GetDagJobs_positive_limit_invalid_state :
    GetDagJobs (fun _ => Except.ok []) (sampleEnv "[]".toList []) sampleClient ⟨[], []⟩
        ⟨Nullable.unset, "bogus".toList, Nullable.new (some 1)⟩
      = (Outcome.ret ([], some "'bogus' is not a valid DagState".toList), sampleClient,
          ⟨[], []⟩) := by
  decide

/-! ## The state of a DAG run -/

theorem getDagState_of_post (env : Env) (cli cli1 : CLIENT) (log log1 : Log) (dagId : Str)
    (executionDate : Time) (data : MWAAData) (line : Str)
    (hPost : PostMWAACommand env cli log (dagStateCommand dagId executionDate)
      = (Outcome.ret (data, none), cli1, log1))
    (hLine : (Split data.StdoutStr ['\n']).get? 1 = some line) :
    GetDagState env cli log dagId executionDate =
      if (Split line [',']).headD [] = "None".toList then
        (Outcome.ret (some [],
          some ("no dag found with executionDate: ".toList ++ executionDate.FormatNoDecimal)),
          cli1, log1)
      else if Contains data.StdoutStr (dagId ++ " does not exist".toList) then
        (Outcome.ret (some [], some data.StdoutStr), cli1, log1)
      else (Outcome.ret (NewDagStateFromValue ((Split line [',']).headD [])), cli1, log1) := by
  have hm : Contains data.StderrStr ("airflow.exceptions.AirflowException: Dag '".toList
      ++ dagId ++ "' could not be found".toList) = false := by
    apply not_contains_of_marker _ _ _ _ (post_nil_error _ _ _ _ _ _ _ hPost)
    exact ⟨[], ".AirflowException: Dag '".toList ++ dagId ++ "' could not be found".toList, by
      simp⟩
  unfold dagStateCommand at hPost
  unfold GetDagState
  simp only [hPost, hm, hLine, Bool.false_eq_true, if_false]

theorem takeWhile_append_of_all (p : Char → Bool) (s t : Str) (h : ∀ a ∈ s, p a = true) :
    (s ++ t).takeWhile p = s ++ t.takeWhile p := by
  induction s with
  | nil => rfl
  | cons a s ih =>
    have ha : p a = true := h a (by simp)
    simp [List.takeWhile, ha, ih (fun b hb => h b (by simp [hb]))]

theorem takeWhile_of_all (p : Char → Bool) (s : Str) (h : ∀ a ∈ s, p a = true) :
    s.takeWhile p = s := by
  have := takeWhile_append_of_all p s [] h
  simpa using this

/-- C7: when the console call succeeds, stdout is two lines, the second
line's first comma-delimited field is a valid state `s`, and stdout does not
contain `<dagId> does not exist`, `GetDagState` returns `s` and no error. -/
theorem GetDagState_valid_state (env : Env) (cli cli1 : CLIENT) (log log1 : Log) (dagId : Str)
    (executionDate : Time) (data : MWAAData) (h s tail : Str)
    (hPost : PostMWAACommand env cli log (dagStateCommand dagId executionDate)
      = (Outcome.ret (data, none), cli1, log1))
    (hOut : data.StdoutStr = h ++ '\n' :: (s ++ tail))
    (hh : '\n' ∉ h) (hTailLine : '\n' ∉ tail)
    (hTail : tail = [] ∨ ∃ t, tail = ',' :: t)
    (hs : s ∈ AllowedDagStateEnumValues)
    (hNot : ¬ dagId ++ " does not exist".toList <:+: data.StdoutStr) :
    GetDagState env cli log dagId executionDate = (Outcome.ret (some s, none), cli1, log1) := by
  have hs1 : (∀ a ∈ s, (a != '\n') = true) ∧ (∀ a ∈ s, (a != ',') = true) ∧ s ≠ "None".toList := by
    simp only [AllowedDagStateEnumValues, List.mem_cons, List.mem_singleton, List.not_mem_nil,
      or_false] at hs
    rcases hs with e | e | e | e <;> subst e <;> decide
  have hline : (Split data.StdoutStr ['\n']).get? 1 = some (s ++ tail) := by
    rw [hOut, split_second_line _ _ hh, takeWhile_of_all]
    intro a ha
    rcases List.mem_append.1 ha with h1 | h1
    · exact hs1.1 a h1
    · simp only [bne_iff_ne, ne_eq]
      rintro rfl
      exact hTailLine h1
  have hfield : (Split (s ++ tail) [',']).headD [] = s := by
    rw [split_first_field, takeWhile_append_of_all _ _ _ hs1.2.1]
    rcases hTail with e | ⟨t, e⟩ <;> subst e <;> simp [List.takeWhile]
  have hc : Contains data.StdoutStr (dagId ++ " does not exist".toList) = false :=
    (contains_eq_false_iff _ _).2 hNot
  have hv : DagState.IsValid s = true := by simp [DagState.IsValid, hs]
  rw [getDagState_of_post env cli cli1 log log1 dagId executionDate data _ hPost hline, hfield,
    if_neg hs1.2.2, hc]
  simp only [Bool.false_eq_true, if_false, NewDagStateFromValue, hv, if_true]

theorem GetDagState_valid_state_witness :
    GetDagState (sampleEnv "header\nsuccess,2022-11-05".toList []) sampleClient ⟨[], []⟩
        "dag".toList ⟨2022, 11, 5, 18, 15, 5, 0, 0⟩
      = (Outcome.ret (some "success".toList, none),
          ⟨some "env1".toList, some ⟨some "tok".toList, some "host.example".toList⟩,
            100 + minute⟩,
          ⟨["env1".toList], [⟨consoleURL "host.example".toList, "text/plain".toList,
            "Bearer tok".toList, "dags state 'dag' '2022-11-05T18:15:05+00:00'".toList⟩]⟩) :=
  GetDagState_valid_state (sampleEnv "header\nsuccess,2022-11-05".toList []) sampleClient _
    ⟨[], []⟩ _ "dag".toList ⟨2022, 11, 5, 18, 15, 5, 0, 0⟩
    ⟨[], "header\nsuccess,2022-11-05".toList, [], "header\nsuccess,2022-11-05".toList⟩
    "header".toList "success".toList ",2022-11-05".toList (by decide) rfl (by decide) (by decide)
    (Or.inr ⟨_, rfl⟩) (by decide) (by rw [← contains_iff]; decide)

theorem stripLit_append (l s : Str) : stripLit l (l ++ s) = some s := by
  induction l with
  | nil => rfl
  | cons d l ih => simp [stripLit, ih]

theorem stripLit_eq_some (l s t : Str) (h : stripLit l s = some t) : s = l ++ t := by
  induction l generalizing s with
  | nil => simp [stripLit] at h; simp [h]
  | cons d l ih =>
    cases s with
    | nil => simp [stripLit] at h
    | cons c s =>
      by_cases hc : c = d
      · simp only [stripLit, hc, if_true] at h
        simp [hc, ih s h]
      · simp [stripLit, hc] at h

theorem stripLit_none_of_head (d : Char) (l s : Str) (h : s.head? ≠ some d) :
    stripLit (d :: l) s = none := by
  cases s with
  | nil => rfl
  | cons c s =>
    have hc : c ≠ d := fun e => h (by simp [e])
    simp [stripLit, hc]

theorem run_lit_append (l s : Str) (g : Caps) (k : Str → Caps → Option (Str × Caps)) :
    Re.run (Re.lit l) (l ++ s) g k = k s g := by
  simp [Re.run, stripLit_append]

theorem run_lit_none_of_head (d : Char) (l s : Str) (g : Caps)
    (k : Str → Caps → Option (Str × Caps)) (h : s.head? ≠ some d) :
    Re.run (Re.lit (d :: l)) s g k = none := by
  simp [Re.run, stripLit_none_of_head d l s h]

theorem run_lit_none_of_not_prefix (l s : Str) (g : Caps)
    (k : Str → Caps → Option (Str × Caps)) (h : ¬ l <+: s) :
    Re.run (Re.lit l) s g k = none := by
  cases hs : stripLit l s with
  | none => simp [Re.run, hs]
  | some t => exact absurd ⟨t, (stripLit_eq_some l s t hs).symm⟩ h

theorem matchPlus_none_of_head {α : Type} (p : Char → Bool) (k : Str → Option α) (rest : Str)
    (h : rest = [] ∨ ∃ c t, rest = c :: t ∧ p c = false) : matchPlus p k rest = none := by
  rcases h with e | ⟨c, t, e, hc⟩
  · subst e; rfl
  · subst e; simp [matchPlus, hc]

theorem matchPlus_cons_some {α : Type} (p : Char → Bool) (k : Str → Option α) (c : Char)
    (s : Str) (r : α) (hc : p c = true) (h : matchPlus p k s = some r) :
    matchPlus p k (c :: s) = some r := by
  rw [matchPlus, if_pos hc, h]

theorem matchPlus_cons_none {α : Type} (p : Char → Bool) (k : Str → Option α) (c : Char)
    (s : Str) (hc : p c = true) (h : matchPlus p k s = none) :
    matchPlus p k (c :: s) = k s := by
  rw [matchPlus, if_pos hc, h]

/-- When the continuation fails after every suffix of a run, so does `c+`. -/
theorem matchPlus_none {α : Type} (p : Char → Bool) (k : Str → Option α) (ws rest : Str)
    (hrest : matchPlus p k rest = none)
    (hk : ∀ ys, ys <:+ ws → k (ys ++ rest) = none) :
    matchPlus p k (ws ++ rest) = none := by
  induction ws with
  | nil => simpa using hrest
  | cons w ws ih =>
    have h1 := ih (fun ys hy => hk ys (hy.trans (List.suffix_cons w ws)))
    have h2 := hk ws (List.suffix_cons w ws)
    rw [List.cons_append]
    by_cases hw : p w = true
    · rw [matchPlus_cons_none p k w _ hw h1, h2]
    · rw [matchPlus, if_neg hw]

/-- Greedy `c+` takes the whole run `xs` when the continuation accepts what
follows it. -/
theorem matchPlus_greedy {α : Type} (p : Char → Bool) (k : Str → Option α) (xs rest : Str)
    (r : α) (hne : xs ≠ []) (hxs : ∀ c ∈ xs, p c = true)
    (hrest : matchPlus p k rest = none) (hk : k rest = some r) :
    matchPlus p k (xs ++ rest) = some r := by
  induction xs with
  | nil => exact absurd rfl hne
  | cons x xs ih =>
    have hx : p x = true := hxs x (by simp)
    cases xs with
    | nil =>
      rw [List.cons_append, List.nil_append, matchPlus_cons_none p k x _ hx hrest, hk]
    | cons y ys =>
      have := ih (by simp) (fun c hc => hxs c (List.mem_cons_of_mem x hc))
      rw [List.cons_append]
      exact matchPlus_cons_some p k x _ r hx this

/-- Greedy `c+` over a line `xs ++ t0 :: tl` gives back exactly `t0 :: tl`
when the continuation accepts there and at no later point of the line. -/
theorem matchPlus_backtrack {α : Type} (p : Char → Bool) (k : Str → Option α) (xs : Str)
    (t0 : Char) (tl rest : Str) (r : α) (hne : xs ≠ []) (hxs : ∀ c ∈ xs, p c = true)
    (ht0 : p t0 = true) (hrest : matchPlus p k rest = none)
    (hfail : ∀ ys, ys <:+ tl → k (ys ++ rest) = none)
    (hk : k (t0 :: (tl ++ rest)) = some r) :
    matchPlus p k (xs ++ t0 :: (tl ++ rest)) = some r := by
  have h0 : matchPlus p k (t0 :: (tl ++ rest)) = none := by
    have h1 := matchPlus_none p k tl rest hrest hfail
    have h2 := hfail tl (List.suffix_refl tl)
    rw [matchPlus_cons_none p k t0 _ ht0 h1, h2]
  exact matchPlus_greedy p k xs (t0 :: (tl ++ rest)) r hne hxs h0 hk

/-- When the continuation fails at every later point of the input, so does
`c+`. -/
theorem matchPlus_none_of_suffixes {α : Type} (p : Char → Bool) (k : Str → Option α) (s : Str)
    (hk : ∀ ys, ys <:+ s → k ys = none) : matchPlus p k s = none := by
  have := matchPlus_none p k s [] rfl (fun ys hy => by simpa using hk ys hy)
  simpa using this

theorem cat_cons_cons (r r1 : Re) (rs : List Re) :
    Re.cat (r :: r1 :: rs) = Re.seq r (Re.cat (r1 :: rs)) := rfl

theorem run_seq (a b : Re) (s : Str) (g : Caps) (k : Str → Caps → Option (Str × Caps)) :
    Re.run (Re.seq a b) s g k = Re.run a s g (fun s1 g1 => Re.run b s1 g1 k) := rfl

theorem run_plus (p : Char → Bool) (s : Str) (g : Caps)
    (k : Str → Caps → Option (Str × Caps)) :
    Re.run (Re.plus p) s g k = matchPlus p (fun s1 => k s1 g) s := rfl

theorem run_cap (i : Nat) (a : Re) (s : Str) (g : Caps)
    (k : Str → Caps → Option (Str × Caps)) :
    Re.run (Re.cap i a) s g k
      = Re.run a s g (fun s1 g1 => k s1 (g1.set i (s.take (s.length - s1.length)))) := rfl

theorem run_cat_lit_none (l : Str) (rs : List Re) (s : Str) (g : Caps)
    (k : Str → Caps → Option (Str × Caps)) (h : ¬ l <+: s) :
    Re.run (Re.cat (Re.lit l :: rs)) s g k = none := by
  cases rs with
  | nil => exact run_lit_none_of_not_prefix l s g k h
  | cons r rs =>
    rw [cat_cons_cons, run_seq]
    exact run_lit_none_of_not_prefix l s g _ h

theorem search_none (r : Re) (n : Nat) (s : Str)
    (h : ∀ t, t <:+ s → matchHere r n t = none) : search r n s = none := by
  induction s with
  | nil => exact h [] (List.suffix_refl _)
  | cons c s ih =>
    rw [search, h (c :: s) (List.suffix_refl _)]
    exact ih (fun t ht => h t (ht.trans (List.suffix_cons c s)))

/-- A pattern `c+ lit …` matches nowhere in a text that lacks `lit`. -/
theorem search_plus_lit_none (p : Char → Bool) (l : Str) (rs : List Re) (n : Nat) (s : Str)
    (h : ¬ l <:+: s) : search (Re.cat (Re.plus p :: Re.lit l :: rs)) n s = none := by
  apply search_none
  intro t ht
  have hrun : Re.run (Re.cat (Re.plus p :: Re.lit l :: rs)) t (List.replicate (n + 1) [])
      (fun s1 g => some (s1, g)) = none := by
    rw [cat_cons_cons, run_seq, run_plus]
    apply matchPlus_none_of_suffixes
    intro ys hys
    apply run_cat_lit_none
    intro hp
    exact h (hp.isInfix.trans (hys.trans ht).isInfix)
  rw [matchHere, hrun]

/-! ## The run-creation line -/

theorem parseNewDagRun_of_no_match (data : MWAAData)
    (h : search newDagRunRe 4 data.StdoutStr = none) :
    ParseNewDagRun data
      = (DAGRun.zero, some ("unable to parse stdout\nStderr:\n".toList ++ data.StdoutStr)) := by
  simp only [ParseNewDagRun, FindStringSubmatch, h, Option.map_none']

set_option maxRecDepth 100000 in
/-- C9, the claim as stated fails: on the creation line alone, with no line
before it, `ParseNewDagRun` returns the zero DAG run and the error
`unable to parse stdout`. -/
theorem ParseNewDagRun_line_without_preamble :
    ParseNewDagRun ⟨[], [], [], "Created <DagRun sizzle_reel_dev @ 2022-11-05T18:15:05-00:00: manual__2022-11-05T18:15:05+00:00, externally triggered: False>".toList⟩
      = (DAGRun.zero, some "unable to parse stdout\nStderr:\nCreated <DagRun sizzle_reel_dev @ 2022-11-05T18:15:05-00:00: manual__2022-11-05T18:15:05+00:00, externally triggered: False>".toList) := by
  decide

theorem digit_digitChar (d : Nat) (h : d < 10) :
    digit (Nat.digitChar d) = true ∧ digitVal (Nat.digitChar d) = d := by
  interval_cases d <;> decide

theorem run_cls_cons (p : Char → Bool) (c : Char) (s : Str) (g : Caps)
    (k : Str → Caps → Option (Str × Caps)) (h : p c = true) :
    Re.run (Re.cls p) (c :: s) g k = k s g := by
  simp [Re.run, h]

theorem run_rep_two (p : Char → Bool) (a b : Char) (s : Str) (g : Caps)
    (k : Str → Caps → Option (Str × Caps)) (ha : p a = true) (hb : p b = true) :
    Re.run (Re.rep p 2) (a :: b :: s) g k = k s g := by
  simp [Re.rep, Re.run, ha, hb, stripLit]

theorem run_rep_four (p : Char → Bool) (a b c d : Char) (s : Str) (g : Caps)
    (k : Str → Caps → Option (Str × Caps)) (ha : p a = true) (hb : p b = true)
    (hc : p c = true) (hd : p d = true) :
    Re.run (Re.rep p 4) (a :: b :: c :: d :: s) g k = k s g := by
  simp [Re.rep, Re.run, ha, hb, hc, hd, stripLit]

theorem run_lit_one (c : Char) (s : Str) (g : Caps) (k : Str → Caps → Option (Str × Caps)) :
    Re.run (Re.lit [c]) (c :: s) g k = k s g := run_lit_append [c] s g k

/-- The timestamp pattern consumes a written date-time. -/
theorem run_stampRe (year month day hour min sec : Nat) (sign : Char) (zh zm : Nat)
    (rest : Str) (g : Caps) (k : Str → Caps → Option (Str × Caps))
    (hy : year < 10000) (hmo : month < 100) (hd : day < 100) (hh : hour < 100)
    (hmi : min < 100) (hs : sec < 100) (hsg : sign = '+' ∨ sign = '-') (hzh : zh < 100)
    (hzm : zm < 100) :
    Re.run stampRe (stampText year month day hour min sec sign zh zm ++ rest) g k = k rest g := by
  have d2 : ∀ n, n < 100 → digit (Nat.digitChar (n / 10)) = true
      ∧ digit (Nat.digitChar (n % 10)) = true := fun n hn =>
    ⟨(digit_digitChar _ (by omega)).1, (digit_digitChar _ (by omega)).1⟩
  have hsc : signChar sign = true := by rcases hsg with e | e <;> subst e <;> decide
  simp only [stampRe, stampText, twoDigits, fourDigits, cat_cons_cons, run_seq, List.cons_append,
    List.nil_append]
  rw [run_rep_four _ _ _ _ _ _ _ _ (digit_digitChar _ (by omega)).1
    (digit_digitChar _ (by omega)).1 (digit_digitChar _ (by omega)).1
    (digit_digitChar _ (by omega)).1, run_lit_one,
    run_rep_two _ _ _ _ _ _ (d2 _ hmo).1 (d2 _ hmo).2, run_lit_one,
    run_rep_two _ _ _ _ _ _ (d2 _ hd).1 (d2 _ hd).2, run_lit_one,
    run_rep_two _ _ _ _ _ _ (d2 _ hh).1 (d2 _ hh).2, run_lit_one,
    run_rep_two _ _ _ _ _ _ (d2 _ hmi).1 (d2 _ hmi).2, run_lit_one,
    run_rep_two _ _ _ _ _ _ (d2 _ hs).1 (d2 _ hs).2, run_cls_cons _ _ _ _ _ hsc,
    run_rep_two _ _ _ _ _ _ (d2 _ hzh).1 (d2 _ hzh).2, run_lit_one]
  exact run_rep_two _ _ _ _ _ _ (d2 _ hzm).1 (d2 _ hzm).2

theorem getnum_twoDigits (n : Nat) (s : Str) (fixed : Bool) (h : n < 100) :
    getnum (Nat.digitChar (n / 10) :: Nat.digitChar (n % 10) :: s) fixed = some (n, s) := by
  have h1 := digit_digitChar (n / 10) (by omega)
  have h2 := digit_digitChar (n % 10) (by omega)
  simp only [getnum, h1.1, h2.1, h1.2, h2.2, if_true, Option.some.injEq, Prod.mk.injEq, and_true]
  omega

theorem decVal_fourDigits (n : Nat) (h : n < 10000) : decVal (fourDigits n) = n := by
  have h1 := digit_digitChar (n / 1000) (by omega)
  have h2 := digit_digitChar (n / 100 % 10) (by omega)
  have h3 := digit_digitChar (n / 10 % 10) (by omega)
  have h4 := digit_digitChar (n % 10) (by omega)
  simp only [decVal, fourDigits, List.foldl, h1.2, h2.2, h3.2, h4.2]
  omega

/-- Parsing a written real date-time gives back its fields, with the zone
offset in seconds. -/
theorem parseNoDecimal_stampText (year month day hour min sec : Nat) (sign : Char) (zh zm : Nat)
    (h : realDateTime year month day hour min sec sign zh zm) :
    parseNoDecimal (stampText year month day hour min sec sign zh zm)
      = Except.ok ⟨year, month, day, hour, min, sec, 0,
          if sign = '-' then -(((zh : Int) * 60 + zm) * 60) else ((zh : Int) * 60 + zm) * 60⟩ := by
  obtain ⟨hy, hmo1, hmo2, hd1, hd2, hh, hmi, hs, hsg, hzh, hzm⟩ := h
  have hd3 : day < 100 := by
    have : daysIn month year ≤ 31 := by unfold daysIn; split_ifs <;> omega
    omega
  have y1 := digit_digitChar (year / 1000) (by omega)
  have y2 := digit_digitChar (year / 100 % 10) (by omega)
  have y3 := digit_digitChar (year / 10 % 10) (by omega)
  have y4 := digit_digitChar (year % 10) (by omega)
  have hyv := decVal_fourDigits year hy
  unfold fourDigits at hyv
  have hfr : ∀ t : Str, parseFraction (sign :: t) = (0, sign :: t) := by
    intro t
    rcases hsg with e | e <;> subst e <;> cases t <;> simp [parseFraction]
  have hmo0 : ¬ (month = 0 ∨ 12 < month) := by omega
  have hh0 : ¬ 24 ≤ hour := by omega
  have hmi0 : ¬ 60 ≤ min := by omega
  have hs0 : ¬ 60 ≤ sec := by omega
  have hzh0 : ¬ 24 < zh := by omega
  have hzm0 : ¬ 60 < zm := by omega
  have hd0 : ¬ (day < 1 ∨ daysIn month year < day) := by omega
  have hsg0 : ¬ (sign ≠ '+' ∧ sign ≠ '-') := by tauto
  simp only [parseNoDecimal, stampText, twoDigits, fourDigits, List.cons_append,
    List.nil_append, y1.1, y2.1, y3.1, y4.1, hyv, stripLit, if_true, Bool.and_self, Bool.not_true,
    Bool.false_eq_true, if_false, getnum_twoDigits _ _ _ (show month < 100 by omega),
    getnum_twoDigits _ _ _ hd3, getnum_twoDigits _ _ _ (show hour < 100 by omega),
    getnum_twoDigits _ _ _ (show min < 100 by omega),
    getnum_twoDigits _ _ _ (show sec < 100 by omega),
    getnum_twoDigits _ _ _ (show zh < 100 by omega),
    getnum_twoDigits _ _ _ (show zm < 100 by omega), hfr, hmo0, hh0, hmi0, hs0, hzh0, hzm0, hd0,
    hsg0, Option.isSome_some, Option.map_some', Option.getD_some, ne_eq, not_true_eq_false]

theorem cat_singleton (r : Re) : Re.cat [r] = r := rfl

theorem run_alt (a b : Re) (s : Str) (g : Caps) (k : Str → Caps → Option (Str × Caps)) :
    Re.run (Re.alt a b) s g k
      = match Re.run a s g k with
        | some r => some r
        | none => Re.run b s g k := rfl

theorem take_length_sub (a b : Str) : (a ++ b).take ((a ++ b).length - b.length) = a := by
  simp

/-- The end of the creation pattern, from the comma on, consumes
`, externally triggered: B>` and records `B` as group 4. -/
theorem run_trigger_tail (B : Bool) (rest : Str) (g : Caps)
    (k : Str → Caps → Option (Str × Caps)) :
    Re.run (Re.cat [Re.lit ", externally triggered: ".toList,
        Re.cap 4 (Re.alt (Re.lit "True".toList) (Re.lit "False".toList)), Re.lit ['>']])
      (", externally triggered: ".toList ++ (boolText B ++ '>' :: rest)) g k
      = k rest (g.set 4 (boolText B)) := by
  rw [cat_cons_cons, run_seq, run_lit_append, cat_cons_cons, run_seq, run_cap, cat_singleton,
    run_alt]
  cases B with
  | true =>
    have hF : ∀ K, Re.run (Re.lit "False".toList) (boolText true ++ '>' :: rest) g K = none :=
      fun K => run_lit_none_of_head 'F' _ _ g K (by simp [boolText])
    rw [hF]
    simp only [boolText, if_true]
    rw [run_lit_append, take_length_sub, run_lit_one]
    cases k rest (g.set 4 "True".toList) <;> rfl
  | false =>
    have hT : ∀ K, Re.run (Re.lit "True".toList) (boolText false ++ '>' :: rest) g K = none :=
      fun K => run_lit_none_of_head 'T' _ _ g K (by simp [boolText])
    rw [hT]
    simp only [boolText, Bool.false_eq_true, if_false]
    rw [run_lit_append, take_length_sub, run_lit_one]

theorem not_prefix_of_head (d : Char) (l s : Str) (h : s.head? ≠ some d) : ¬ d :: l <+: s := by
  rintro ⟨t, rfl⟩
  exact h rfl

theorem head_suffix_append (ys tl rest : Str) (d : Char) (hys : ys <:+ tl) (hd : d ∉ tl)
    (hrest : rest.head? ≠ some d) : (ys ++ rest).head? ≠ some d := by
  cases ys with
  | nil => simpa using hrest
  | cons y ys =>
    intro h
    have hy : y = d := by simpa using h
    exact hd (hys.subset (by simp [hy]))

/-- The creation pattern from the run id on: greedy `.+` gives back exactly
the `, externally triggered: B>` that ends the line. -/
theorem run_runId_tail (R : Str) (B : Bool) (rest : Str) (g : Caps)
    (k : Str → Caps → Option (Str × Caps)) (r : Str × Caps)
    (hR : R ≠ []) (hRl : '\n' ∉ R) (hrest : rest = [] ∨ ∃ t, rest = '\n' :: t)
    (hk : k rest ((g.set 3 R).set 4 (boolText B)) = some r) :
    Re.run (Re.cat [Re.cap 3 (Re.plus dot), Re.lit ", externally triggered: ".toList,
        Re.cap 4 (Re.alt (Re.lit "True".toList) (Re.lit "False".toList)), Re.lit ['>']])
      (R ++ (", externally triggered: ".toList ++ (boolText B ++ '>' :: rest))) g k
      = some r := by
  have e : ", externally triggered: ".toList ++ (boolText B ++ '>' :: rest)
      = ',' :: ((" externally triggered: ".toList ++ (boolText B ++ ['>'])) ++ rest) := by
    simp
  have hcomma : ',' ∉ " externally triggered: ".toList ++ (boolText B ++ ['>']) := by
    cases B <;> decide
  have hrh : rest.head? ≠ some ',' := by
    rcases hrest with h | ⟨t, h⟩ <;> subst h <;> simp
  rw [cat_cons_cons, run_seq, run_cap, run_plus, e]
  apply matchPlus_backtrack
  · exact hR
  · intro c hc
    simp only [dot, bne_iff_ne, ne_eq]
    rintro rfl
    exact hRl hc
  · decide
  · apply matchPlus_none_of_head
    rcases hrest with h | ⟨t, h⟩
    · exact Or.inl h
    · exact Or.inr ⟨'\n', t, h, by decide⟩
  · intro ys hys
    apply run_cat_lit_none
    exact not_prefix_of_head _ _ _ (head_suffix_append ys _ rest ',' hys hcomma hrh)
  · show Re.run _ _ _ k = some r
    rw [take_length_sub, ← e, run_trigger_tail, hk]

/-- The whole creation pattern, matched from the start of a preamble line
followed by the creation line: the groups are the line's four tokens. -/
theorem run_newDagRunRe (P D R : Str) (year month day hour min sec : Nat) (sign : Char)
    (zh zm : Nat) (B : Bool) (rest : Str) (g : Caps)
    (hP : P ≠ []) (hPl : '\n' ∉ P) (hD : D ≠ []) (hDc : ∀ c ∈ D, dagIdChar c = true)
    (hR : R ≠ []) (hRl : '\n' ∉ R) (hrest : rest = [] ∨ ∃ t, rest = '\n' :: t)
    (hT : realDateTime year month day hour min sec sign zh zm) :
    Re.run newDagRunRe
        (P ++ '\n' :: (creationLine D (stampText year month day hour min sec sign zh zm) R B
          ++ rest)) g (fun s1 g1 => some (s1, g1))
      = some (rest, (((g.set 1 D).set 2 (stampText year month day hour min sec sign zh zm)).set
          3 R).set 4 (boolText B)) := by
  obtain ⟨hy, hmo1, hmo2, hd1, hd2, hh, hmi, hs, hsg, hzh, hzm⟩ := hT
  have hd3 : day < 100 := by
    have : daysIn month year ≤ 31 := by unfold daysIn; split_ifs <;> omega
    omega
  have e : '\n' :: (creationLine D (stampText year month day hour min sec sign zh zm) R B
        ++ rest)
      = "\nCreated <DagRun ".toList ++ (D ++ (" @ ".toList
        ++ (stampText year month day hour min sec sign zh zm ++ (": ".toList ++ (R
        ++ (", externally triggered: ".toList ++ (boolText B ++ '>' :: rest))))))) := by
    simp [creationLine]
  unfold newDagRunRe
  rw [cat_cons_cons, run_seq, run_plus]
  apply matchPlus_greedy
  · exact hP
  · intro c hc
    simp only [dot, bne_iff_ne, ne_eq]
    rintro rfl
    exact hPl hc
  · exact matchPlus_none_of_head _ _ _ (Or.inr ⟨'\n', _, rfl, by decide⟩)
  · show Re.run _ _ _ _ = some _
    rw [e, cat_cons_cons, run_seq, run_lit_append, cat_cons_cons, run_seq, run_cap, run_plus]
    apply matchPlus_greedy
    · exact hD
    · exact hDc
    · exact matchPlus_none_of_head _ _ _ (Or.inr ⟨' ', _, rfl, by decide⟩)
    · show Re.run _ _ _ _ = some _
      rw [take_length_sub, cat_cons_cons, run_seq, run_lit_append, cat_cons_cons, run_seq,
        run_cap, run_stampRe _ _ _ _ _ _ _ _ _ _ _ _ hy (by omega) hd3 (by omega) (by omega)
          (by omega) hsg (by omega) (by omega),
        take_length_sub, cat_cons_cons, run_seq, run_lit_append]
      exact run_runId_tail R B rest _ _ _ hR hRl hrest rfl

theorem dagIdChar_of_ascii (c : Char)
    (h : c.isAlphanum = true ∨ c = '_' ∨ c = '.' ∨ c = '-') : dagIdChar c = true := by
  rcases h with h | h | h | h
  · simp only [Char.isAlphanum, Char.isAlpha, Char.isUpper, Char.isLower, Char.isDigit,
      Bool.or_eq_true, Bool.and_eq_true, decide_eq_true_eq] at h
    simp only [dagIdChar, alnum, digit, Bool.or_eq_true, Bool.and_eq_true, decide_eq_true_eq,
      Char.le_def, show 'a'.val = 97 from rfl, show 'z'.val = 122 from rfl,
      show 'A'.val = 65 from rfl, show 'Z'.val = 90 from rfl, show '0'.val = 48 from rfl,
      show '9'.val = 57 from rfl]
    simp only [ge_iff_le] at h
    tauto
  · subst h; decide
  · subst h; decide
  · subst h; decide

theorem parseNewDagRun_of_match (data : MWAAData) (w D T R bt : Str) (b : Bool) (t : Time)
    (hm : FindStringSubmatch newDagRunRe 4 data.StdoutStr = some [w, D, T, R, bt])
    (hb : ParseBool bt = (b, none)) (ht : parseNoDecimal T = Except.ok t) :
    ParseNewDagRun data
      = (⟨some R, some D, none, some t, none, none, none, some b, none⟩, none) := by
  simp only [ParseNewDagRun, hm, List.length_cons, List.length_nil, List.getD_cons_succ,
    List.getD_cons_zero, hb, GetTimePythonISONoDecimal, ht, NewDAGRun, DAGRun.zero]
  rfl

theorem parseBool_boolText (B : Bool) : ParseBool (boolText B) = (B, none) := by
  cases B <;> decide

theorem search_newDagRunRe (P D R : Str) (year month day hour min sec : Nat) (sign : Char)
    (zh zm : Nat) (B : Bool)
    (hP : P ≠ []) (hPl : '\n' ∉ P) (hD : D ≠ []) (hDc : ∀ c ∈ D, dagIdChar c = true)
    (hR : R ≠ []) (hRl : '\n' ∉ R)
    (hT : realDateTime year month day hour min sec sign zh zm) :
    FindStringSubmatch newDagRunRe 4
        (P ++ '\n' :: creationLine D (stampText year month day hour min sec sign zh zm) R B)
      = some [P ++ '\n' :: creationLine D (stampText year month day hour min sec sign zh zm) R B,
          D, stampText year month day hour min sec sign zh zm, R, boolText B] := by
  have hrun := run_newDagRunRe P D R year month day hour min sec sign zh zm B []
    (List.replicate 5 []) hP hPl hD hDc hR hRl (Or.inl rfl) hT
  rw [List.append_nil] at hrun
  have hmh : matchHere newDagRunRe 4
      (P ++ '\n' :: creationLine D (stampText year month day hour min sec sign zh zm) R B)
      = some ([], [P ++ '\n' :: creationLine D (stampText year month day hour min sec sign zh zm)
          R B, D, stampText year month day hour min sec sign zh zm, R, boolText B]) := by
    rw [matchHere, hrun]
    simp [List.replicate, List.set]
  cases P with
  | nil => exact absurd rfl hP
  | cons c P =>
    rw [FindStringSubmatch, List.cons_append, search, ← List.cons_append, hmh]
    rfl

/-- C1: for a stdout made of a non-empty preamble line `P`, a newline, and
the line `Created <DagRun D @ T: R, externally triggered: B>`, with `D`
non-empty over letters, digits, `_`, `.` and `-`, `T` a real date-time
written in the layout `2006-01-02T15:04:05-07:00`, `R` non-empty without a
newline and `B` True or False, `ParseNewDagRun` returns no error and the run
with `DagId = D`, `DagRunId = R`, `ExecutionDate` the date-time `T` names
with its zone offset in seconds, and `ExternalTrigger = B`. -/
theorem ParseNewDagRun_creation_line (P D R : Str) (year month day hour min sec : Nat)
    (sign : Char) (zh zm : Nat) (B : Bool) (stderr stdout stderrStr : Str)
    (hP : P ≠ []) (hPl : '\n' ∉ P) (hD : D ≠ [])
    (hDc : ∀ c ∈ D, c.isAlphanum = true ∨ c = '_' ∨ c = '.' ∨ c = '-')
    (hR : R ≠ []) (hRl : '\n' ∉ R)
    (hT : realDateTime year month day hour min sec sign zh zm) :
    ParseNewDagRun ⟨stderr, stdout, stderrStr,
        P ++ '\n' :: creationLine D (stampText year month day hour min sec sign zh zm) R B⟩
      = (⟨some R, some D, none,
          some ⟨year, month, day, hour, min, sec, 0,
            if sign = '-' then -(((zh : Int) * 60 + zm) * 60) else ((zh : Int) * 60 + zm) * 60⟩,
          none, none, none, some B, none⟩, none) :=
  parseNewDagRun_of_match _ _ D _ R _ B _
    (search_newDagRunRe P D R year month day hour min sec sign zh zm B hP hPl hD
      (fun c hc => dagIdChar_of_ascii c (hDc c hc)) hR hRl hT)
    (parseBool_boolText B) (parseNoDecimal_stampText year month day hour min sec sign zh zm hT)

set_option maxRecDepth 100000 in
theorem ParseNewDagRun_creation_line_witness :
    ParseNewDagRun ⟨[], [], "this is an error".toList, "[2022-11-05 18:15:04,763] {{__init__.py:38}} INFO - Loaded API auth backend: <module airflow.api.auth.backend.basic_auth from /usr/local/lib/python3.7/site-packages/airflow/api/auth/backend/basic_auth.py>\nCreated <DagRun sizzle_reel_dev @ 2022-11-05T18:15:05-00:00: manual__2022-11-05T18:15:05+00:00, externally triggered: False>".toList⟩
      = (⟨some "manual__2022-11-05T18:15:05+00:00".toList, some "sizzle_reel_dev".toList, none,
          some ⟨2022, 11, 5, 18, 15, 5, 0, 0⟩, none, none, none, some false, none⟩, none) :=
  ParseNewDagRun_creation_line "[2022-11-05 18:15:04,763] {{__init__.py:38}} INFO - Loaded API auth backend: <module airflow.api.auth.backend.basic_auth from /usr/local/lib/python3.7/site-packages/airflow/api/auth/backend/basic_auth.py>".toList
    "sizzle_reel_dev".toList "manual__2022-11-05T18:15:05+00:00".toList 2022 11 5 18 15 5 '-' 0 0
    false [] [] "this is an error".toList (by decide) (by decide) (by decide) (by decide)
    (by decide) (by decide) (by unfold realDateTime; decide)

set_option maxRecDepth 100000 in
/-- C9, as amended: the quoted creation line is parsed when a non-empty log
line and a newline precede it, giving no error and dagId `sizzle_reel_dev`,
runId `manual__2022-11-05T18:15:05+00:00`, the execution date
2022-11-05T18:15:05 at offset zero and externallyTriggered false; as the
whole stdout, with no line before it, it is not parsed and the error
`unable to parse stdout` is returned with the zero run. -/
theorem ParseNewDagRun_spec_line (P stderr stdout stderrStr : Str) (hP : P ≠ [])
    (hPl : '\n' ∉ P) :
    ParseNewDagRun ⟨stderr, stdout, stderrStr, P ++ '\n' :: specCreationLine⟩
        = (⟨some "manual__2022-11-05T18:15:05+00:00".toList, some "sizzle_reel_dev".toList, none,
            some ⟨2022, 11, 5, 18, 15, 5, 0, 0⟩, none, none, none, some false, none⟩, none)
      ∧ ParseNewDagRun ⟨stderr, stdout, stderrStr, specCreationLine⟩
        = (DAGRun.zero,
            some ("unable to parse stdout\nStderr:\n".toList ++ specCreationLine)) := by
  constructor
  · have e : specCreationLine
        = creationLine "sizzle_reel_dev".toList (stampText 2022 11 5 18 15 5 '-' 0 0)
          "manual__2022-11-05T18:15:05+00:00".toList false := by decide
    rw [e]
    exact parseNewDagRun_of_match _ _ _ _ _ _ false _
      (search_newDagRunRe P _ _ 2022 11 5 18 15 5 '-' 0 0 false hP hPl (by decide) (by decide)
        (by decide) (by decide) (by unfold realDateTime; decide))
      (parseBool_boolText false)
      (parseNoDecimal_stampText 2022 11 5 18 15 5 '-' 0 0 (by unfold realDateTime; decide))
  · apply parseNewDagRun_of_no_match
    show search newDagRunRe 4 specCreationLine = none
    decide

theorem ParseNewDagRun_spec_line_witness :
    ParseNewDagRun ⟨[], [], [], "INFO".toList ++ '\n' :: specCreationLine⟩
        = (⟨some "manual__2022-11-05T18:15:05+00:00".toList, some "sizzle_reel_dev".toList, none,
            some ⟨2022, 11, 5, 18, 15, 5, 0, 0⟩, none, none, none, some false, none⟩, none)
      ∧ ParseNewDagRun ⟨[], [], [], specCreationLine⟩
        = (DAGRun.zero,
            some ("unable to parse stdout\nStderr:\n".toList ++ specCreationLine)) :=
  ParseNewDagRun_spec_line "INFO".toList [] [] [] (by decide) (by decide)

/-! ## The task listing -/

theorem taskIdChar_of_ascii (c : Char) (h : c.isAlphanum = true ∨ c = '_' ∨ c = '-') :
    taskIdChar c = true := by
  rcases h with h | h | h
  · simp only [Char.isAlphanum, Char.isAlpha, Char.isUpper, Char.isLower, Char.isDigit,
      Bool.or_eq_true, Bool.and_eq_true, decide_eq_true_eq] at h
    simp only [taskIdChar, alnum, digit, Bool.or_eq_true, Bool.and_eq_true, decide_eq_true_eq,
      Char.le_def, show 'a'.val = 97 from rfl, show 'z'.val = 122 from rfl,
      show 'A'.val = 65 from rfl, show 'Z'.val = 90 from rfl, show '0'.val = 48 from rfl,
      show '9'.val = 57 from rfl]
    simp only [ge_iff_le] at h
    tauto
  · subst h; decide
  · subst h; decide

/-- The end of the listing pattern, from the blank before `[` on, consumes
` [S]>` and records `S` as group 4. -/
theorem run_state_tail (S rest : Str) (g : Caps) (k : Str → Caps → Option (Str × Caps))
    (r : Str × Caps)
    (hS : S ∈ ["failed".toList, "success".toList, "skipped".toList])
    (hk : k rest (g.set 4 S) = some r) :
    Re.run (Re.cat [Re.lit [' '], Re.lit ['['],
        Re.cap 4 (Re.alt (Re.lit "failed".toList)
          (Re.alt (Re.lit "success".toList) (Re.lit "skipped".toList))), Re.lit "]>".toList])
      (' ' :: '[' :: (S ++ ("]>".toList ++ rest))) g k = some r := by
  rw [cat_cons_cons, run_seq, run_lit_one, cat_cons_cons, run_seq, run_lit_one, cat_cons_cons,
    run_seq, run_cap, cat_singleton, run_alt]
  simp only [List.mem_cons, List.mem_singleton, List.not_mem_nil, or_false] at hS
  rcases hS with e | e | e
  · subst e
    rw [run_lit_append, take_length_sub, run_lit_append, hk]
  · subst e
    have hF : ∀ K, Re.run (Re.lit "failed".toList) ("success".toList ++ ("]>".toList ++ rest))
        g K = none := fun K => run_lit_none_of_head 'f' _ _ g K (by simp)
    rw [hF, run_alt, run_lit_append, take_length_sub, run_lit_append, hk]
  · subst e
    have hF : ∀ K, Re.run (Re.lit "failed".toList) ("skipped".toList ++ ("]>".toList ++ rest))
        g K = none := fun K => run_lit_none_of_head 'f' _ _ g K (by simp)
    have hU : ∀ K, Re.run (Re.lit "success".toList) ("skipped".toList ++ ("]>".toList ++ rest))
        g K = none := fun K => run_lit_none_of_not_prefix _ _ g K (by simp)
    rw [hF, run_alt, hU, run_lit_append, take_length_sub, run_lit_append, hk]

/-- The listing pattern, matched at the start of a well-formed entry that
ends its line: the groups are the entry's four tokens. -/
theorem run_listTasksRe (e : TaskEntry) (rest : Str) (g : Caps) (he : e.wellFormed)
    (hrest : lineEnds rest) :
    Re.run listTasksRe (e.text ++ rest) g (fun s1 g1 => some (s1, g1))
      = some (rest, (((g.set 1 e.dagId).set 2 e.taskId).set 3 e.runId).set 4 e.state) := by
  obtain ⟨_, hD, hDc, hK, hKc, hR, hRl, hS⟩ := he
  have hsp : ' ' ∉ '[' :: (e.state ++ "]>".toList) := by
    simp only [List.mem_cons, List.mem_singleton, List.not_mem_nil, or_false] at hS
    rcases hS with h | h | h <;> rw [h] <;> decide
  have hrh : rest.head? ≠ some ' ' := by
    rcases hrest with h | ⟨t, h⟩ <;> subst h <;> simp
  have e1 : e.text ++ rest = taskOpen ++ (e.dagId ++ '.' :: (e.taskId ++ ' ' :: (e.runId
      ++ ' ' :: (('[' :: (e.state ++ "]>".toList)) ++ rest)))) := by
    simp [TaskEntry.text]
  unfold listTasksRe
  rw [e1, cat_cons_cons, run_seq]
  unfold taskOpen
  rw [run_lit_append, cat_cons_cons, run_seq, run_cap, run_plus]
  apply matchPlus_greedy
  · exact hD
  · exact fun c hc => taskIdChar_of_ascii c (hDc c hc)
  · exact matchPlus_none_of_head _ _ _ (Or.inr ⟨'.', _, rfl, by decide⟩)
  · show Re.run _ _ _ _ = some _
    rw [take_length_sub, cat_cons_cons, run_seq, run_cls_cons _ _ _ _ _ (by decide),
      cat_cons_cons, run_seq, run_cap, run_plus]
    apply matchPlus_greedy
    · exact hK
    · exact fun c hc => taskIdChar_of_ascii c (hKc c hc)
    · exact matchPlus_none_of_head _ _ _ (Or.inr ⟨' ', _, rfl, by decide⟩)
    · show Re.run _ _ _ _ = some _
      rw [take_length_sub, cat_cons_cons, run_seq, run_lit_one, cat_cons_cons, run_seq, run_cap,
        run_plus]
      apply matchPlus_backtrack
      · exact hR
      · intro c hc
        simp only [dot, bne_iff_ne, ne_eq]
        rintro rfl
        exact hRl hc
      · decide
      · apply matchPlus_none_of_head
        rcases hrest with h | ⟨t, h⟩
        · exact Or.inl h
        · exact Or.inr ⟨'\n', t, h, by decide⟩
      · intro ys hys
        apply run_cat_lit_none
        exact not_prefix_of_head _ _ _ (head_suffix_append ys _ rest ' ' hys hsp hrh)
      · show Re.run _ _ _ _ = some _
        rw [take_length_sub]
        have e2 : ' ' :: ('[' :: (e.state ++ "]>".toList) ++ rest)
            = ' ' :: '[' :: (e.state ++ ("]>".toList ++ rest)) := by simp
        rw [e2]
        exact run_state_tail e.state rest _ _ _ hS rfl

theorem matchHere_entry (e : TaskEntry) (rest : Str) (he : e.wellFormed) (hrest : lineEnds rest) :
    matchHere listTasksRe 4 (e.text ++ rest) = some (rest, e.groups) := by
  rw [matchHere, run_listTasksRe e rest _ he hrest]
  simp [List.replicate, List.set, TaskEntry.groups]

theorem matchHere_listTasksRe_none (t : Str) (h : ¬ taskOpen <+: t) :
    matchHere listTasksRe 4 t = none := by
  have : Re.run listTasksRe t (List.replicate (4 + 1) []) (fun s1 g => some (s1, g)) = none := by
    unfold listTasksRe
    exact run_cat_lit_none _ _ _ _ _ h
  rw [matchHere, this]

/-- Inside text that opens no entry, no entry opens even when one follows. -/
theorem not_open_in_gap (t X : Str) (ht : t ≠ []) (h : ¬ taskOpen <:+: t) :
    ¬ taskOpen <+: t ++ (taskOpen ++ X) := by
  intro hp
  rcases List.prefix_or_prefix_of_prefix hp (List.prefix_append t (taskOpen ++ X)) with h1 | h1
  · exact h h1.isInfix
  · obtain ⟨l, hl⟩ := h1
    have hp1 : t ++ l <+: t ++ (taskOpen ++ X) := by rw [hl]; exact hp
    have hp2 : l <+: taskOpen ++ X := (List.prefix_append_right_inj t).1 hp1
    cases l with
    | nil =>
      rw [List.append_nil] at hl
      exact h (hl ▸ List.infix_refl _)
    | cons d l =>
      have hd : d = '<' := by
        obtain ⟨u, hu⟩ := hp2
        have := congrArg List.head? hu
        simpa [taskOpen] using this
      cases t with
      | nil => exact ht rfl
      | cons c t =>
        have hmem : d ∈ taskOpen.tail := by
          rw [← hl]
          simp
        rw [hd] at hmem
        exact absurd hmem (by decide)

theorem findAllGo_skip (r : Re) (n : Nat) (a b : Str) (pe : Bool) :
    findAllGo r n a.length pe (a ++ b) = findAllGo r n 0 pe b := by
  induction a with
  | nil => rfl
  | cons x a ih =>
    rw [List.length_cons, List.cons_append, findAllGo]
    exact ih

theorem findAllGo_entry (e : TaskEntry) (rest : Str) (pe : Bool) (he : e.wellFormed)
    (hrest : lineEnds rest) :
    findAllGo listTasksRe 4 0 pe (e.text ++ rest)
      = e.groups :: findAllGo listTasksRe 4 0 true rest := by
  have hm := matchHere_entry e rest he hrest
  have e1 : e.text ++ rest = '<' :: (e.text.tail ++ rest) := by
    simp [TaskEntry.text, taskOpen]
  rw [e1] at hm ⊢
  rw [findAllGo, hm]
  have hlen : ('<' :: (e.text.tail ++ rest)).length - rest.length = e.text.tail.length + 1 := by
    simp only [List.length_cons, List.length_append]
    omega
  simp only [hlen, Nat.add_one_ne_zero, if_false, Nat.add_sub_cancel]
  rw [findAllGo_skip]

theorem findAllGo_gap_entry (gap : Str) (e : TaskEntry) (rest : Str) (pe : Bool)
    (hgap : ¬ taskOpen <:+: gap) (he : e.wellFormed) (hrest : lineEnds rest) :
    findAllGo listTasksRe 4 0 pe (gap ++ (e.text ++ rest))
      = e.groups :: findAllGo listTasksRe 4 0 true rest := by
  induction gap generalizing pe with
  | nil => exact findAllGo_entry e rest pe he hrest
  | cons c gap ih =>
    have hno : matchHere listTasksRe 4 (c :: gap ++ (e.text ++ rest)) = none := by
      apply matchHere_listTasksRe_none
      have e1 : e.text ++ rest = taskOpen ++ (e.text.drop taskOpen.length ++ rest) := by
        simp [TaskEntry.text]
      rw [e1]
      exact not_open_in_gap (c :: gap) _ (by simp) hgap
    rw [List.cons_append] at hno ⊢
    rw [findAllGo, hno]
    exact ih false (fun h => hgap (List.infix_cons h))

theorem findAllGo_trailer (trailer : Str) (pe : Bool) (h : ¬ taskOpen <:+: trailer) :
    findAllGo listTasksRe 4 0 pe trailer = [] := by
  induction trailer generalizing pe with
  | nil =>
    rw [findAllGo, matchHere_listTasksRe_none [] (fun hp => h hp.isInfix)]
  | cons c t ih =>
    rw [findAllGo, matchHere_listTasksRe_none (c :: t) (fun hp => h hp.isInfix)]
    exact ih false (fun hi => h (List.infix_cons hi))

theorem findAllGo_listing (es : List TaskEntry) (trailer : Str) (pe : Bool)
    (h : wellFormedListing es trailer) :
    findAllGo listTasksRe 4 0 pe (listing es trailer) = es.map TaskEntry.groups := by
  induction es generalizing pe with
  | nil => exact findAllGo_trailer trailer pe h
  | cons e es ih =>
    obtain ⟨he, hline, hes⟩ := h
    rw [listing, findAllGo_gap_entry e.before e _ pe he.1 he hline, ih true hes]
    rfl

theorem unmarshalTasksLoop_groups (es : List TaskEntry) :
    unmarshalTasksLoop (es.map TaskEntry.groups) = Outcome.ret (es.map TaskEntry.task) := by
  induction es with
  | nil => rfl
  | cons e es ih =>
    rw [List.map_cons, unmarshalTasksLoop, ih]
    rfl

/-- C2: for a stdout in which `n ≥ 1` well-formed entries
`<TaskInstance: D.K R [S]>` appear, each ending its line, with text around
them that opens no entry, `UnmarshalTasks` returns no error and exactly the
`n` records of the entries in input order, each with `MatchString` the whole
entry and `DagId`, `TaskId`, `DagRunId`, `State` its tokens. -/
theorem UnmarshalTasks_listing (es : List TaskEntry) (trailer stderr stdout stderrStr : Str)
    (hn : es ≠ []) (h : wellFormedListing es trailer) :
    UnmarshalTasks ⟨stderr, stdout, stderrStr, listing es trailer⟩
        = Outcome.ret (es.map TaskEntry.task, none)
      ∧ (es.map TaskEntry.task).length = es.length := by
  refine ⟨?_, List.length_map _ _⟩
  have hf : FindAllStringSubmatch listTasksRe 4 (listing es trailer)
      = es.map TaskEntry.groups := findAllGo_listing es trailer false h
  cases es with
  | nil => exact absurd rfl hn
  | cons e es =>
    simp only [UnmarshalTasks, hf]
    rw [List.map_cons, ← List.map_cons, unmarshalTasksLoop_groups]
    rfl

set_option maxRecDepth 100000 in
theorem UnmarshalTasks_listing_witness :
    UnmarshalTasks ⟨[], [], [], "You are about to delete these 3 tasks:\n\n\t<TaskInstance: example_bash_operator.run_after_loop manual__2022-11-07T00:31:19.756196+00:00 [success]>\n\n<TaskInstance: sizzle_reel_dev.sizzle_reel 2GrxGljf6YHeLgXWNlHOtyZuF1I [failed]>".toList⟩
      = Outcome.ret ([
          ⟨some "<TaskInstance: example_bash_operator.run_after_loop manual__2022-11-07T00:31:19.756196+00:00 [success]>".toList,
            some "example_bash_operator".toList, some "run_after_loop".toList,
            some "manual__2022-11-07T00:31:19.756196+00:00".toList, some "success".toList⟩,
          ⟨some "<TaskInstance: sizzle_reel_dev.sizzle_reel 2GrxGljf6YHeLgXWNlHOtyZuF1I [failed]>".toList,
            some "sizzle_reel_dev".toList, some "sizzle_reel".toList,
            some "2GrxGljf6YHeLgXWNlHOtyZuF1I".toList, some "failed".toList⟩], none) :=
  (UnmarshalTasks_listing testEntries [] [] [] [] (List.cons_ne_nil _ _)
    ⟨⟨by rw [← contains_iff]; decide, by decide, by decide, by decide, by decide, by decide,
        by decide, by decide⟩,
      Or.inr ⟨_, rfl⟩,
      ⟨by rw [← contains_iff]; decide, by decide, by decide, by decide, by decide, by decide,
        by decide, by decide⟩,
      Or.inl rfl, by
        show ¬ taskOpen <:+: []
        rw [← contains_iff]; decide⟩).1

/-- C12, what the code does where the claim expects an error: for every
stdout that lacks the text `<TaskInstance: `, the empty stdout among them,
no entry matches and `UnmarshalTasks` panics on `matches[0]` instead of
returning an error. -/
theorem UnmarshalTasks_no_entry_panics (data : MWAAData) (h : ¬ taskOpen <:+: data.StdoutStr) :
    UnmarshalTasks data = Outcome.panic "index out of range [0] with length 0".toList := by
  have hf : FindAllStringSubmatch listTasksRe 4 data.StdoutStr = [] :=
    findAllGo_trailer data.StdoutStr false h
  simp only [UnmarshalTasks, hf]

theorem UnmarshalTasks_no_entry_panics_witness :
    UnmarshalTasks ⟨[], [], [], "You are about to delete these 0 tasks:".toList⟩
      = Outcome.panic "index out of range [0] with length 0".toList :=
  UnmarshalTasks_no_entry_panics ⟨[], [], [], "You are about to delete these 0 tasks:".toList⟩
    (by rw [← contains_iff]; decide)

theorem getDagState_of_post_one_line (env : Env) (cli cli1 : CLIENT) (log log1 : Log)
    (dagId : Str) (executionDate : Time) (data : MWAAData)
    (hPost : PostMWAACommand env cli log (dagStateCommand dagId executionDate)
      = (Outcome.ret (data, none), cli1, log1))
    (hLine : (Split data.StdoutStr ['\n']).get? 1 = none) :
    GetDagState env cli log dagId executionDate
      = (Outcome.panic "index out of range [1]".toList, cli1, log1) := by
  have hm : Contains data.StderrStr ("airflow.exceptions.AirflowException: Dag '".toList
      ++ dagId ++ "' could not be found".toList) = false := by
    apply not_contains_of_marker _ _ _ _ (post_nil_error _ _ _ _ _ _ _ hPost)
    exact ⟨[], ".AirflowException: Dag '".toList ++ dagId ++ "' could not be found".toList, by
      simp⟩
  unfold dagStateCommand at hPost
  unfold GetDagState
  simp only [hPost, hm, hLine, Bool.false_eq_true, if_false]

/-- C20, what the code does where the claim expects an error: when the
console call succeeds and stdout is a single line (no newline in it; the
empty stdout and `<dagId> does not exist` among them), `GetDagState` panics
on the missing second line, before its test for `does not exist`. -/
theorem GetDagState_single_line_panics (env : Env) (cli cli1 : CLIENT) (log log1 : Log)
    (dagId : Str) (executionDate : Time) (data : MWAAData)
    (hPost : PostMWAACommand env cli log (dagStateCommand dagId executionDate)
      = (Outcome.ret (data, none), cli1, log1))
    (hLine : '\n' ∉ data.StdoutStr) :
    GetDagState env cli log dagId executionDate
      = (Outcome.panic "index out of range [1]".toList, cli1, log1) := by
  apply getDagState_of_post_one_line env cli cli1 log log1 dagId executionDate data hPost
  rw [split_single_none _ _ hLine]
  rfl

theorem GetDagState_single_line_panics_witness :
    GetDagState (sampleEnv "dag does not exist".toList []) sampleClient ⟨[], []⟩
        "dag".toList ⟨2022, 11, 5, 18, 15, 5, 0, 0⟩
      = (Outcome.panic "index out of range [1]".toList,
          ⟨some "env1".toList, some ⟨some "tok".toList, some "host.example".toList⟩,
            100 + minute⟩,
          ⟨["env1".toList], [⟨consoleURL "host.example".toList, "text/plain".toList,
            "Bearer tok".toList, "dags state 'dag' '2022-11-05T18:15:05+00:00'".toList⟩]⟩) :=
  GetDagState_single_line_panics (sampleEnv "dag does not exist".toList []) sampleClient _
    ⟨[], []⟩ _ "dag".toList ⟨2022, 11, 5, 18, 15, 5, 0, 0⟩
    ⟨[], "dag does not exist".toList, [], "dag does not exist".toList⟩ (by decide) (by decide)

/-! ## The tasks of a DAG -/

theorem splitGo_no_sep (sep s cur : Str) (h : ¬ sep <:+: s) :
    splitGo sep 0 cur s = [cur ++ s] := by
  induction s generalizing cur with
  | nil => simp [splitGo]
  | cons c s ih =>
    have hp : HasPrefix (c :: s) sep = false := by
      rw [← Bool.not_eq_true, hasPrefix_iff]
      exact fun hp => h hp.isInfix
    rw [splitGo, if_neg (by simp [hp]), ih _ (fun hi => h (List.infix_cons hi))]
    simp

theorem split_no_sep (sep s : Str) (hsep : sep ≠ []) (h : ¬ sep <:+: s) : Split s sep = [s] := by
  rw [Split, if_neg hsep, splitGo_no_sep sep s [] h]
  rfl

theorem unmarshalDagTasksLoop_panics (lines : List Str)
    (h : ∃ line ∈ lines, ¬ ": ".toList <:+: removeDecoration line) :
    unmarshalDagTasksLoop lines
      = Outcome.panic "index out of range [1] with length 1".toList := by
  induction lines with
  | nil =>
    obtain ⟨line, hl, _⟩ := h
    exact absurd hl (List.not_mem_nil _)
  | cons l ls ih =>
    rw [unmarshalDagTasksLoop]
    cases hv : (Split (removeDecoration l) ": ".toList).get? 1 with
    | none => rfl
    | some taskId =>
      obtain ⟨line, hl, hbad⟩ := h
      rcases List.mem_cons.1 hl with e | hmem
      · subst e
        rw [split_no_sep _ _ (by decide) hbad] at hv
        exact absurd hv (by simp)
      · simp only [ih ⟨line, hmem, hbad⟩]
        rfl

/-- C13, what the code does where the claim expects no record: for every
stdout with a line that, once the decoration characters are removed, lacks
the delimiter `: ` (an empty line, and so the single line of the empty
stdout), `UnmarshalDagTasks` panics on `vals[1]` instead of skipping the
line. -/
theorem UnmarshalDagTasks_line_without_delimiter_panics (data : MWAAData)
    (h : ∃ line ∈ Split data.StdoutStr ['\n'], ¬ ": ".toList <:+: removeDecoration line) :
    UnmarshalDagTasks data = Outcome.panic "index out of range [1] with length 1".toList := by
  rw [UnmarshalDagTasks]
  simp only [unmarshalDagTasksLoop_panics _ h]
  rfl

theorem UnmarshalDagTasks_line_without_delimiter_panics_witness :
    UnmarshalDagTasks ⟨[], [], [], []⟩
      = Outcome.panic "index out of range [1] with length 1".toList :=
  UnmarshalDagTasks_line_without_delimiter_panics ⟨[], [], [], []⟩
    ⟨[], by decide, by rw [← contains_iff]; decide⟩

/-! ## Filling a record from capture groups -/

theorem populateFrom_enough (src : List Str) (fields : List (Option Str)) (i : Nat)
    (h : i + fields.length ≤ src.length) :
    populateFrom src i fields = Outcome.ret (((src.drop i).take fields.length).map some) := by
  induction fields generalizing i with
  | nil => simp [populateFrom]
  | cons f fields ih =>
    rw [List.length_cons] at h
    have hi : i < src.length := by omega
    have hget : src.get? i = some src[i] := by simp [hi]
    rw [populateFrom]
    simp only [hget]
    rw [ih (i + 1) (by omega), List.length_cons, List.drop_eq_getElem_cons hi,
      List.take_succ_cons, List.map_cons]
    rfl

theorem populateFrom_short (src : List Str) (fields : List (Option Str)) (i : Nat)
    (hi : i ≤ src.length) (h : src.length < i + fields.length) :
    populateFrom src i fields = Outcome.panic "reflect: slice index out of range".toList := by
  induction fields generalizing i with
  | nil => simp at h; omega
  | cons f fields ih =>
    rw [List.length_cons] at h
    rw [populateFrom]
    cases hget : src.get? i with
    | none => rfl
    | some v =>
      have hlt : i < src.length := by
        by_contra hc
        have := List.get?_eq_none.2 (not_lt.1 hc)
        rw [this] at hget
        exact absurd hget (by simp)
      simp only []
      rw [ih (i + 1) (by omega) (by omega)]
      rfl

/-- C14, as amended: for a destination of `k` string-pointer fields and `m`
capture groups, `populate` points field `i` at group `i` for every `i < k`
whenever `m ≥ k`, trailing groups being left out, and panics when `m < k`;
for a `Task` and five or more groups the record holds the first five. -/
theorem populate_by_field_order (src : List Str) (fields : List (Option Str)) :
    (fields.length ≤ src.length →
        populateFrom src 0 fields = Outcome.ret ((src.take fields.length).map some))
      ∧ (src.length < fields.length →
        populateFrom src 0 fields = Outcome.panic "reflect: slice index out of range".toList)
      ∧ (∀ (dst : Task) (a b c d e : Str) (more : List Str),
        populate dst (a :: b :: c :: d :: e :: more)
          = Outcome.ret ⟨some a, some b, some c, some d, some e⟩) := by
  refine ⟨fun h => ?_, fun h => ?_, fun dst a b c d e more => rfl⟩
  · have := populateFrom_enough src fields 0 (by omega)
    simpa using this
  · exact populateFrom_short src fields 0 (by omega) (by omega)

/-- C14, the claim as stated fails: with six groups for the five fields of a
`Task`, `populate` does not fail; it fills the record from the first five
and drops the sixth. -/
theorem populate_drops_trailing_group :
    populate ⟨none, none, none, none, none⟩
        ["m".toList, "d".toList, "t".toList, "r".toList, "s".toList, "extra".toList]
      = Outcome.ret ⟨some "m".toList, some "d".toList, some "t".toList, some "r".toList,
          some "s".toList⟩ := by
  decide

/-! ## Errors of the remote console -/

theorem decode_marker (body : MWAAData)
    (h : "airflow.exceptions".toList <:+: TrimSuffix body.Stderr ['\n']) :
    DecodeMWAAData (Except.ok body)
      = (⟨body.Stderr, body.Stdout, TrimSuffix body.Stderr ['\n'],
          TrimSuffix body.Stdout ['\n']⟩, some (TrimSuffix body.Stderr ['\n'])) := by
  rw [decode_ok, if_pos ((contains_iff _ _).2 h)]

theorem getDagJobsSend_error (unmarshal : Str → Except Str DagJobs) (env : Env) (cli : CLIENT)
    (log : Log) (i : DagJobsInput) (cmd : Str) (data : MWAAData) (err : Str)
    (hState : i.State ∈ AllowedDagStateEnumValues)
    (hPost : ∀ c, (PostMWAACommand env cli log c).1 = Outcome.ret (data, some err)) :
    (getDagJobsSend unmarshal env cli log i cmd).1 = Outcome.ret ([], some err) := by
  have hv : DagState.IsValid i.State = true := by simp [DagState.IsValid, hState]
  unfold getDagJobsSend
  simp only [hv, Bool.not_true, Bool.false_eq_true, if_false]
  have hp := hPost (cmd ++ " --output json".toList ++ " --state '".toList ++ i.State ++ ['\''])
  rcases h : PostMWAACommand env cli log
      (cmd ++ " --output json".toList ++ " --state '".toList ++ i.State ++ ['\''])
    with ⟨out, cli1, log1⟩
  rw [h] at hp
  simp only at hp
  subst hp
  rfl

/-- C15: when the console answers and the decoded error stream contains the
marker `airflow.exceptions`, `GetDagState`, `GetDagTasks` and `GetDagJobs`
(with a valid state and no short-circuiting limit) each return the whole
error-stream text as the error, whatever stdout holds, and not a sentence of
their own. -/
theorem marker_error_is_returned (unmarshal : Str → Except Str DagJobs) (env : Env)
    (cli : CLIENT) (log : Log) (body : MWAAData) (dagId : Str) (executionDate : Time)
    (i : DagJobsInput)
    (hPost : ∀ cmd, (PostMWAACommand env cli log cmd).1
      = Outcome.ret (DecodeMWAAData (Except.ok body)))
    (hMarker : "airflow.exceptions".toList <:+: TrimSuffix body.Stderr ['\n'])
    (hState : i.State ∈ AllowedDagStateEnumValues)
    (hDag : i.DagId = Nullable.unset ∨ ∃ d, i.DagId = Nullable.new (some d))
    (hLimit : i.Limit = Nullable.unset ∨ ∃ L, 0 < L ∧ i.Limit = Nullable.new (some L)) :
    (GetDagState env cli log dagId executionDate).1
        = Outcome.ret (some [], some (TrimSuffix body.Stderr ['\n']))
      ∧ (GetDagTasks env cli log dagId).1
        = Outcome.ret ([], some (TrimSuffix body.Stderr ['\n']))
      ∧ (GetDagJobs unmarshal env cli log i).1
        = Outcome.ret ([], some (TrimSuffix body.Stderr ['\n'])) := by
  rw [decode_marker body hMarker] at hPost
  refine ⟨?_, ?_, ?_⟩
  · have hp := hPost ("dags state '".toList ++ dagId ++ "' '".toList
      ++ executionDate.FormatNoDecimal ++ ['\''])
    rcases h : PostMWAACommand env cli log ("dags state '".toList ++ dagId ++ "' '".toList
      ++ executionDate.FormatNoDecimal ++ ['\'']) with ⟨out, cli1, log1⟩
    rw [h] at hp
    simp only at hp
    subst hp
    unfold GetDagState
    simp only [h]
  · have hp := hPost ("tasks list '".toList ++ dagId ++ "' --tree".toList)
    rcases h : PostMWAACommand env cli log ("tasks list '".toList ++ dagId ++ "' --tree".toList)
      with ⟨out, cli1, log1⟩
    rw [h] at hp
    simp only at hp
    subst hp
    unfold GetDagTasks
    simp only [h]
  · have hsend := fun cmd => getDagJobsSend_error unmarshal env cli log i cmd _ _ hState hPost
    rcases hDag with hd | ⟨d, hd⟩ <;> rcases hLimit with hl | ⟨L, hL, hl⟩
    · simp only [GetDagJobs, hd, hl, Nullable.unset, Nullable.IsSet, Bool.false_eq_true,
        if_false, hsend]
    · have hL' : L > 0 := hL
      simp only [GetDagJobs, hd, hl, Nullable.unset, Nullable.new, Nullable.IsSet, Nullable.Get,
        Bool.false_eq_true, if_false, if_true, hL', hsend]
    · simp only [GetDagJobs, hd, hl, Nullable.unset, Nullable.new, Nullable.IsSet, Nullable.Get,
        Bool.false_eq_true, if_false, if_true, hsend]
    · have hL' : L > 0 := hL
      simp only [GetDagJobs, hd, hl, Nullable.new, Nullable.IsSet, Nullable.Get, if_true, hL',
        hsend]

theorem marker_error_is_returned_witness :
    (GetDagState (sampleEnv "out".toList
          "airflow.exceptions.AirflowException: Dag 'dag' could not be found\nmore".toList)
        sampleClient ⟨[], []⟩ "dag".toList ⟨2022, 11, 5, 18, 15, 5, 0, 0⟩).1
      = Outcome.ret (some [],
          some "airflow.exceptions.AirflowException: Dag 'dag' could not be found\nmore".toList) :=
  (marker_error_is_returned (fun _ => Except.ok []) (sampleEnv "out".toList
      "airflow.exceptions.AirflowException: Dag 'dag' could not be found\nmore".toList)
    sampleClient ⟨[], []⟩
    ⟨"airflow.exceptions.AirflowException: Dag 'dag' could not be found\nmore".toList,
      "out".toList, [], []⟩ "dag".toList ⟨2022, 11, 5, 18, 15, 5, 0, 0⟩
    ⟨Nullable.unset, "success".toList, Nullable.unset⟩ (fun _ => rfl)
    (by rw [← contains_iff]; decide) (by decide) (Or.inl rfl) (Or.inl rfl)).1

/-! ## The token and the console request -/

theorem postRequest_keeps (env : Env) (cli : CLIENT) (log : Log) (cmd : Str) :
    (postRequest env cli log cmd).2.1 = cli
      ∧ (postRequest env cli log cmd).2.2.issued = log.issued := by
  unfold postRequest
  cases h1 : cli.tokenOutput with
  | none => exact ⟨rfl, rfl⟩
  | some tokenOutput =>
    simp only []
    cases h2 : tokenOutput.WebServerHostname with
    | none => exact ⟨rfl, rfl⟩
    | some host =>
      simp only []
      cases h3 : env.NewRequest ("https://".toList ++ host ++ "/aws_mwaa/cli".toList) with
      | some err => exact ⟨rfl, rfl⟩
      | none =>
        simp only []
        cases h4 : tokenOutput.CliToken with
        | none => exact ⟨rfl, rfl⟩
        | some token =>
          simp only []
          cases h5 : env.Do ⟨"https://".toList ++ host ++ "/aws_mwaa/cli".toList,
              "text/plain".toList, "Bearer ".toList ++ token, cmd⟩ with
          | error err => exact ⟨rfl, rfl⟩
          | ok resp =>
            simp only []
            split <;> exact ⟨rfl, rfl⟩

theorem post_not_expired (env : Env) (cli : CLIENT) (log : Log) (cmd : Str)
    (h : env.now ≤ cli.tokenExpiration) :
    PostMWAACommand env cli log cmd = postRequest env cli log cmd := by
  rw [PostMWAACommand, if_neg (not_lt.2 h)]

theorem post_refreshed (env : Env) (cli : CLIENT) (log : Log) (cmd name : Str)
    (out : CreateCliTokenOutput) (h : cli.tokenExpiration < env.now) (hName : cli.Name = some name)
    (hOut : env.CreateCliToken name = Except.ok out) :
    PostMWAACommand env cli log cmd
      = postRequest env { cli with tokenOutput := some out, tokenExpiration := env.now + 1 * minute }
          { log with issued := log.issued ++ [name] } cmd := by
  have h' : env.now > cli.tokenExpiration := h
  rw [PostMWAACommand, if_pos h']
  simp only [refreshToken, createToken, hName, hOut]

theorem post_refresh_failed (env : Env) (cli : CLIENT) (log : Log) (cmd name err : Str)
    (h : cli.tokenExpiration < env.now) (hName : cli.Name = some name)
    (hFail : env.CreateCliToken name = Except.error err) :
    PostMWAACommand env cli log cmd
      = (Outcome.panic err, cli, { log with issued := log.issued ++ [name] }) := by
  have h' : env.now > cli.tokenExpiration := h
  rw [PostMWAACommand, if_pos h']
  simp only [refreshToken, createToken, hName, hFail]

theorem postRequest_sent (env : Env) (cli cli1 : CLIENT) (log log1 : Log) (cmd : Str)
    (r : MWAAData × GoError) (h : postRequest env cli log cmd = (Outcome.ret r, cli1, log1)) :
    cli1 = cli ∧ log1.issued = log.issued
      ∧ ∃ out host, cli.tokenOutput = some out ∧ out.WebServerHostname = some host
        ∧ ((∃ err, env.NewRequest (consoleURL host) = some err ∧ r = (MWAAData.zero, some err)
              ∧ log1.sent = log.sent)
          ∨ (∃ tok, env.NewRequest (consoleURL host) = none ∧ out.CliToken = some tok
              ∧ log1.sent = log.sent ++ [⟨consoleURL host, "text/plain".toList,
                "Bearer ".toList ++ tok, cmd⟩])) := by
  have hk := postRequest_keeps env cli log cmd
  rw [h] at hk
  refine ⟨hk.1, hk.2, ?_⟩
  unfold postRequest at h
  cases h1 : cli.tokenOutput with
  | none => rw [h1] at h; simp at h
  | some out =>
    rw [h1] at h
    simp only [] at h
    cases h2 : out.WebServerHostname with
    | none => rw [h2] at h; simp at h
    | some host =>
      rw [h2] at h
      simp only [] at h
      refine ⟨out, host, rfl, h2, ?_⟩
      unfold consoleURL
      cases h3 : env.NewRequest ("https://".toList ++ host ++ "/aws_mwaa/cli".toList) with
      | some err =>
        rw [h3] at h
        simp only [Prod.mk.injEq, Outcome.ret.injEq] at h
        exact Or.inl ⟨err, rfl, h.1.symm, by rw [← h.2.2]⟩
      | none =>
        rw [h3] at h
        simp only [] at h
        cases h4 : out.CliToken with
        | none => rw [h4] at h; simp at h
        | some tok =>
          rw [h4] at h
          simp only [] at h
          refine Or.inr ⟨tok, rfl, rfl, ?_⟩
          cases h5 : env.Do ⟨"https://".toList ++ host ++ "/aws_mwaa/cli".toList,
              "text/plain".toList, "Bearer ".toList ++ tok, cmd⟩ with
          | error err =>
            rw [h5] at h
            simp only [Prod.mk.injEq] at h
            rw [← h.2.2]
          | ok resp =>
            rw [h5] at h
            simp only [] at h
            by_cases h6 : resp.StatusCode = 200
            · simp only [h6, ne_eq, not_true_eq_false, if_false, Prod.mk.injEq] at h
              rw [← h.2.2]
            · simp only [ne_eq, h6, not_false_eq_true, if_true, Prod.mk.injEq] at h
              rw [← h.2.2]

/-- C16, as amended: after a call of `PostMWAACommand` that returns, the
credential the client holds has an expiry not earlier than the clock
(`now ≤ expiry`), and the request, when one was sent, is the one request
added to the log, to that credential's host and with that credential's token
as its bearer; no request is sent only when `http.NewRequest` refuses the
URL.  When the clock was after the held expiry, the credential is the one
the token service has just issued, with an expiry one minute after the
clock, hence strictly later; when it was not, the equal instant included,
the client is the one held before and no token was requested. -/
theorem PostMWAACommand_expiry_not_before_now (env : Env) (cli cli1 : CLIENT) (log log1 : Log)
    (cmd : Str) (r : MWAAData × GoError)
    (h : PostMWAACommand env cli log cmd = (Outcome.ret r, cli1, log1)) :
    env.now ≤ cli1.tokenExpiration
      ∧ (∃ out host, cli1.tokenOutput = some out ∧ out.WebServerHostname = some host
        ∧ ((∃ err, env.NewRequest (consoleURL host) = some err ∧ r = (MWAAData.zero, some err)
              ∧ log1.sent = log.sent)
          ∨ (∃ tok, env.NewRequest (consoleURL host) = none ∧ out.CliToken = some tok
              ∧ log1.sent = log.sent ++ [⟨consoleURL host, "text/plain".toList,
                "Bearer ".toList ++ tok, cmd⟩])))
      ∧ (cli.tokenExpiration < env.now →
          ∃ name out, cli.Name = some name ∧ env.CreateCliToken name = Except.ok out
            ∧ cli1 = ⟨cli.Name, some out, env.now + minute⟩
            ∧ log1.issued = log.issued ++ [name] ∧ env.now < cli1.tokenExpiration)
      ∧ (env.now ≤ cli.tokenExpiration → cli1 = cli ∧ log1.issued = log.issued) := by
  by_cases hle : env.now ≤ cli.tokenExpiration
  · rw [post_not_expired env cli log cmd hle] at h
    obtain ⟨hc, hi, hs⟩ := postRequest_sent env cli cli1 log log1 cmd r h
    subst hc
    exact ⟨hle, hs, fun hlt => absurd hle (not_le.2 hlt), fun _ => ⟨rfl, hi⟩⟩
  · have hlt : cli.tokenExpiration < env.now := not_le.1 hle
    have hpos : 0 < minute := by decide
    cases hName : cli.Name with
    | none =>
      have h' : env.now > cli.tokenExpiration := hlt
      rw [PostMWAACommand, if_pos h'] at h
      simp only [refreshToken, createToken, hName] at h
      exact absurd h (by simp)
    | some name =>
      cases hOut : env.CreateCliToken name with
      | error err =>
        rw [post_refresh_failed env cli log cmd name err hlt hName hOut] at h
        exact absurd h (by simp)
      | ok out =>
        rw [post_refreshed env cli log cmd name out hlt hName hOut] at h
        obtain ⟨hc, hi, hs⟩ := postRequest_sent env _ cli1 _ log1 cmd r h
        subst hc
        refine ⟨?_, hs, fun _ => ⟨name, out, rfl, hOut, ?_, hi, ?_⟩, fun h' => absurd h' hle⟩
        · show env.now ≤ env.now + 1 * minute
          omega
        · simp [hName]
        · show env.now < env.now + 1 * minute
          omega

theorem PostMWAACommand_expiry_not_before_now_witness :
    (sampleEnv [] []).now ≤ (100 + minute)
      ∧ (∃ out host, (some ⟨some "tok".toList, some "host.example".toList⟩
            : Option CreateCliTokenOutput) = some out
          ∧ out.WebServerHostname = some host
          ∧ ((∃ err, (sampleEnv [] []).NewRequest (consoleURL host) = some err
                ∧ ((⟨[], [], [], []⟩, none) : MWAAData × GoError) = (MWAAData.zero, some err)
                ∧ [⟨consoleURL "host.example".toList, "text/plain".toList,
                    "Bearer tok".toList, "version".toList⟩] = ([] : List Request))
            ∨ (∃ tok, (sampleEnv [] []).NewRequest (consoleURL host) = none
                ∧ out.CliToken = some tok
                ∧ [⟨consoleURL "host.example".toList, "text/plain".toList,
                    "Bearer tok".toList, "version".toList⟩]
                  = ([] : List Request) ++ [⟨consoleURL host, "text/plain".toList,
                    "Bearer ".toList ++ tok, "version".toList⟩])))
      ∧ ((sampleClient).tokenExpiration < (sampleEnv [] []).now →
          ∃ name out, (sampleClient).Name = some name
            ∧ (sampleEnv [] []).CreateCliToken name = Except.ok out
            ∧ (⟨some "env1".toList, some ⟨some "tok".toList, some "host.example".toList⟩,
                100 + minute⟩ : CLIENT) = ⟨(sampleClient).Name, some out,
                (sampleEnv [] []).now + minute⟩
            ∧ ["env1".toList] = ([] : List Str) ++ [name]
            ∧ (sampleEnv [] []).now < 100 + minute)
      ∧ ((sampleEnv [] []).now ≤ (sampleClient).tokenExpiration →
          (⟨some "env1".toList, some ⟨some "tok".toList, some "host.example".toList⟩,
            100 + minute⟩ : CLIENT) = sampleClient ∧ ["env1".toList] = ([] : List Str)) :=
  PostMWAACommand_expiry_not_before_now (sampleEnv [] []) sampleClient
    ⟨some "env1".toList, some ⟨some "tok".toList, some "host.example".toList⟩, 100 + minute⟩
    ⟨[], []⟩ ⟨["env1".toList], [⟨consoleURL "host.example".toList, "text/plain".toList,
      "Bearer tok".toList, "version".toList⟩]⟩ "version".toList (⟨[], [], [], []⟩, none)
    (by decide)

/-- C16, the claim as stated fails: with the clock equal to the held expiry
the pre-flight check requests no token, and the request is sent with a
credential whose expiry is the clock's instant, not a later one. -/
theorem PostMWAACommand_no_refresh_at_expiry :
    (PostMWAACommand (sampleEnv [] []) (heldClient 100) ⟨[], []⟩ "version".toList).2
        = (heldClient 100, ⟨[], [⟨consoleURL "host.example".toList, "text/plain".toList,
            "Bearer tok".toList, "version".toList⟩]⟩)
      ∧ (sampleEnv [] []).now = (heldClient 100).tokenExpiration := by
  decide

/-- C17: the pre-flight check of `PostMWAACommand` calls the token service
exactly when the clock is after the held expiry, hence on every new client
once the clock is past the zero time; when it is not, the client (token,
host and expiry) is left as it was and no issuance call is made; a refresh
that succeeds replaces the token output as a whole and sets the expiry to
one minute after the clock. -/
theorem PostMWAACommand_preflight (env : Env) (cli : CLIENT) (log : Log) (cmd : Str) :
    (env.now ≤ cli.tokenExpiration →
        (PostMWAACommand env cli log cmd).2.1 = cli
          ∧ (PostMWAACommand env cli log cmd).2.2.issued = log.issued)
      ∧ (∀ name, cli.tokenExpiration < env.now → cli.Name = some name →
          (PostMWAACommand env cli log cmd).2.2.issued = log.issued ++ [name])
      ∧ (∀ name out, cli.tokenExpiration < env.now → cli.Name = some name →
          env.CreateCliToken name = Except.ok out →
          (PostMWAACommand env cli log cmd).2.1
            = ⟨cli.Name, some out, env.now + 60 * 1000000000⟩)
      ∧ (∀ name, 0 < env.now →
          (PostMWAACommand env (NewClient (some name)) log cmd).2.2.issued
            = log.issued ++ [name]) := by
  have hissue : ∀ (c : CLIENT) (name : Str), c.tokenExpiration < env.now → c.Name = some name →
      (PostMWAACommand env c log cmd).2.2.issued = log.issued ++ [name] := by
    intro c name hlt hName
    cases hOut : env.CreateCliToken name with
    | error err => rw [post_refresh_failed env c log cmd name err hlt hName hOut]
    | ok out =>
      rw [post_refreshed env c log cmd name out hlt hName hOut]
      exact (postRequest_keeps env _ _ cmd).2
  refine ⟨fun hle => ?_, fun name hlt hName => hissue cli name hlt hName,
    fun name out hlt hName hOut => ?_, fun name hpos => hissue _ name hpos rfl⟩
  · rw [post_not_expired env cli log cmd hle]
    exact postRequest_keeps env cli log cmd
  · rw [post_refreshed env cli log cmd name out hlt hName hOut]
    exact (postRequest_keeps env _ _ cmd).1

/-- C18, as amended: when the token service fails during the pre-flight
refresh, `PostMWAACommand` panics with the service's error; no console
request is sent and no error value reaches the caller. -/
theorem PostMWAACommand_issuance_failure (env : Env) (cli : CLIENT) (log : Log)
    (cmd name err : Str) (hExp : cli.tokenExpiration < env.now) (hName : cli.Name = some name)
    (hFail : env.CreateCliToken name = Except.error err) :
    PostMWAACommand env cli log cmd
      = (Outcome.panic err, cli, ⟨log.issued ++ [name], log.sent⟩) :=
  post_refresh_failed env cli log cmd name err hExp hName hFail

theorem PostMWAACommand_issuance_failure_witness :
    PostMWAACommand deniedEnv (heldClient 7) ⟨[], []⟩ "dags list".toList
      = (Outcome.panic "AccessDeniedException".toList, heldClient 7, ⟨[] ++ ["env1".toList], []⟩) :=
  PostMWAACommand_issuance_failure deniedEnv (heldClient 7) ⟨[], []⟩ "dags list".toList
    "env1".toList "AccessDeniedException".toList (by decide) rfl rfl

/-- C18, the claim as stated fails: on a new client whose token service
refuses, `PostMWAACommand` returns nothing to its caller; it panics with the
service's error, having sent no request. -/
theorem PostMWAACommand_issuance_failure_new_client :
    PostMWAACommand deniedEnv sampleClient ⟨[], []⟩ "version".toList
      = (Outcome.panic "AccessDeniedException".toList, sampleClient, ⟨["env1".toList], []⟩) := by
  decide

theorem postRequest_result (env : Env) (cli : CLIENT) (log : Log) (cmd tok host : Str)
    (resp : Response) (hTok : cli.tokenOutput = some ⟨some tok, some host⟩)
    (hURL : env.NewRequest (consoleURL host) = none)
    (hDo : env.Do ⟨consoleURL host, "text/plain".toList, "Bearer ".toList ++ tok, cmd⟩
      = Except.ok resp) :
    (postRequest env cli log cmd).1
      = Outcome.ret (if resp.StatusCode = 200 then DecodeMWAAData resp.Body
          else (MWAAData.zero, some ("Status: ".toList ++ resp.Status))) := by
  unfold consoleURL at hURL hDo
  unfold postRequest
  simp only [hTok, hURL, hDo]
  by_cases h6 : resp.StatusCode = 200
  · simp only [h6, ne_eq, not_true_eq_false, if_false, if_true]
  · simp only [ne_eq, h6, not_false_eq_true, if_true, if_false]

/-- C19, as amended: when the request is sent with a held or a freshly
issued token and the console answers with status `s`, `PostMWAACommand`
returns the error `Status: ` followed by the status text exactly when
`s ≠ 200`, and for `s = 200` returns what `DecodeMWAAData` makes of the
body. -/
theorem PostMWAACommand_status (env : Env) (cli : CLIENT) (log : Log) (cmd tok host : Str)
    (resp : Response)
    (hReady : (env.now ≤ cli.tokenExpiration ∧ cli.tokenOutput = some ⟨some tok, some host⟩)
      ∨ (cli.tokenExpiration < env.now ∧ ∃ name, cli.Name = some name
          ∧ env.CreateCliToken name = Except.ok ⟨some tok, some host⟩))
    (hURL : env.NewRequest (consoleURL host) = none)
    (hDo : env.Do ⟨consoleURL host, "text/plain".toList, "Bearer ".toList ++ tok, cmd⟩
      = Except.ok resp) :
    (resp.StatusCode ≠ 200 → (PostMWAACommand env cli log cmd).1
        = Outcome.ret (MWAAData.zero, some ("Status: ".toList ++ resp.Status)))
      ∧ (resp.StatusCode = 200 → (PostMWAACommand env cli log cmd).1
        = Outcome.ret (DecodeMWAAData resp.Body)) := by
  have key : (PostMWAACommand env cli log cmd).1
      = Outcome.ret (if resp.StatusCode = 200 then DecodeMWAAData resp.Body
          else (MWAAData.zero, some ("Status: ".toList ++ resp.Status))) := by
    rcases hReady with ⟨hle, hTok⟩ | ⟨hlt, name, hName, hOut⟩
    · rw [post_not_expired env cli log cmd hle]
      exact postRequest_result env cli log cmd tok host resp hTok hURL hDo
    · rw [post_refreshed env cli log cmd name _ hlt hName hOut]
      exact postRequest_result env _ _ cmd tok host resp rfl hURL hDo
  constructor
  · intro h; rw [key, if_neg h]
  · intro h; rw [key, if_pos h]

theorem PostMWAACommand_status_witness :
    ((statusEnv 404 "404 Not Found".toList).Do ⟨consoleURL "host.example".toList,
          "text/plain".toList, "Bearer ".toList ++ "tok".toList, "version".toList⟩
        = Except.ok ⟨404, "404 Not Found".toList, Except.ok ⟨[], [], [], []⟩⟩)
      ∧ (PostMWAACommand (statusEnv 404 "404 Not Found".toList) sampleClient ⟨[], []⟩
          "version".toList).1
        = Outcome.ret (MWAAData.zero, some ("Status: ".toList ++ "404 Not Found".toList)) :=
  ⟨rfl, (PostMWAACommand_status (statusEnv 404 "404 Not Found".toList) sampleClient ⟨[], []⟩
    "version".toList "tok".toList "host.example".toList
    ⟨404, "404 Not Found".toList, Except.ok ⟨[], [], [], []⟩⟩
    (Or.inr ⟨by decide, "env1".toList, rfl, rfl⟩) rfl rfl).1 (by decide)⟩

/-- C19, the claim as stated fails: the console's status 201 is within
200..299, and `PostMWAACommand` returns the error `Status: 201 Created`
without decoding the body. -/
theorem PostMWAACommand_status_201 :
    (PostMWAACommand (statusEnv 201 "201 Created".toList) sampleClient ⟨[], []⟩
        "version".toList).1
      = Outcome.ret (MWAAData.zero, some "Status: 201 Created".toList) := by
  decide

/-! ## Writing a date-time back -/

set_option maxRecDepth 100000 in
theorem appendInt_two (n : Nat) (h : n < 100) : appendInt (n : Int) 2 = twoDigits n := by
  revert n
  decide

theorem toDigitsCore_lt (fuel n : Nat) (ds : List Char) (hf : 0 < fuel) (h : n < 10) :
    Nat.toDigitsCore 10 fuel n ds = Nat.digitChar n :: ds := by
  obtain ⟨f, rfl⟩ := Nat.exists_eq_succ_of_ne_zero (Nat.pos_iff_ne_zero.1 hf)
  have h1 : n / 10 = 0 := by omega
  have h2 : n % 10 = n := by omega
  simp [Nat.toDigitsCore, h1, h2]

theorem toDigitsCore_ge (fuel n : Nat) (ds : List Char) (hf : 0 < fuel) (h : 10 ≤ n) :
    Nat.toDigitsCore 10 fuel n ds
      = Nat.toDigitsCore 10 (fuel - 1) (n / 10) (Nat.digitChar (n % 10) :: ds) := by
  obtain ⟨f, rfl⟩ := Nat.exists_eq_succ_of_ne_zero (Nat.pos_iff_ne_zero.1 hf)
  have h1 : n / 10 ≠ 0 := by omega
  simp [Nat.toDigitsCore, h1]

theorem appendInt_four (y : Nat) (h : y < 10000) : appendInt (y : Int) 4 = fourDigits y := by
  have hneg : ¬ ((y : Int) < 0) := by omega
  have z : Nat.digitChar 0 = '0' := rfl
  simp only [appendInt, hneg, if_false, Int.natAbs_ofNat, List.nil_append, Nat.toDigits,
    fourDigits]
  by_cases h1 : y < 10
  · rw [toDigitsCore_lt _ _ _ (by omega) h1]
    have a : y / 1000 = 0 := by omega
    have b : y / 100 % 10 = 0 := by omega
    have c : y / 10 % 10 = 0 := by omega
    have d : y % 10 = y := by omega
    simp [a, b, c, d, z, List.replicate]
  · by_cases h2 : y < 100
    · rw [toDigitsCore_ge _ _ _ (by omega) (by omega),
        toDigitsCore_lt _ _ _ (by omega) (by omega)]
      have a : y / 1000 = 0 := by omega
      have b : y / 100 % 10 = 0 := by omega
      have c : y / 10 % 10 = y / 10 := by omega
      simp [a, b, c, z, List.replicate]
    · by_cases h3 : y < 1000
      · rw [toDigitsCore_ge _ _ _ (by omega) (by omega),
          toDigitsCore_ge _ _ _ (by omega) (by omega),
          toDigitsCore_lt _ _ _ (by omega) (by omega)]
        have a : y / 1000 = 0 := by omega
        have b : y / 100 % 10 = y / 10 / 10 := by omega
        simp [a, b, z, List.replicate]
      · rw [toDigitsCore_ge _ _ _ (by omega) (by omega),
          toDigitsCore_ge _ _ _ (by omega) (by omega),
          toDigitsCore_ge _ _ _ (by omega) (by omega),
          toDigitsCore_lt _ _ _ (by omega) (by omega)]
        have a : y / 1000 = y / 10 / 10 / 10 := by omega
        have b : y / 100 % 10 = y / 10 / 10 % 10 := by omega
        simp [a, b, List.replicate]

/-- Formatting the time a written real date-time parses to gives the text
back, the zone sign being `-` only for an offset below zero. -/
theorem formatNoDecimal_stamp (year month day hour min sec : Nat) (sign : Char) (zh zm : Nat)
    (hT : realDateTime year month day hour min sec sign zh zm) :
    Time.FormatNoDecimal ⟨year, month, day, hour, min, sec, 0,
        if sign = '-' then -(((zh : Int) * 60 + zm) * 60) else ((zh : Int) * 60 + zm) * 60⟩
      = stampText year month day hour min sec
          (if sign = '-' ∧ (zh ≠ 0 ∨ zm ≠ 0) then '-' else '+') zh zm := by
  obtain ⟨hy, hmo1, hmo2, hd1, hd2, hh, hmi, hs, hsg, hzh, hzm⟩ := hT
  have hd3 : day < 100 := by
    have : daysIn month year ≤ 31 := by unfold daysIn; split_ifs <;> omega
    omega
  have hq : (zh * 60 + zm) / 60 = zh := by omega
  have hr : (zh * 60 + zm) % 60 = zm := by omega
  have hfmt : ∀ (off : Int) (sg : Char), off.natAbs / 60 = zh * 60 + zm →
      (if off < 0 ∧ 0 < zh * 60 + zm then '-' else '+') = sg →
      Time.FormatNoDecimal ⟨year, month, day, hour, min, sec, 0, off⟩
        = stampText year month day hour min sec sg zh zm := by
    intro off sg hzone hsg'
    simp only [Time.FormatNoDecimal, hzone, hq, hr, hsg', appendInt_four year hy,
      appendInt_two month (by omega), appendInt_two day hd3, appendInt_two hour (by omega),
      appendInt_two min (by omega), appendInt_two sec (by omega), appendInt_two zh (by omega),
      appendInt_two zm (by omega), stampText, List.append_assoc, List.cons_append,
      List.nil_append, List.singleton_append]
  by_cases hs' : sign = '-'
  · rw [if_pos hs']
    apply hfmt
    · omega
    · by_cases hz : zh ≠ 0 ∨ zm ≠ 0
      · have hpos : 0 < zh * 60 + zm := by omega
        have hneg : -(((zh : Int) * 60 + zm) * 60) < 0 := by omega
        rw [if_pos ⟨hneg, hpos⟩, if_pos ⟨hs', hz⟩]
      · have hzero : ¬ 0 < zh * 60 + zm := by omega
        rw [if_neg (fun h => hzero h.2), if_neg (fun h => hz h.2)]
  · rw [if_neg hs']
    apply hfmt
    · omega
    · have hnn : ¬ ((zh : Int) * 60 + zm) * 60 < 0 := by omega
      rw [if_neg (fun h => hnn h.1), if_neg (fun h => hs' h.1)]

/-- C11, as amended: for every run-creation line as in C1 (after a preamble
line, with a real date-time `T`), the parsed record has `DagId`, `DagRunId`
and the externally-triggered flag equal to the line's tokens, and formatting
its `ExecutionDate` with the no-decimal layout gives `T` character for
character unless the zone is written `-00:00`; a zone written `-00:00` is
formatted as `+00:00`. -/
theorem ParseNewDagRun_round_trip (P D R : Str) (year month day hour min sec : Nat)
    (sign : Char) (zh zm : Nat) (B : Bool) (stderr stdout stderrStr : Str)
    (hP : P ≠ []) (hPl : '\n' ∉ P) (hD : D ≠ [])
    (hDc : ∀ c ∈ D, c.isAlphanum = true ∨ c = '_' ∨ c = '.' ∨ c = '-')
    (hR : R ≠ []) (hRl : '\n' ∉ R)
    (hT : realDateTime year month day hour min sec sign zh zm) :
    ∃ t : Time,
      ParseNewDagRun ⟨stderr, stdout, stderrStr,
          P ++ '\n' :: creationLine D (stampText year month day hour min sec sign zh zm) R B⟩
        = (⟨some R, some D, none, some t, none, none, none, some B, none⟩, none)
      ∧ (¬ (sign = '-' ∧ zh = 0 ∧ zm = 0) →
          t.FormatNoDecimal = stampText year month day hour min sec sign zh zm)
      ∧ (sign = '-' ∧ zh = 0 ∧ zm = 0 →
          t.FormatNoDecimal = stampText year month day hour min sec '+' 0 0) := by
  refine ⟨_, parseNewDagRun_of_match _ _ D _ R _ B _
    (search_newDagRunRe P D R year month day hour min sec sign zh zm B hP hPl hD
      (fun c hc => dagIdChar_of_ascii c (hDc c hc)) hR hRl hT)
    (parseBool_boolText B) (parseNoDecimal_stampText year month day hour min sec sign zh zm hT),
    ?_, ?_⟩
  · intro hne
    rw [formatNoDecimal_stamp year month day hour min sec sign zh zm hT]
    have hsg := hT.2.2.2.2.2.2.2.2.1
    rcases hsg with e | e
    · subst e
      rw [if_neg (fun h => absurd h.1 (by decide))]
    · subst e
      have hz : zh ≠ 0 ∨ zm ≠ 0 := by
        by_contra hc
        push_neg at hc
        exact hne ⟨rfl, hc.1, hc.2⟩
      rw [if_pos ⟨rfl, hz⟩]
  · rintro ⟨e1, e2, e3⟩
    subst e1; subst e2; subst e3
    rw [formatNoDecimal_stamp year month day hour min sec '-' 0 0 hT]
    rw [if_neg (fun h => h.2.elim (fun h0 => h0 rfl) (fun h0 => h0 rfl))]

set_option maxRecDepth 100000 in
theorem ParseNewDagRun_round_trip_witness :
    ∃ t : Time,
      ParseNewDagRun ⟨[], [], [], "INFO\nCreated <DagRun sizzle_reel_dev @ 2022-11-05T18:15:05-07:00: manual__2022-11-05T18:15:05+00:00, externally triggered: True>".toList⟩
        = (⟨some "manual__2022-11-05T18:15:05+00:00".toList, some "sizzle_reel_dev".toList,
            none, some t, none, none, none, some true, none⟩, none)
      ∧ (¬ ('-' = '-' ∧ 7 = 0 ∧ 0 = 0) →
          t.FormatNoDecimal = "2022-11-05T18:15:05-07:00".toList)
      ∧ ('-' = '-' ∧ 7 = 0 ∧ 0 = 0 →
          t.FormatNoDecimal = "2022-11-05T18:15:05+00:00".toList) :=
  ParseNewDagRun_round_trip "INFO".toList "sizzle_reel_dev".toList
    "manual__2022-11-05T18:15:05+00:00".toList 2022 11 5 18 15 5 '-' 7 0 true [] [] []
    (by decide) (by decide) (by decide) (by decide) (by decide) (by decide)
    (by unfold realDateTime; decide)

set_option maxRecDepth 100000 in
/-- C11, the claim as stated fails on the specification's own line: its
timestamp `2022-11-05T18:15:05-00:00` is parsed, and formatting the parsed
`ExecutionDate` gives `2022-11-05T18:15:05+00:00`, which is another text. -/
theorem ParseNewDagRun_round_trip_negative_zero :
    (ParseNewDagRun ⟨[], [], [], "INFO".toList ++ '\n' :: specCreationLine⟩).1.ExecutionDate.map
        Time.FormatNoDecimal = some "2022-11-05T18:15:05+00:00".toList
      ∧ "2022-11-05T18:15:05+00:00".toList ≠ "2022-11-05T18:15:05-00:00".toList := by
  decide

/-! ## Optional arguments of the command builders -/

/-- C23, what the code does where the claim expects a listing: for an input
with no state given (the empty state), no dag id and no limit, `GetDagJobs`
returns the validation error `'' is not a valid DagState` and sends
nothing. -/
theorem GetDagJobs_empty_state_rejected (unmarshal : Str → Except Str DagJobs) (env : Env)
    (cli : CLIENT) (log : Log) :
    GetDagJobs unmarshal env cli log ⟨Nullable.unset, [], Nullable.unset⟩
      = (Outcome.ret ([], some "'' is not a valid DagState".toList), cli, log) := by
  rfl

/-- C24, what the code does where the claim expects `tasks state`: with only
a run id set, `GetTaskState` hands `PostMWAACommand` the command
`tasks failed-deps '<dagId>' '<taskId>' '<runId>'`, and with only an
execution date set the same command ending in what `%s` prints for the
date; with both or neither set it returns an error and sends nothing. -/
theorem GetTaskState_sends_failed_deps (fmtTime : Option Time → Str) (env : Env) (cli : CLIENT)
    (log : Log) (dagId taskId r : Str) (t : Time) :
    (GetTaskState fmtTime env cli log dagId taskId Nullable.unset (Nullable.new (some r))).2
        = (PostMWAACommand env cli log ("tasks failed-deps '".toList ++ dagId ++ "' '".toList
            ++ taskId ++ ['\''] ++ " '".toList ++ r ++ ['\''])).2
      ∧ (GetTaskState fmtTime env cli log dagId taskId (Nullable.new (some t)) Nullable.unset).2
        = (PostMWAACommand env cli log ("tasks failed-deps '".toList ++ dagId ++ "' '".toList
            ++ taskId ++ ['\''] ++ " '".toList ++ fmtTime (some t) ++ ['\''])).2
      ∧ GetTaskState fmtTime env cli log dagId taskId (Nullable.new (some t))
          (Nullable.new (some r))
        = (Outcome.ret ([], some "executionDate and runId are mutually exclusive".toList),
            cli, log)
      ∧ GetTaskState fmtTime env cli log dagId taskId Nullable.unset Nullable.unset
        = (Outcome.ret ([], some "executionDate or runId required".toList), cli, log) := by
  refine ⟨?_, ?_, rfl, rfl⟩
  · simp only [GetTaskState, Nullable.unset, Nullable.new, Nullable.IsSet, Nullable.Get, deref,
      Outcome.bind, Bool.false_and, Bool.not_false, Bool.not_true, Bool.and_false,
      Bool.false_eq_true, if_false]
    rcases PostMWAACommand env cli log ("tasks failed-deps '".toList ++ dagId ++ "' '".toList
      ++ taskId ++ ['\''] ++ " '".toList ++ r ++ ['\'']) with ⟨out, cli1, log1⟩
    rcases out with ⟨data, _ | err⟩ | m <;> rfl
  · simp only [GetTaskState, Nullable.unset, Nullable.new, Nullable.IsSet, Nullable.Get,
      Bool.true_and, Bool.and_false, Bool.not_true, Bool.false_and, Bool.false_eq_true, if_false,
      if_true]
    rcases PostMWAACommand env cli log ("tasks failed-deps '".toList ++ dagId ++ "' '".toList
      ++ taskId ++ ['\''] ++ " '".toList ++ fmtTime (some t) ++ ['\'']) with ⟨out, cli1, log1⟩
    rcases out with ⟨data, _ | err⟩ | m <;> rfl

/-- C25, what the code does where the claim expects the dag id last: the
command `clearTasks` builds does not depend on `DagId` at all, and for a
`ClearTasks` with nothing but a dag id and the three optional flags false it
is `tasks clear --exclude-parentdag --exclude-subdags --exclude-subdags`,
with no dag id at its end and `--exclude-subdags` twice. -/
theorem clearTasks_command_lacks_dag_id (parseDay : Str → GoError) (o : ClearTasks)
    (d : Option Str) (d1 : Str) (dryRun : Bool) :
    clearTasksCommand parseDay { o with DagId := d } dryRun = clearTasksCommand parseDay o dryRun
      ∧ clearTasksCommand parseDay (plainClearTasks d1) true
        = Outcome.ret (Except.ok
            "tasks clear --exclude-parentdag --exclude-subdags --exclude-subdags".toList) :=
  ⟨rfl, rfl⟩

theorem clearTasks_of_command_panic (parseDay : Str → GoError) (env : Env) (cli : CLIENT)
    (log : Log) (o : ClearTasks) (dryRun : Bool) (m : Str)
    (h : clearTasksCommand parseDay o dryRun = Outcome.panic m) :
    clearTasks parseDay env cli log o dryRun = (Outcome.panic m, cli, log) := by
  simp only [clearTasks, h]

/-- C26, what the code does where the claim expects the default: when
`UseDagIdRegex` is left unset or set to explicit null (no task ids given),
`clearTasks` panics on the nil pointer and sends nothing, and so it does
when `IncludeDownstream` is. -/
theorem clearTasks_unset_flag_panics (parseDay : Str → GoError) (env : Env) (cli : CLIENT)
    (log : Log) (o : ClearTasks) (dryRun : Bool) (hIds : o.TaskIds = none)
    (hFlag : o.UseDagIdRegex.value = none ∨ o.IncludeDownstream.value = none) :
    clearTasks parseDay env cli log o dryRun
      = (Outcome.panic "invalid memory address or nil pointer dereference".toList, cli, log) := by
  apply clearTasks_of_command_panic
  unfold clearTasksCommand
  simp only [hIds, Option.isSome_none, Bool.false_eq_true, if_false, Nullable.Get]
  cases h1 : o.UseDagIdRegex.value with
  | none => rfl
  | some b =>
    rcases hFlag with h | h
    · rw [h1] at h
      exact absurd h (by simp)
    · simp only [deref, Outcome.bind, h]

theorem clearTasks_unset_flag_panics_witness :
    clearTasks (fun _ => none) (sampleEnv [] []) sampleClient ⟨[], []⟩
        { plainClearTasks "dag".toList with UseDagIdRegex := Nullable.unset } true
      = (Outcome.panic "invalid memory address or nil pointer dereference".toList, sampleClient,
          ⟨[], []⟩) :=
  clearTasks_unset_flag_panics (fun _ => none) (sampleEnv [] []) sampleClient ⟨[], []⟩
    { plainClearTasks "dag".toList with UseDagIdRegex := Nullable.unset } true rfl (Or.inl rfl)

/-- C28, what the code does where the claim expects the parsed run: for a
DAG run with a non-empty `DagId` and no `Conf`, once the console has
answered the trigger without an error, `NewDagRun` panics on the nil `Conf`
pointer, whatever the answer holds. -/
theorem NewDagRun_without_conf_panics (env : Env) (cli cli1 : CLIENT) (log log1 : Log)
    (dagRun : DAGRun) (data : MWAAData) (hId : dagRun.DagId.getD [] ≠ [])
    (hConf : dagRun.Conf = none)
    (hPost : PostMWAACommand env cli log (newDagRunCommand dagRun)
      = (Outcome.ret (data, none), cli1, log1)) :
    NewDagRun env cli log dagRun
      = (Outcome.panic "invalid memory address or nil pointer dereference".toList, cli1,
          log1) := by
  simp only [NewDagRun, hId, if_false, hPost, hConf]

set_option maxRecDepth 100000 in
theorem NewDagRun_without_conf_panics_witness :
    NewDagRun (sampleEnv ("INFO".toList ++ '\n' :: specCreationLine) []) sampleClient ⟨[], []⟩
        { DAGRun.zero with DagId := some "sizzle_reel_dev".toList }
      = (Outcome.panic "invalid memory address or nil pointer dereference".toList,
          ⟨some "env1".toList, some ⟨some "tok".toList, some "host.example".toList⟩,
            100 + minute⟩,
          ⟨["env1".toList], [⟨consoleURL "host.example".toList, "text/plain".toList,
            "Bearer tok".toList, "dags trigger 'sizzle_reel_dev'".toList⟩]⟩) :=
  NewDagRun_without_conf_panics (sampleEnv ("INFO".toList ++ '\n' :: specCreationLine) [])
    sampleClient _ ⟨[], []⟩ _ { DAGRun.zero with DagId := some "sizzle_reel_dev".toList }
    ⟨[], "INFO".toList ++ '\n' :: specCreationLine, [],
      "INFO".toList ++ '\n' :: specCreationLine⟩ (by decide) rfl (by decide)

theorem addConnectionCommand_eq (conn : Connection) :
    addConnectionCommand conn
      = "connections add".toList
        ++ ((if conn.Description.isSet = true then
            " --conn-description '".toList ++ conn.Description.value.getD [] ++ ['\''] else [])
          ++ connectionTail conn) := by
  unfold addConnectionCommand connectionTail Connection.HasDescription
    Connection.GetDescription Nullable.IsSet Nullable.Get
  cases conn.Description.isSet <;> cases conn.Extra.isSet <;> cases conn.Login.isSet
    <;> cases conn.Password.isSome <;> cases conn.Port.isSet <;> cases conn.ConnType.isSome
    <;> simp only [List.append_assoc, if_true, if_false, List.append_nil, List.nil_append,
      Bool.false_eq_true]

/-- C29, what the code does where the claim expects decimal digits: for a
connection with a port `p` set, the command holds ` --conn-port '` followed
by the single character with code point `p` (U+FFFD when there is none),
not the digits of `p`, and ends with the single-quoted connection id; for
the connection of `TestAddConnection`, port 9083, the flag is
` --conn-port '⍻'`. -/
theorem addConnection_port_is_a_rune (conn : Connection) (p : Int)
    (hPort : conn.Port = Nullable.new (some p)) :
    " --conn-port '".toList ++ runeToString p ++ ['\''] <:+: addConnectionCommand conn
      ∧ " '".toList ++ conn.ConnectionId.getD [] ++ ['\''] <:+ addConnectionCommand conn
      ∧ addConnectionCommand testConnection
        = "connections add --conn-description 'new4 description' --conn-login 'airflow' --conn-password 'airflow' --conn-port '⍻' --conn-type 'hive_metastore' 'new4'".toList := by
  refine ⟨?_, ?_, by decide⟩
  · rw [addConnectionCommand_eq]
    simp only [connectionTail, hPort, Nullable.new, Nullable.IsSet, Nullable.Get, if_true,
      Option.getD_some]
    refine ⟨"connections add".toList
        ++ ((if conn.Description.isSet = true then
            " --conn-description '".toList ++ conn.Description.value.getD [] ++ ['\''] else [])
          ++ ((if conn.Extra.isSet = true then
              " --conn-extra '".toList ++ conn.Extra.value.getD [] ++ ['\''] else [])
            ++ ((if conn.Login.isSet = true then
                " --conn-login '".toList ++ conn.Login.value.getD [] ++ ['\''] else [])
              ++ (if conn.Password.isSome = true then
                " --conn-password '".toList ++ conn.Password.getD [] ++ ['\''] else [])))),
      (if conn.ConnType.isSome = true then
          " --conn-type '".toList ++ conn.ConnType.getD [] ++ ['\''] else [])
        ++ (" '".toList ++ conn.ConnectionId.getD [] ++ ['\'']), ?_⟩
    simp only [List.append_assoc]
  · rw [addConnectionCommand_eq]
    unfold connectionTail
    refine ⟨"connections add".toList
        ++ ((if conn.Description.isSet = true then
            " --conn-description '".toList ++ conn.Description.value.getD [] ++ ['\''] else [])
          ++ ((if conn.Extra.IsSet = true then
              " --conn-extra '".toList ++ conn.Extra.Get.getD [] ++ ['\''] else [])
            ++ ((if conn.Login.IsSet = true then
                " --conn-login '".toList ++ conn.Login.Get.getD [] ++ ['\''] else [])
              ++ ((if conn.Password.isSome = true then
                  " --conn-password '".toList ++ conn.Password.getD [] ++ ['\''] else [])
                ++ ((if conn.Port.IsSet = true then
                    " --conn-port '".toList ++ runeToString (conn.Port.Get.getD 0) ++ ['\'']
                    else [])
                  ++ (if conn.ConnType.isSome = true then
                    " --conn-type '".toList ++ conn.ConnType.getD [] ++ ['\''] else [])))))),
      ?_⟩
    simp only [List.append_assoc]

theorem addConnection_port_is_a_rune_witness :
    " --conn-port '".toList ++ runeToString 9083 ++ ['\''] <:+: addConnectionCommand testConnection
      ∧ " '".toList ++ testConnection.ConnectionId.getD [] ++ ['\'']
        <:+ addConnectionCommand testConnection
      ∧ addConnectionCommand testConnection
        = "connections add --conn-description 'new4 description' --conn-login 'airflow' --conn-password 'airflow' --conn-port '⍻' --conn-type 'hive_metastore' 'new4'".toList :=
  addConnection_port_is_a_rune testConnection 9083 rfl

/-! ## Timestamps that name no date-time -/

theorem matchPlus_some {α : Type} (p : Char → Bool) (k : Str → Option α) (s : Str) (x : α)
    (h : matchPlus p k s = some x) : ∃ s1, k s1 = some x := by
  induction s with
  | nil => simp [matchPlus] at h
  | cons c s ih =>
    simp only [matchPlus] at h
    by_cases hp : p c = true
    · rw [if_pos hp] at h
      cases hm : matchPlus p k s with
      | none =>
        rw [hm] at h
        exact ⟨s, h⟩
      | some r =>
        rw [hm] at h
        exact ih (by rw [hm]; exact h)
    · rw [if_neg hp] at h
      cases h

/-- A successful run ends in a successful call of the continuation, with as
many groups as at the start. -/
theorem run_some (r : Re) : ∀ (s : Str) (g : Caps) (k : Str → Caps → Option (Str × Caps))
    (x : Str × Caps), Re.run r s g k = some x →
      ∃ s1 g1, g1.length = g.length ∧ k s1 g1 = some x := by
  induction r with
  | lit l =>
    intro s g k x h
    simp only [Re.run] at h
    cases hs : stripLit l s with
    | none => rw [hs] at h; cases h
    | some t => rw [hs] at h; exact ⟨t, g, rfl, h⟩
  | cls p =>
    intro s g k x h
    cases s with
    | nil => simp [Re.run] at h
    | cons c s =>
      simp only [Re.run] at h
      by_cases hp : p c = true
      · rw [if_pos hp] at h; exact ⟨s, g, rfl, h⟩
      · rw [if_neg hp] at h; cases h
  | plus p =>
    intro s g k x h
    rw [run_plus] at h
    obtain ⟨s1, h1⟩ := matchPlus_some _ _ _ _ h
    exact ⟨s1, g, rfl, h1⟩
  | alt a b iha ihb =>
    intro s g k x h
    rw [run_alt] at h
    cases ha : Re.run a s g k with
    | none => rw [ha] at h; exact ihb s g k x h
    | some r => rw [ha] at h; exact iha s g k x (by rw [ha]; exact h)
  | seq a b iha ihb =>
    intro s g k x h
    rw [run_seq] at h
    obtain ⟨s1, g1, hl1, h1⟩ := iha _ _ _ _ h
    obtain ⟨s2, g2, hl2, h2⟩ := ihb _ _ _ _ h1
    exact ⟨s2, g2, hl2.trans hl1, h2⟩
  | cap i a iha =>
    intro s g k x h
    rw [run_cap] at h
    obtain ⟨s1, g1, hl1, h1⟩ := iha _ _ _ _ h
    exact ⟨s1, _, (List.length_set _ _ _).trans hl1, h1⟩

theorem run_seq_some (a b : Re) (s : Str) (g : Caps) (k : Str → Caps → Option (Str × Caps))
    (x : Str × Caps) (h : Re.run (Re.seq a b) s g k = some x) :
    ∃ s1 g1, g1.length = g.length ∧ Re.run b s1 g1 k = some x := by
  rw [run_seq] at h
  exact run_some a _ _ _ _ h

theorem run_lit_some (l s : Str) (g : Caps) (k : Str → Caps → Option (Str × Caps))
    (x : Str × Caps) (h : Re.run (Re.lit l) s g k = some x) :
    ∃ t, s = l ++ t ∧ k t g = some x := by
  simp only [Re.run] at h
  cases hs : stripLit l s with
  | none => rw [hs] at h; cases h
  | some t => rw [hs] at h; exact ⟨t, stripLit_eq_some l s t hs, h⟩

theorem run_alt_some (a b : Re) (s : Str) (g : Caps) (k : Str → Caps → Option (Str × Caps))
    (x : Str × Caps) (h : Re.run (Re.alt a b) s g k = some x) :
    Re.run a s g k = some x ∨ Re.run b s g k = some x := by
  rw [run_alt] at h
  cases ha : Re.run a s g k with
  | none => rw [ha] at h; exact Or.inr h
  | some r => rw [ha] at h; exact Or.inl h

/-- The end of the creation pattern records `True` or `False` as group 4. -/
theorem run_bool_tail_some (s : Str) (g : Caps) (x : Str × Caps) (hg : 4 < g.length)
    (h : Re.run (Re.cat [Re.cap 4 (Re.alt (Re.lit "True".toList) (Re.lit "False".toList)),
        Re.lit ['>']]) s g (fun s1 g1 => some (s1, g1)) = some x) :
    x.2.getD 4 [] = "True".toList ∨ x.2.getD 4 [] = "False".toList := by
  rw [cat_cons_cons, run_seq, run_cap, cat_singleton] at h
  rcases run_alt_some _ _ _ _ _ _ h with h1 | h1
  · obtain ⟨t, rfl, h2⟩ := run_lit_some _ _ _ _ _ h1
    obtain ⟨t1, _, h3⟩ := run_lit_some _ _ _ _ _ h2
    rw [take_length_sub] at h3
    left
    rw [← Option.some.inj h3]
    simp [List.getD, hg]
  · obtain ⟨t, rfl, h2⟩ := run_lit_some _ _ _ _ _ h1
    obtain ⟨t1, _, h3⟩ := run_lit_some _ _ _ _ _ h2
    rw [take_length_sub] at h3
    right
    rw [← Option.some.inj h3]
    simp [List.getD, hg]

theorem search_some (r : Re) (n : Nat) (s : Str) (x : Str × Caps) (h : search r n s = some x) :
    ∃ s1, matchHere r n s1 = some x := by
  induction s with
  | nil => exact ⟨[], h⟩
  | cons c s ih =>
    rw [search] at h
    cases hm : matchHere r n (c :: s) with
    | none => rw [hm] at h; exact ih h
    | some m => rw [hm] at h; exact ⟨c :: s, by rw [hm]; exact h⟩

/-- Group 4 of any match of the creation pattern is `True` or `False`. -/
theorem newDagRunRe_group_four (s : Str) (m : Caps)
    (h : FindStringSubmatch newDagRunRe 4 s = some m) :
    m.getD 4 [] = "True".toList ∨ m.getD 4 [] = "False".toList := by
  unfold FindStringSubmatch at h
  cases hs : search newDagRunRe 4 s with
  | none => rw [hs] at h; cases h
  | some x =>
    rw [hs] at h
    have hm : x.2 = m := Option.some.inj h
    obtain ⟨s0, h0⟩ := search_some _ _ _ _ hs
    unfold matchHere at h0
    cases hr : Re.run newDagRunRe s0 (List.replicate (4 + 1) []) (fun s1 g => some (s1, g)) with
    | none => rw [hr] at h0; cases h0
    | some y =>
      rw [hr] at h0
      have hx : x = (y.1, y.2.set 0 (s0.take (s0.length - y.1.length))) :=
        (Option.some.inj h0).symm
      unfold newDagRunRe at hr
      rw [cat_cons_cons] at hr
      obtain ⟨s1, g1, l1, hr⟩ := run_seq_some _ _ _ _ _ _ hr
      rw [cat_cons_cons] at hr
      obtain ⟨s2, g2, l2, hr⟩ := run_seq_some _ _ _ _ _ _ hr
      rw [cat_cons_cons] at hr
      obtain ⟨s3, g3, l3, hr⟩ := run_seq_some _ _ _ _ _ _ hr
      rw [cat_cons_cons] at hr
      obtain ⟨s4, g4, l4, hr⟩ := run_seq_some _ _ _ _ _ _ hr
      rw [cat_cons_cons] at hr
      obtain ⟨s5, g5, l5, hr⟩ := run_seq_some _ _ _ _ _ _ hr
      rw [cat_cons_cons] at hr
      obtain ⟨s6, g6, l6, hr⟩ := run_seq_some _ _ _ _ _ _ hr
      rw [cat_cons_cons] at hr
      obtain ⟨s7, g7, l7, hr⟩ := run_seq_some _ _ _ _ _ _ hr
      rw [cat_cons_cons] at hr
      obtain ⟨s8, g8, l8, hr⟩ := run_seq_some _ _ _ _ _ _ hr
      have hg : 4 < g8.length := by
        rw [l8, l7, l6, l5, l4, l3, l2, l1]
        simp
      have hb := run_bool_tail_some s8 g8 y hg hr
      rw [← hm, hx]
      simpa [List.getD] using hb

/-- The creation pattern matches a creation line whose timestamp fits the
digit pattern, whether or not it names a date-time. -/
theorem search_newDagRunRe_digits (P D R : Str) (year month day hour min sec : Nat)
    (sign : Char) (zh zm : Nat) (B : Bool)
    (hP : P ≠ []) (hPl : '\n' ∉ P) (hD : D ≠ []) (hDc : ∀ c ∈ D, dagIdChar c = true)
    (hR : R ≠ []) (hRl : '\n' ∉ R)
    (hT : stampDigits year month day hour min sec sign zh zm) :
    FindStringSubmatch newDagRunRe 4
        (P ++ '\n' :: creationLine D (stampText year month day hour min sec sign zh zm) R B)
      = some [P ++ '\n' :: creationLine D (stampText year month day hour min sec sign zh zm) R B,
          D, stampText year month day hour min sec sign zh zm, R, boolText B] := by
  obtain ⟨hy, hmo, hd, hh, hmi, hs, hsg, hzh, hzm⟩ := hT
  have e : '\n' :: creationLine D (stampText year month day hour min sec sign zh zm) R B
      = "\nCreated <DagRun ".toList ++ (D ++ (" @ ".toList
        ++ (stampText year month day hour min sec sign zh zm ++ (": ".toList ++ (R
        ++ (", externally triggered: ".toList ++ (boolText B ++ '>' :: [] ))))))) := by
    simp [creationLine]
  have hrun : Re.run newDagRunRe
      (P ++ '\n' :: creationLine D (stampText year month day hour min sec sign zh zm) R B)
      (List.replicate 5 []) (fun s1 g1 => some (s1, g1))
      = some ([], ((((List.replicate 5 []).set 1 D).set 2
          (stampText year month day hour min sec sign zh zm)).set 3 R).set 4 (boolText B)) := by
    unfold newDagRunRe
    rw [cat_cons_cons, run_seq, run_plus]
    apply matchPlus_greedy
    · exact hP
    · intro c hc
      simp only [dot, bne_iff_ne, ne_eq]
      rintro rfl
      exact hPl hc
    · exact matchPlus_none_of_head _ _ _ (Or.inr ⟨'\n', _, rfl, by decide⟩)
    · show Re.run _ _ _ _ = some _
      rw [e, cat_cons_cons, run_seq, run_lit_append, cat_cons_cons, run_seq, run_cap, run_plus]
      apply matchPlus_greedy
      · exact hD
      · exact hDc
      · exact matchPlus_none_of_head _ _ _ (Or.inr ⟨' ', _, rfl, by decide⟩)
      · show Re.run _ _ _ _ = some _
        rw [take_length_sub, cat_cons_cons, run_seq, run_lit_append, cat_cons_cons, run_seq,
          run_cap, run_stampRe _ _ _ _ _ _ _ _ _ _ _ _ hy hmo hd hh hmi hs hsg hzh hzm,
          take_length_sub, cat_cons_cons, run_seq, run_lit_append]
        exact run_runId_tail R B [] _ _ _ hR hRl (Or.inl rfl) rfl
  have hmh : matchHere newDagRunRe 4
      (P ++ '\n' :: creationLine D (stampText year month day hour min sec sign zh zm) R B)
      = some ([], [P ++ '\n' :: creationLine D (stampText year month day hour min sec sign zh zm)
          R B, D, stampText year month day hour min sec sign zh zm, R, boolText B]) := by
    rw [matchHere, hrun]
    simp [List.replicate, List.set]
  cases P with
  | nil => exact absurd rfl hP
  | cons c P =>
    rw [FindStringSubmatch, List.cons_append, search, ← List.cons_append, hmh]
    rfl

/-- A written date-time with a field out of range is not parsed. -/
theorem parseNoDecimal_out_of_range (year month day hour min sec : Nat) (sign : Char)
    (zh zm : Nat) (h : stampDigits year month day hour min sec sign zh zm)
    (hBad : fieldOutOfRange year month day hour min sec zh zm) :
    ∃ e, parseNoDecimal (stampText year month day hour min sec sign zh zm) = Except.error e := by
  obtain ⟨hy, hmo, hd, hh, hmi, hs, hsg, hzh, hzm⟩ := h
  unfold fieldOutOfRange at hBad
  have y1 := digit_digitChar (year / 1000) (by omega)
  have y2 := digit_digitChar (year / 100 % 10) (by omega)
  have y3 := digit_digitChar (year / 10 % 10) (by omega)
  have y4 := digit_digitChar (year % 10) (by omega)
  have hyv := decVal_fourDigits year hy
  unfold fourDigits at hyv
  have hfr : ∀ t : Str, parseFraction (sign :: t) = (0, sign :: t) := by
    intro t
    rcases hsg with e | e <;> subst e <;> cases t <;> simp [parseFraction]
  have hsg0 : ¬ (sign ≠ '+' ∧ sign ≠ '-') := by tauto
  cases hp : parseNoDecimal (stampText year month day hour min sec sign zh zm) with
  | error e => exact ⟨e, rfl⟩
  | ok t =>
    exfalso
    simp only [parseNoDecimal, stampText, twoDigits, fourDigits, List.cons_append,
      List.nil_append, y1.1, y2.1, y3.1, y4.1, hyv, stripLit, if_true, Bool.and_self,
      Bool.not_true, Bool.false_eq_true, if_false, getnum_twoDigits _ _ _ hmo,
      getnum_twoDigits _ _ _ hd, getnum_twoDigits _ _ _ hh, getnum_twoDigits _ _ _ hmi,
      getnum_twoDigits _ _ _ hs, getnum_twoDigits _ _ _ hzh, getnum_twoDigits _ _ _ hzm, hfr,
      hsg0, Option.isSome_some, Option.map_some', Option.getD_some, ne_eq,
      not_true_eq_false] at hp
    split_ifs at hp <;> omega

theorem parseNewDagRun_of_bad_time (data : MWAAData) (w D T R bt e : Str) (b : Bool)
    (hm : FindStringSubmatch newDagRunRe 4 data.StdoutStr = some [w, D, T, R, bt])
    (hb : ParseBool bt = (b, none)) (ht : parseNoDecimal T = Except.error e) :
    ParseNewDagRun data = (DAGRun.zero, some e) := by
  simp only [ParseNewDagRun, hm, List.length_cons, List.length_nil, List.getD_cons_succ,
    List.getD_cons_zero, hb, GetTimePythonISONoDecimal, ht]
  rfl

set_option maxRecDepth 100000 in
/-- C30, the input on which the claim fails: the timestamp of this creation
line has the zone offset `+24:60`, twenty-five hours, and `ParseNewDagRun`
returns no error and a run whose execution date carries that offset,
90000 seconds. -/
theorem ParseNewDagRun_accepts_zone_of_25_hours :
    ParseNewDagRun ⟨[], [], [], "INFO\nCreated <DagRun d @ 2022-11-05T18:15:05+24:60: r, externally triggered: False>".toList⟩
      = (⟨some "r".toList, some "d".toList, none, some ⟨2022, 11, 5, 18, 15, 5, 0, 90000⟩,
          none, none, none, some false, none⟩, none) := by
  decide

/-! ## The description of a connection -/

theorem addConnectionCommand_unset (conn : Connection) :
    addConnectionCommand { conn with Description := Nullable.unset }
      = "connections add".toList ++ connectionTail conn := by
  rw [addConnectionCommand_eq]
  rfl

theorem addConnectionCommand_set (conn : Connection) (d : Option Str) :
    addConnectionCommand { conn with Description := Nullable.new d }
      = "connections add".toList
        ++ ((" --conn-description '".toList ++ d.getD [] ++ ['\'']) ++ connectionTail conn) := by
  rw [addConnectionCommand_eq]
  rfl

/-- C22, the input on which the claim fails: with the description set to
explicit null and with the description set to the empty string, all other
fields being those of the connection of `TestAddConnection`, the commands
are the same. -/
theorem addConnection_null_description_is_empty_string :
    addConnectionCommand { testConnection with Description := Nullable.new none }
        = addConnectionCommand { testConnection with Description := Nullable.new (some []) }
      ∧ addConnectionCommand { testConnection with Description := Nullable.new none }
        = "connections add --conn-description '' --conn-login 'airflow' --conn-password 'airflow' --conn-port '⍻' --conn-type 'hive_metastore' 'new4'".toList := by
  decide

/-- C22, as amended: with the description unset the command is
`connections add` followed directly by the other flags; with the description
`v` it has ` --conn-description 'v'` in between, and with explicit null
` --conn-description ''`.  The command for unset differs from the other two,
and the command for null differs from the command for `v` when `v` is not
empty. -/
theorem addConnection_description_states (conn : Connection) (v : Str) :
    addConnectionCommand { conn with Description := Nullable.unset }
        = "connections add".toList ++ connectionTail conn
      ∧ addConnectionCommand { conn with Description := Nullable.new (some v) }
        = "connections add".toList
          ++ ((" --conn-description '".toList ++ v ++ ['\'']) ++ connectionTail conn)
      ∧ addConnectionCommand { conn with Description := Nullable.new none }
        = "connections add".toList ++ (" --conn-description ''".toList ++ connectionTail conn)
      ∧ addConnectionCommand { conn with Description := Nullable.unset }
        ≠ addConnectionCommand { conn with Description := Nullable.new (some v) }
      ∧ addConnectionCommand { conn with Description := Nullable.unset }
        ≠ addConnectionCommand { conn with Description := Nullable.new none }
      ∧ (v ≠ [] → addConnectionCommand { conn with Description := Nullable.new none }
        ≠ addConnectionCommand { conn with Description := Nullable.new (some v) }) := by
  have hlen : ∀ d : Option Str,
      (addConnectionCommand { conn with Description := Nullable.new d }).length
        = 15 + (22 + (d.getD []).length + (connectionTail conn).length) := by
    intro d
    rw [addConnectionCommand_set]
    simp only [List.length_append, List.length_cons, List.length_nil]
    have h1 : "connections add".toList.length = 15 := by decide
    have h2 : " --conn-description '".toList.length = 21 := by decide
    rw [h1, h2]
    omega
  have hlen0 : (addConnectionCommand { conn with Description := Nullable.unset }).length
      = 15 + (connectionTail conn).length := by
    rw [addConnectionCommand_unset]
    simp only [List.length_append]
    have h1 : "connections add".toList.length = 15 := by decide
    rw [h1]
  refine ⟨addConnectionCommand_unset conn, addConnectionCommand_set conn (some v), ?_, ?_, ?_, ?_⟩
  · rw [addConnectionCommand_set]
    simp
  · intro h
    have := congrArg List.length h
    rw [hlen0, hlen] at this
    omega
  · intro h
    have := congrArg List.length h
    rw [hlen0, hlen] at this
    omega
  · intro hv h
    have := congrArg List.length h
    rw [hlen, hlen] at this
    have hv1 : 0 < v.length := List.length_pos.mpr hv
    simp only [Option.getD_none, Option.getD_some, List.length_nil] at this
    omega

/-! ## Listing DAG runs -/

theorem getDagByRunId_empty (runs : List DAGRun) (h : ∀ r ∈ runs, r.DagRunId.getD [] ≠ []) :
    GetDagByRunId runs [] = (DAGRun.zero, false) := by
  induction runs with
  | nil => rfl
  | cons r rs ih =>
    rw [GetDagByRunId, if_neg (h r (List.mem_cons_self _ _)),
      ih (fun x hx => h x (List.mem_cons_of_mem _ hx))]

/-- C27, what the code does for a filter by DAG: given a filter with a
`DagId` and no run id, and a listing every run of which has a run id,
`GetDagRuns` returns no run and the error `found no dag with runId: `,
whatever the DAG ids of the listed runs: with a `DagId` set it looks for the
filter's run id and never compares DAG ids.  `GetAllDagRuns` returns the
listed runs in the listing's order. -/
theorem GetDagRuns_with_dag_id_looks_up_run_id (unmarshal : Str → Except Str (List DagRun))
    (parseTime : Str → Except Str Time) (fmtLayout : Time → Str) (env : Env)
    (cli cli1 : CLIENT) (log log1 : Log) (data : MWAAData) (runs : List DAGRun)
    (dagRun : DAGRun) (d : Str)
    (hId : dagRun.DagId = some d) (hRun : dagRun.DagRunId = none)
    (hStart : dagRun.StartDate = none)
    (hPost : PostMWAACommand env cli log "dags list-runs --output json".toList
      = (Outcome.ret (data, none), cli1, log1))
    (hRuns : UnmarshalDagRuns unmarshal parseTime data = (runs, none))
    (hNamed : ∀ r ∈ runs, r.DagRunId.getD [] ≠ []) :
    GetDagRuns unmarshal parseTime fmtLayout env cli log dagRun
        = (Outcome.ret ([], some "found no dag with runId: ".toList), cli1, log1)
      ∧ GetAllDagRuns unmarshal parseTime fmtLayout env cli log
        = (Outcome.ret (runs, none), cli1, log1) := by
  have hcmd : "dags list-runs".toList ++ " --output json".toList
      = "dags list-runs --output json".toList := by decide
  constructor
  · simp only [GetDagRuns, hStart, Option.isSome_none, Bool.false_eq_true, if_false, hcmd, hPost,
      hRuns, hId, Option.isSome_some, if_true, hRun, Option.getD_none,
      getDagByRunId_empty runs hNamed, List.append_nil]
  · simp only [GetAllDagRuns, GetDagRuns, NewDAGRun, DAGRun.zero, Option.isSome_none,
      Bool.false_eq_true, if_false, hcmd, hPost, hRuns]

set_option maxRecDepth 100000 in
theorem GetDagRuns_with_dag_id_looks_up_run_id_witness :
    GetDagRuns (fun _ => Except.ok [testRow]) testParseTime (fun _ => []) (sampleEnv "[{}]".toList [])
          sampleClient ⟨[], []⟩ { DAGRun.zero with DagId := some "sizzle_reel_dev".toList }
        = (Outcome.ret ([], some "found no dag with runId: ".toList),
            ⟨some "env1".toList, some ⟨some "tok".toList, some "host.example".toList⟩,
              100 + minute⟩,
            ⟨["env1".toList], [⟨consoleURL "host.example".toList, "text/plain".toList,
              "Bearer tok".toList, "dags list-runs --output json".toList⟩]⟩)
      ∧ GetAllDagRuns (fun _ => Except.ok [testRow]) testParseTime (fun _ => [])
          (sampleEnv "[{}]".toList []) sampleClient ⟨[], []⟩
        = (Outcome.ret ([describedRun testParseTime testRow], none),
            ⟨some "env1".toList, some ⟨some "tok".toList, some "host.example".toList⟩,
              100 + minute⟩,
            ⟨["env1".toList], [⟨consoleURL "host.example".toList, "text/plain".toList,
              "Bearer tok".toList, "dags list-runs --output json".toList⟩]⟩) :=
  GetDagRuns_with_dag_id_looks_up_run_id (fun _ => Except.ok [testRow]) testParseTime
    (fun _ => []) (sampleEnv "[{}]".toList []) sampleClient _ ⟨[], []⟩ _
    ⟨[], "[{}]".toList, [], "[{}]".toList⟩ [describedRun testParseTime testRow]
    { DAGRun.zero with DagId := some "sizzle_reel_dev".toList } "sizzle_reel_dev".toList
    rfl rfl rfl (by decide) (by decide) (by decide)

/-! ## Stdouts without a creation line -/

theorem matchPlus_sound {α : Type} (p : Char → Bool) (k : Str → Option α) (s : Str) (x : α)
    (h : matchPlus p k s = some x) :
    ∃ w s1, s = w ++ s1 ∧ w ≠ [] ∧ (∀ c ∈ w, p c = true) ∧ k s1 = some x := by
  induction s with
  | nil => simp [matchPlus] at h
  | cons c s ih =>
    simp only [matchPlus] at h
    by_cases hp : p c = true
    · rw [if_pos hp] at h
      cases hm : matchPlus p k s with
      | none =>
        rw [hm] at h
        exact ⟨[c], s, rfl, by simp, by simpa using hp, h⟩
      | some r =>
        rw [hm] at h
        obtain ⟨w, s1, hs, _, hw, hk⟩ := ih (by rw [hm]; exact h)
        refine ⟨c :: w, s1, by rw [hs]; rfl, by simp, ?_, hk⟩
        intro d hd
        rcases List.mem_cons.1 hd with e | e
        · rw [e]; exact hp
        · exact hw d e
    · rw [if_neg hp] at h
      cases h

/-- A successful run consumes a text the expression accepts and ends in a
successful call of the continuation. -/
theorem run_sound (r : Re) : ∀ (s : Str) (g : Caps) (k : Str → Caps → Option (Str × Caps))
    (x : Str × Caps), Re.run r s g k = some x →
      ∃ w s1 g1, s = w ++ s1 ∧ Re.accepts r w ∧ k s1 g1 = some x := by
  induction r with
  | lit l =>
    intro s g k x h
    obtain ⟨t, hs, hk⟩ := run_lit_some l s g k x h
    exact ⟨l, t, g, hs, rfl, hk⟩
  | cls p =>
    intro s g k x h
    cases s with
    | nil => simp [Re.run] at h
    | cons c s =>
      simp only [Re.run] at h
      by_cases hp : p c = true
      · rw [if_pos hp] at h; exact ⟨[c], s, g, rfl, ⟨c, rfl, hp⟩, h⟩
      · rw [if_neg hp] at h; cases h
  | plus p =>
    intro s g k x h
    rw [run_plus] at h
    obtain ⟨w, s1, hs, hne, hw, hk⟩ := matchPlus_sound _ _ _ _ h
    exact ⟨w, s1, g, hs, ⟨hne, hw⟩, hk⟩
  | alt a b iha ihb =>
    intro s g k x h
    rcases run_alt_some a b s g k x h with h1 | h1
    · obtain ⟨w, s1, g1, hs, hw, hk⟩ := iha s g k x h1
      exact ⟨w, s1, g1, hs, Or.inl hw, hk⟩
    · obtain ⟨w, s1, g1, hs, hw, hk⟩ := ihb s g k x h1
      exact ⟨w, s1, g1, hs, Or.inr hw, hk⟩
  | seq a b iha ihb =>
    intro s g k x h
    rw [run_seq] at h
    obtain ⟨u, s1, g1, hs1, hu, h1⟩ := iha _ _ _ _ h
    obtain ⟨v, s2, g2, hs2, hv, h2⟩ := ihb _ _ _ _ h1
    exact ⟨u ++ v, s2, g2, by rw [hs1, hs2, List.append_assoc], ⟨u, v, rfl, hu, hv⟩, h2⟩
  | cap i a iha =>
    intro s g k x h
    rw [run_cap] at h
    obtain ⟨w, s1, g1, hs, hw, hk⟩ := iha _ _ _ _ h
    exact ⟨w, s1, _, hs, hw, hk⟩

theorem accepts_cat_cons (r r1 : Re) (rs : List Re) (w : Str)
    (h : Re.accepts (Re.cat (r :: r1 :: rs)) w) :
    ∃ u v, w = u ++ v ∧ Re.accepts r u ∧ Re.accepts (Re.cat (r1 :: rs)) v := by
  rw [cat_cons_cons] at h
  exact h

theorem search_sound (r : Re) (n : Nat) (s : Str) (x : Str × Caps) (h : search r n s = some x) :
    ∃ pre w post, s = pre ++ (w ++ post) ∧ Re.accepts r w := by
  induction s with
  | nil =>
    rw [search, matchHere] at h
    cases hr : Re.run r [] (List.replicate (n + 1) []) (fun s1 g => some (s1, g)) with
    | none => rw [hr] at h; cases h
    | some y =>
      obtain ⟨w, s1, g1, hs, hw, _⟩ := run_sound r _ _ _ _ hr
      exact ⟨[], w, s1, hs, hw⟩
  | cons c s ih =>
    rw [search] at h
    cases hm : matchHere r n (c :: s) with
    | none =>
      rw [hm] at h
      obtain ⟨pre, w, post, hs, hw⟩ := ih h
      exact ⟨c :: pre, w, post, by rw [hs]; rfl, hw⟩
    | some m =>
      unfold matchHere at hm
      cases hr : Re.run r (c :: s) (List.replicate (n + 1) []) (fun s1 g => some (s1, g)) with
      | none => rw [hr] at hm; cases hm
      | some y =>
        obtain ⟨w, s1, g1, hs, hw, _⟩ := run_sound r _ _ _ _ hr
        exact ⟨[], w, s1, hs, hw⟩

theorem digitChar_digitVal (c : Char) (h : digit c = true) :
    Nat.digitChar (digitVal c) = c ∧ digitVal c < 10 := by
  simp only [digit, Bool.and_eq_true, decide_eq_true_eq, Char.le_def] at h
  have h1 : 48 ≤ c.toNat := by
    have := h.1
    simpa [Char.toNat, UInt32.le_def] using this
  have h2 : c.toNat ≤ 57 := by
    have := h.2
    simpa [Char.toNat, UInt32.le_def] using this
  have hc : c = Char.ofNat c.toNat := (Char.ofNat_toNat c).symm
  unfold digitVal
  generalize c.toNat = n at *
  subst hc
  interval_cases n <;> decide

theorem accepts_rep_two (w : Str) (h : Re.accepts (Re.rep digit 2) w) :
    ∃ n, n < 100 ∧ w = twoDigits n := by
  simp only [Re.rep, Re.accepts] at h
  obtain ⟨u, v, rfl, ⟨a, rfl, ha⟩, u1, v1, rfl, ⟨b, rfl, hb⟩, rfl⟩ := h
  have h1 := digitChar_digitVal a ha
  have h2 := digitChar_digitVal b hb
  refine ⟨digitVal a * 10 + digitVal b, by omega, ?_⟩
  have e1 : (digitVal a * 10 + digitVal b) / 10 = digitVal a := by omega
  have e2 : (digitVal a * 10 + digitVal b) % 10 = digitVal b := by omega
  simp only [twoDigits, e1, e2, h1.1, h2.1, List.cons_append, List.nil_append]

theorem accepts_rep_four (w : Str) (h : Re.accepts (Re.rep digit 4) w) :
    ∃ n, n < 10000 ∧ w = fourDigits n := by
  simp only [Re.rep, Re.accepts] at h
  obtain ⟨u, v, rfl, ⟨a, rfl, ha⟩, u1, v1, rfl, ⟨b, rfl, hb⟩, u2, v2, rfl, ⟨c, rfl, hc⟩,
    u3, v3, rfl, ⟨d, rfl, hd⟩, rfl⟩ := h
  have h1 := digitChar_digitVal a ha
  have h2 := digitChar_digitVal b hb
  have h3 := digitChar_digitVal c hc
  have h4 := digitChar_digitVal d hd
  refine ⟨digitVal a * 1000 + digitVal b * 100 + digitVal c * 10 + digitVal d, by omega, ?_⟩
  have e1 : (digitVal a * 1000 + digitVal b * 100 + digitVal c * 10 + digitVal d) / 1000
      = digitVal a := by omega
  have e2 : (digitVal a * 1000 + digitVal b * 100 + digitVal c * 10 + digitVal d) / 100 % 10
      = digitVal b := by omega
  have e3 : (digitVal a * 1000 + digitVal b * 100 + digitVal c * 10 + digitVal d) / 10 % 10
      = digitVal c := by omega
  have e4 : (digitVal a * 1000 + digitVal b * 100 + digitVal c * 10 + digitVal d) % 10
      = digitVal d := by omega
  simp only [fourDigits, e1, e2, e3, e4, h1.1, h2.1, h3.1, h4.1, List.cons_append,
    List.nil_append]

/-- A text the timestamp pattern accepts is a written date-time whose
fields fit the digit pattern. -/
theorem accepts_stampRe (T : Str) (h : Re.accepts stampRe T) :
    ∃ year month day hour min sec sign zh zm,
      stampDigits year month day hour min sec sign zh zm
        ∧ T = stampText year month day hour min sec sign zh zm := by
  unfold stampRe at h
  obtain ⟨y, r1, rfl, hy, q1⟩ := accepts_cat_cons _ _ _ _ h
  obtain ⟨_, r2, rfl, rfl, q2⟩ := accepts_cat_cons _ _ _ _ q1
  obtain ⟨mo, r3, rfl, hmo, q3⟩ := accepts_cat_cons _ _ _ _ q2
  obtain ⟨_, r4, rfl, rfl, q4⟩ := accepts_cat_cons _ _ _ _ q3
  obtain ⟨d, r5, rfl, hd, q5⟩ := accepts_cat_cons _ _ _ _ q4
  obtain ⟨_, r6, rfl, rfl, q6⟩ := accepts_cat_cons _ _ _ _ q5
  obtain ⟨hh, r7, rfl, hhh, q7⟩ := accepts_cat_cons _ _ _ _ q6
  obtain ⟨_, r8, rfl, rfl, q8⟩ := accepts_cat_cons _ _ _ _ q7
  obtain ⟨mi, r9, rfl, hmi, q9⟩ := accepts_cat_cons _ _ _ _ q8
  obtain ⟨_, r10, rfl, rfl, q10⟩ := accepts_cat_cons _ _ _ _ q9
  obtain ⟨s, r11, rfl, hs, q11⟩ := accepts_cat_cons _ _ _ _ q10
  obtain ⟨sg, r12, rfl, ⟨sign, rfl, hsg⟩, q12⟩ := accepts_cat_cons _ _ _ _ q11
  obtain ⟨zh, r13, rfl, hzh, q13⟩ := accepts_cat_cons _ _ _ _ q12
  obtain ⟨_, zm, rfl, rfl, hzm⟩ := accepts_cat_cons _ _ _ _ q13
  rw [cat_singleton] at hzm
  obtain ⟨year, hy1, rfl⟩ := accepts_rep_four _ hy
  obtain ⟨month, hmo1, rfl⟩ := accepts_rep_two _ hmo
  obtain ⟨day, hd1, rfl⟩ := accepts_rep_two _ hd
  obtain ⟨hour, hh1, rfl⟩ := accepts_rep_two _ hhh
  obtain ⟨min, hmi1, rfl⟩ := accepts_rep_two _ hmi
  obtain ⟨sec, hs1, rfl⟩ := accepts_rep_two _ hs
  obtain ⟨zh, hzh1, rfl⟩ := accepts_rep_two _ hzh
  obtain ⟨zm, hzm1, rfl⟩ := accepts_rep_two _ hzm
  have hsign : sign = '+' ∨ sign = '-' := by
    simpa [signChar] using hsg
  refine ⟨year, month, day, hour, min, sec, sign, zh, zm,
    ⟨hy1, hmo1, hd1, hh1, hmi1, hs1, hsign, hzh1, hzm1⟩, ?_⟩
  simp [stampText, twoDigits, fourDigits]

theorem ascii_of_dagIdChar (c : Char) (h : dagIdChar c = true) :
    c.isAlphanum = true ∨ c = '_' ∨ c = '.' ∨ c = '-' := by
  simp only [dagIdChar, alnum, digit, Bool.or_eq_true, Bool.and_eq_true, decide_eq_true_eq,
    beq_iff_eq, Char.le_def, show 'a'.val = 97 from rfl, show 'z'.val = 122 from rfl,
    show 'A'.val = 65 from rfl, show 'Z'.val = 90 from rfl, show '0'.val = 48 from rfl,
    show '9'.val = 57 from rfl] at h
  simp only [Char.isAlphanum, Char.isAlpha, Char.isUpper, Char.isLower, Char.isDigit,
    Bool.or_eq_true, Bool.and_eq_true, decide_eq_true_eq, ge_iff_le]
  tauto

/-- A text the creation pattern accepts is a non-empty line, a newline and
a creation line. -/
theorem accepts_newDagRunRe (w : Str) (h : Re.accepts newDagRunRe w) :
    ∃ (P D R : Str) (year month day hour min sec : Nat) (sign : Char) (zh zm : Nat) (B : Bool),
      w = P ++ '\n' :: creationLine D (stampText year month day hour min sec sign zh zm) R B
        ∧ P ≠ [] ∧ '\n' ∉ P ∧ D ≠ []
        ∧ (∀ c ∈ D, c.isAlphanum = true ∨ c = '_' ∨ c = '.' ∨ c = '-')
        ∧ R ≠ [] ∧ '\n' ∉ R ∧ stampDigits year month day hour min sec sign zh zm := by
  unfold newDagRunRe at h
  obtain ⟨P, r1, rfl, ⟨hP, hPc⟩, q1⟩ := accepts_cat_cons _ _ _ _ h
  obtain ⟨_, r2, rfl, rfl, q2⟩ := accepts_cat_cons _ _ _ _ q1
  obtain ⟨D, r3, rfl, ⟨hD, hDc⟩, q3⟩ := accepts_cat_cons _ _ _ _ q2
  obtain ⟨_, r4, rfl, rfl, q4⟩ := accepts_cat_cons _ _ _ _ q3
  obtain ⟨T, r5, rfl, hT, q5⟩ := accepts_cat_cons _ _ _ _ q4
  obtain ⟨_, r6, rfl, rfl, q6⟩ := accepts_cat_cons _ _ _ _ q5
  obtain ⟨R, r7, rfl, ⟨hR, hRc⟩, q7⟩ := accepts_cat_cons _ _ _ _ q6
  obtain ⟨_, r8, rfl, rfl, q8⟩ := accepts_cat_cons _ _ _ _ q7
  obtain ⟨Bt, r9, rfl, hB, q9⟩ := accepts_cat_cons _ _ _ _ q8
  rw [cat_singleton] at q9
  have h9 : r9 = ['>'] := q9
  subst h9
  obtain ⟨year, month, day, hour, min, sec, sign, zh, zm, hdig, rfl⟩ := accepts_stampRe T hT
  have hnl : ∀ (X : Str), (∀ c ∈ X, dot c = true) → '\n' ∉ X := by
    intro X hX hmem
    have := hX _ hmem
    simp [dot] at this
  have hBt : ∃ B, Bt = boolText B := by
    rcases hB with e | e
    · exact ⟨true, e⟩
    · exact ⟨false, e⟩
  obtain ⟨B, rfl⟩ := hBt
  refine ⟨P, D, R, year, month, day, hour, min, sec, sign, zh, zm, B, ?_, hP, hnl P hPc, hD,
    fun c hc => ascii_of_dagIdChar c (hDc c hc), hR, hnl R hRc, hdig⟩
  simp [creationLine]

theorem holdsCreationLine_of_search (s : Str) (x : Str × Caps)
    (h : search newDagRunRe 4 s = some x) : holdsCreationLine s := by
  obtain ⟨pre, w, post, hs, hw⟩ := search_sound _ _ _ _ h
  obtain ⟨P, D, R, year, month, day, hour, min, sec, sign, zh, zm, B, rfl, h1, h2, h3, h4, h5,
    h6, h7⟩ := accepts_newDagRunRe w hw
  exact ⟨pre, P, D, R, post, year, month, day, hour, min, sec, sign, zh, zm, B,
    by rw [hs]; simp, h1, h2, h3, h4, h5, h6, h7⟩

theorem parseNewDagRun_error_zero (data : MWAAData) (err : Str)
    (h : (ParseNewDagRun data).2 = some err) : (ParseNewDagRun data).1 = DAGRun.zero := by
  unfold ParseNewDagRun at h ⊢
  cases hm : FindStringSubmatch newDagRunRe 4 data.StdoutStr with
  | none => rfl
  | some m =>
    rw [hm] at h
    simp only [] at h ⊢
    by_cases hl : m.length < 5
    · rw [if_pos hl]
    · rw [if_neg hl] at h ⊢
      cases hb : ParseBool (m.getD 4 []) with
      | mk b e =>
        rw [hb] at h
        cases e with
        | some e1 => rfl
        | none =>
          simp only [] at h ⊢
          cases ht : GetTimePythonISONoDecimal (m.getD 2 []) with
          | mk t e2 =>
            rw [ht] at h
            cases e2 with
            | some e3 => rfl
            | none => simp at h

theorem holdsCreationLine_trigger (s : Str) (h : holdsCreationLine s) :
    ∃ B, ", externally triggered: ".toList ++ (boolText B ++ ['>']) <:+: s := by
  obtain ⟨pre, P, D, R, post, year, month, day, hour, min, sec, sign, zh, zm, B, rfl, _⟩ := h
  refine ⟨B, pre ++ (P ++ '\n' :: ("Created <DagRun ".toList ++ (D ++ (" @ ".toList
    ++ (stampText year month day hour min sec sign zh zm ++ (": ".toList ++ R)))))), post, ?_⟩
  simp [creationLine]

theorem holdsCreationLine_text (s : Str) (h : holdsCreationLine s) :
    "Created <DagRun ".toList <:+: s := by
  obtain ⟨pre, P, D, R, post, year, month, day, hour, min, sec, sign, zh, zm, B, rfl, _⟩ := h
  refine ⟨pre ++ (P ++ ['\n']), D ++ (" @ ".toList
    ++ (stampText year month day hour min sec sign zh zm ++ (": ".toList ++ (R
    ++ (", externally triggered: ".toList ++ (boolText B ++ ['>'])))))) ++ post, ?_⟩
  simp [creationLine]

/-- C10: for every stdout that holds no run-creation line, that is, no line
`Created <DagRun D @ T: R, externally triggered: B>` after a non-empty line
with `D` non-empty over letters, digits, `_`, `.` and `-`, `T` in the digit
pattern of the timestamp, `R` non-empty and `B` True or False,
`ParseNewDagRun` returns the zero DAG run, no field of it set, and the error
`unable to parse stdout` followed by the stdout; every stdout without the
text `Created <DagRun `, the empty one among them, holds no such line; and
whenever `ParseNewDagRun` returns an error, the run it returns is the zero
run. -/
theorem ParseNewDagRun_no_creation_line (data : MWAAData)
    (h : ¬ holdsCreationLine data.StdoutStr) :
    ParseNewDagRun data
        = (⟨none, none, none, none, none, none, none, none, none⟩,
            some ("unable to parse stdout\nStderr:\n".toList ++ data.StdoutStr))
      ∧ (∀ stdout : Str, ¬ "Created <DagRun ".toList <:+: stdout → ¬ holdsCreationLine stdout)
      ∧ ∀ (d : MWAAData) (err : Str), (ParseNewDagRun d).2 = some err →
          (ParseNewDagRun d).1 = ⟨none, none, none, none, none, none, none, none, none⟩ := by
  refine ⟨?_, fun stdout hn hh => hn (holdsCreationLine_text stdout hh),
    fun d err he => parseNewDagRun_error_zero d err he⟩
  apply parseNewDagRun_of_no_match
  cases hs : search newDagRunRe 4 data.StdoutStr with
  | none => rfl
  | some x => exact absurd (holdsCreationLine_of_search _ x hs) h

set_option maxRecDepth 100000 in
theorem ParseNewDagRun_no_creation_line_witness :
    ParseNewDagRun ⟨[], [], [], "INFO\nCreated <DagRun d @ 2022-11-05T18:15:05+00:00: r, externally triggered: true>".toList⟩
        = (⟨none, none, none, none, none, none, none, none, none⟩,
            some ("unable to parse stdout\nStderr:\n".toList ++ "INFO\nCreated <DagRun d @ 2022-11-05T18:15:05+00:00: r, externally triggered: true>".toList))
      ∧ ParseNewDagRun ⟨[], [], [], []⟩
        = (⟨none, none, none, none, none, none, none, none, none⟩,
            some ("unable to parse stdout\nStderr:\n".toList ++ [])) :=
  ⟨(ParseNewDagRun_no_creation_line ⟨[], [], [], "INFO\nCreated <DagRun d @ 2022-11-05T18:15:05+00:00: r, externally triggered: true>".toList⟩
      (by
        intro hh
        obtain ⟨B, hB⟩ := holdsCreationLine_trigger _ hh
        rw [← contains_iff] at hB
        cases B <;> revert hB <;> decide)).1,
    (ParseNewDagRun_no_creation_line ⟨[], [], [], []⟩
      (by
        intro hh
        have hT := holdsCreationLine_text _ hh
        rw [← contains_iff] at hT
        revert hT
        decide)).1⟩

/-! ## Timestamps with a field out of range -/

/-- The creation pattern, matched from the start of a preamble line followed
by a creation line at whose end the line ends: what is left and the groups. -/
theorem matchHere_newDagRunRe_digits (P D R post : Str) (year month day hour min sec : Nat)
    (sign : Char) (zh zm : Nat) (B : Bool)
    (hP : P ≠ []) (hPl : '\n' ∉ P) (hD : D ≠ []) (hDc : ∀ c ∈ D, dagIdChar c = true)
    (hR : R ≠ []) (hRl : '\n' ∉ R) (hPost : lineEnds post)
    (hT : stampDigits year month day hour min sec sign zh zm) :
    matchHere newDagRunRe 4
        (P ++ '\n' :: (creationLine D (stampText year month day hour min sec sign zh zm) R B
          ++ post))
      = some (post,
          [P ++ '\n' :: creationLine D (stampText year month day hour min sec sign zh zm) R B,
            D, stampText year month day hour min sec sign zh zm, R, boolText B]) := by
  obtain ⟨hy, hmo, hd, hh, hmi, hs, hsg, hzh, hzm⟩ := hT
  have e : '\n' :: (creationLine D (stampText year month day hour min sec sign zh zm) R B
        ++ post)
      = "\nCreated <DagRun ".toList ++ (D ++ (" @ ".toList
        ++ (stampText year month day hour min sec sign zh zm ++ (": ".toList ++ (R
        ++ (", externally triggered: ".toList ++ (boolText B ++ '>' :: post))))))) := by
    simp [creationLine]
  have hrun : Re.run newDagRunRe
      (P ++ '\n' :: (creationLine D (stampText year month day hour min sec sign zh zm) R B
        ++ post))
      (List.replicate 5 []) (fun s1 g1 => some (s1, g1))
      = some (post, ((((List.replicate 5 []).set 1 D).set 2
          (stampText year month day hour min sec sign zh zm)).set 3 R).set 4 (boolText B)) := by
    unfold newDagRunRe
    rw [cat_cons_cons, run_seq, run_plus]
    apply matchPlus_greedy
    · exact hP
    · intro c hc
      simp only [dot, bne_iff_ne, ne_eq]
      rintro rfl
      exact hPl hc
    · exact matchPlus_none_of_head _ _ _ (Or.inr ⟨'\n', _, rfl, by decide⟩)
    · show Re.run _ _ _ _ = some _
      rw [e, cat_cons_cons, run_seq, run_lit_append, cat_cons_cons, run_seq, run_cap, run_plus]
      apply matchPlus_greedy
      · exact hD
      · exact hDc
      · exact matchPlus_none_of_head _ _ _ (Or.inr ⟨' ', _, rfl, by decide⟩)
      · show Re.run _ _ _ _ = some _
        rw [take_length_sub, cat_cons_cons, run_seq, run_lit_append, cat_cons_cons, run_seq,
          run_cap, run_stampRe _ _ _ _ _ _ _ _ _ _ _ _ hy hmo hd hh hmi hs hsg hzh hzm,
          take_length_sub, cat_cons_cons, run_seq, run_lit_append]
        exact run_runId_tail R B post _ _ _ hR hRl hPost rfl
  have hlen : (P ++ '\n' :: (creationLine D (stampText year month day hour min sec sign zh zm)
        R B ++ post)).take
        ((P ++ '\n' :: (creationLine D (stampText year month day hour min sec sign zh zm)
          R B ++ post)).length - post.length)
      = P ++ '\n' :: creationLine D (stampText year month day hour min sec sign zh zm) R B := by
    have e2 : P ++ '\n' :: (creationLine D (stampText year month day hour min sec sign zh zm)
          R B ++ post)
        = (P ++ '\n' :: creationLine D (stampText year month day hour min sec sign zh zm) R B)
          ++ post := by simp
    rw [e2, take_length_sub]
  rw [matchHere, hrun]
  simp only [hlen]
  simp [List.replicate, List.set]

theorem prefix_of_append_sep (L A X : Str) (q : Char) (hq : q ∉ L) (h : L <+: A ++ q :: X) :
    L <+: A := by
  induction L generalizing A with
  | nil => exact List.nil_prefix
  | cons l L ih =>
    cases A with
    | nil =>
      exfalso
      rw [List.nil_append, List.cons_prefix_cons] at h
      exact hq (by rw [h.1]; simp)
    | cons a A =>
      rw [List.cons_append, List.cons_prefix_cons] at h
      rw [List.cons_prefix_cons]
      exact ⟨h.1, ih A (fun hm => hq (List.mem_cons_of_mem _ hm)) h.2⟩

theorem first_sep_unique (c u P' v : Str) (q : Char) (hc : q ∉ c) (hP : q ∉ P')
    (h : c ++ q :: u = P' ++ q :: v) : c = P' ∧ u = v := by
  induction c generalizing P' with
  | nil =>
    cases P' with
    | nil => simpa using h
    | cons p P' =>
      exfalso
      simp only [List.nil_append, List.cons_append, List.cons.injEq] at h
      exact hP (by rw [← h.1]; simp)
  | cons x c ih =>
    cases P' with
    | nil =>
      exfalso
      simp only [List.nil_append, List.cons_append, List.cons.injEq] at h
      exact hc (by rw [h.1]; simp)
    | cons p P' =>
      simp only [List.cons_append, List.cons.injEq] at h
      obtain ⟨e1, e2⟩ := ih P' (fun hm => hc (List.mem_cons_of_mem _ hm))
        (fun hm => hP (List.mem_cons_of_mem _ hm)) h.2
      exact ⟨by rw [h.1, e1], e2⟩

theorem split_at_first (q : Char) (b : Str) (h : q ∈ b) :
    ∃ c d, b = c ++ q :: d ∧ q ∉ c := by
  induction b with
  | nil => simp at h
  | cons x b ih =>
    by_cases hx : x = q
    · exact ⟨[], b, by rw [hx]; rfl, by simp⟩
    · rcases List.mem_cons.1 h with e | e
      · exact absurd e.symm hx
      · obtain ⟨c, d, hb, hc⟩ := ih e
        refine ⟨x :: c, d, by rw [hb]; rfl, ?_⟩
        intro hm
        rcases List.mem_cons.1 hm with e1 | e1
        · exact hx e1.symm
        · exact hc e1

/-- No match of the creation pattern starts in the text before the preamble
line when no line there begins with `Created <DagRun `. -/
theorem matchHere_newDagRunRe_before (b P X : Str) (hb : '\n' ∈ b)
    (hFirst : ¬ "\nCreated <DagRun ".toList <:+: b ++ P) :
    matchHere newDagRunRe 4 (b ++ (P ++ '\n' :: X)) = none := by
  unfold matchHere
  cases hr : Re.run newDagRunRe (b ++ (P ++ '\n' :: X)) (List.replicate (4 + 1) [])
      (fun s1 g => some (s1, g)) with
  | none => rfl
  | some y =>
    exfalso
    obtain ⟨w, s1, g1, hs, hw, _⟩ := run_sound newDagRunRe _ _ _ _ hr
    unfold newDagRunRe at hw
    obtain ⟨P', r1, rfl, ⟨hP'ne, hP'c⟩, q1⟩ := accepts_cat_cons _ _ _ _ hw
    obtain ⟨_, r2, rfl, rfl, q2⟩ := accepts_cat_cons _ _ _ _ q1
    have hP'nl : '\n' ∉ P' := by
      intro hmem
      have := hP'c _ hmem
      simp [dot] at this
    obtain ⟨c, d, rfl, hc⟩ := split_at_first '\n' b hb
    have e1 : (c ++ '\n' :: d) ++ (P ++ '\n' :: X) = c ++ '\n' :: ((d ++ P) ++ '\n' :: X) := by
      simp
    have e2 : (P' ++ ("\nCreated <DagRun ".toList ++ r2)) ++ s1
        = P' ++ '\n' :: ("Created <DagRun ".toList ++ (r2 ++ s1)) := by
      simp
    rw [e1, e2] at hs
    obtain ⟨_, hu⟩ := first_sep_unique c _ P' _ '\n' hc hP'nl hs
    have hpre : "Created <DagRun ".toList <+: d ++ P :=
      prefix_of_append_sep _ _ X '\n' (by decide) ⟨r2 ++ s1, hu.symm⟩
    apply hFirst
    obtain ⟨t, ht⟩ := hpre
    refine ⟨c, t, ?_⟩
    have : "\nCreated <DagRun ".toList = '\n' :: "Created <DagRun ".toList := by decide
    rw [this]
    simp only [List.append_assoc, List.cons_append]
    rw [ht]

theorem search_skip (r : Re) (n : Nat) (pre X : Str)
    (h : ∀ a b, pre = a ++ b → b ≠ [] → matchHere r n (b ++ X) = none) :
    search r n (pre ++ X) = search r n X := by
  induction pre with
  | nil => rfl
  | cons c pre ih =>
    rw [List.cons_append, search, ← List.cons_append, h [] (c :: pre) rfl (by simp)]
    exact ih (fun a b hab hb => h (c :: a) b (by rw [hab]; rfl) hb)

/-- The groups the creation pattern finds in a stdout whose first line
beginning with `Created <DagRun ` follows a non-empty line. -/
theorem find_newDagRunRe (pre P D R post : Str) (year month day hour min sec : Nat)
    (sign : Char) (zh zm : Nat) (B : Bool)
    (hPre : pre = [] ∨ ∃ q, pre = q ++ ['\n'])
    (hFirst : ¬ "\nCreated <DagRun ".toList <:+: pre ++ P)
    (hP : P ≠ []) (hPl : '\n' ∉ P) (hD : D ≠ []) (hDc : ∀ c ∈ D, dagIdChar c = true)
    (hR : R ≠ []) (hRl : '\n' ∉ R) (hPost : lineEnds post)
    (hT : stampDigits year month day hour min sec sign zh zm) :
    FindStringSubmatch newDagRunRe 4
        (pre ++ (P ++ '\n' :: (creationLine D (stampText year month day hour min sec sign zh zm)
          R B ++ post)))
      = some [P ++ '\n' :: creationLine D (stampText year month day hour min sec sign zh zm) R B,
          D, stampText year month day hour min sec sign zh zm, R, boolText B] := by
  have hskip : search newDagRunRe 4
      (pre ++ (P ++ '\n' :: (creationLine D (stampText year month day hour min sec sign zh zm)
        R B ++ post)))
      = search newDagRunRe 4
        (P ++ '\n' :: (creationLine D (stampText year month day hour min sec sign zh zm)
          R B ++ post)) := by
    apply search_skip
    intro a b hab hb
    apply matchHere_newDagRunRe_before
    · rcases hPre with h0 | ⟨q, hq⟩
      · rw [h0] at hab
        have : b = [] := by
          have := congrArg List.length hab
          simp at this
          exact List.length_eq_zero.1 (by omega)
        exact absurd this hb
      · have hsuf : ['\n'] <:+ b := by
          have h1 : b <:+ q ++ ['\n'] := ⟨a, by rw [← hq, hab]⟩
          have h2 : ['\n'] <:+ q ++ ['\n'] := List.suffix_append _ _
          rcases List.suffix_or_suffix_of_suffix h1 h2 with h3 | h3
          · have hl := h3.length_le
            cases b with
            | nil => exact absurd rfl hb
            | cons x b =>
              cases b with
              | nil =>
                obtain ⟨t, ht⟩ := h3
                cases t with
                | nil => simp at ht; rw [ht]
                | cons _ _ => simp at ht
              | cons _ _ => simp at hl
          · exact h3
        exact hsuf.subset (by simp)
    · intro hi
      apply hFirst
      rw [hab, List.append_assoc]
      exact List.IsInfix.trans hi ⟨a, [], by simp⟩
  rw [FindStringSubmatch, hskip]
  have hmh := matchHere_newDagRunRe_digits P D R post year month day hour min sec sign zh zm B
    hP hPl hD hDc hR hRl hPost hT
  cases P with
  | nil => exact absurd rfl hP
  | cons c P =>
    rw [List.cons_append, search, ← List.cons_append, hmh]
    rfl

/-- Parsing a written date-time none of whose fields is out of range gives its fields. -/
theorem parseNoDecimal_in_range (year month day hour min sec : Nat) (sign : Char) (zh zm : Nat)
    (h : stampDigits year month day hour min sec sign zh zm)
    (hOk : ¬ fieldOutOfRange year month day hour min sec zh zm) :
    parseNoDecimal (stampText year month day hour min sec sign zh zm)
      = Except.ok ⟨year, month, day, hour, min, sec, 0,
          if sign = '-' then -(((zh : Int) * 60 + zm) * 60) else ((zh : Int) * 60 + zm) * 60⟩ := by
  obtain ⟨hy, hmo, hd, hh, hmi, hs, hsg, hzh, hzm⟩ := h
  unfold fieldOutOfRange at hOk
  have y1 := digit_digitChar (year / 1000) (by omega)
  have y2 := digit_digitChar (year / 100 % 10) (by omega)
  have y3 := digit_digitChar (year / 10 % 10) (by omega)
  have y4 := digit_digitChar (year % 10) (by omega)
  have hyv := decVal_fourDigits year hy
  unfold fourDigits at hyv
  have hfr : ∀ t : Str, parseFraction (sign :: t) = (0, sign :: t) := by
    intro t
    rcases hsg with e | e <;> subst e <;> cases t <;> simp [parseFraction]
  have hmo0 : ¬ (month = 0 ∨ 12 < month) := by omega
  have hh0 : ¬ 24 ≤ hour := by omega
  have hmi0 : ¬ 60 ≤ min := by omega
  have hs0 : ¬ 60 ≤ sec := by omega
  have hzh0 : ¬ 24 < zh := by omega
  have hzm0 : ¬ 60 < zm := by omega
  have hd0 : ¬ (day < 1 ∨ daysIn month year < day) := by omega
  have hsg0 : ¬ (sign ≠ '+' ∧ sign ≠ '-') := by tauto
  simp only [parseNoDecimal, stampText, twoDigits, fourDigits, List.cons_append,
    List.nil_append, y1.1, y2.1, y3.1, y4.1, hyv, stripLit, if_true, Bool.and_self, Bool.not_true,
    Bool.false_eq_true, if_false, getnum_twoDigits _ _ _ hmo,
    getnum_twoDigits _ _ _ hd, getnum_twoDigits _ _ _ hh,
    getnum_twoDigits _ _ _ hmi, getnum_twoDigits _ _ _ hs,
    getnum_twoDigits _ _ _ hzh, getnum_twoDigits _ _ _ hzm, hfr, hmo0, hh0, hmi0, hs0, hzh0, hzm0,
    hd0, hsg0, Option.isSome_some, Option.map_some', Option.getD_some, ne_eq, not_true_eq_false]

theorem accepts_of_capFree (r : Re) : ∀ (w : Str) (g g1 : Caps), r.capFree = true →
    Re.acceptsWith r w g g1 → Re.accepts r w ∧ g1 = g := by
  induction r with
  | lit l => intro w g g1 _ h; exact h
  | cls p => intro w g g1 _ h; exact h
  | plus p => intro w g g1 _ h; exact h
  | alt a b iha ihb =>
    intro w g g1 hc h
    simp only [Re.capFree, Bool.and_eq_true] at hc
    rcases h with h | h
    · exact ⟨Or.inl (iha w g g1 hc.1 h).1, (iha w g g1 hc.1 h).2⟩
    · exact ⟨Or.inr (ihb w g g1 hc.2 h).1, (ihb w g g1 hc.2 h).2⟩
  | seq a b iha ihb =>
    intro w g g1 hc h
    simp only [Re.capFree, Bool.and_eq_true] at hc
    obtain ⟨u, v, gm, hw, ha, hb⟩ := h
    have h1 := iha u g gm hc.1 ha
    have h2 := ihb v gm g1 hc.2 hb
    exact ⟨⟨u, v, hw, h1.1, h2.1⟩, by rw [h2.2, h1.2]⟩
  | cap i a _ => intro w g g1 hc; simp [Re.capFree] at hc

/-- A successful run consumes a text the expression accepts, sets the groups
as the expression does and ends in a successful call of the continuation. -/
theorem run_sound_groups (r : Re) : ∀ (s : Str) (g : Caps)
    (k : Str → Caps → Option (Str × Caps)) (x : Str × Caps), Re.run r s g k = some x →
      ∃ w s1 g1, s = w ++ s1 ∧ Re.acceptsWith r w g g1 ∧ k s1 g1 = some x := by
  induction r with
  | lit l =>
    intro s g k x h
    obtain ⟨t, hs, hk⟩ := run_lit_some l s g k x h
    exact ⟨l, t, g, hs, ⟨rfl, rfl⟩, hk⟩
  | cls p =>
    intro s g k x h
    cases s with
    | nil => simp [Re.run] at h
    | cons c s =>
      simp only [Re.run] at h
      by_cases hp : p c = true
      · rw [if_pos hp] at h; exact ⟨[c], s, g, rfl, ⟨⟨c, rfl, hp⟩, rfl⟩, h⟩
      · rw [if_neg hp] at h; cases h
  | plus p =>
    intro s g k x h
    rw [run_plus] at h
    obtain ⟨w, s1, hs, hne, hw, hk⟩ := matchPlus_sound _ _ _ _ h
    exact ⟨w, s1, g, hs, ⟨⟨hne, hw⟩, rfl⟩, hk⟩
  | alt a b iha ihb =>
    intro s g k x h
    rcases run_alt_some a b s g k x h with h1 | h1
    · obtain ⟨w, s1, g1, hs, hw, hk⟩ := iha s g k x h1
      exact ⟨w, s1, g1, hs, Or.inl hw, hk⟩
    · obtain ⟨w, s1, g1, hs, hw, hk⟩ := ihb s g k x h1
      exact ⟨w, s1, g1, hs, Or.inr hw, hk⟩
  | seq a b iha ihb =>
    intro s g k x h
    rw [run_seq] at h
    obtain ⟨u, s1, g1, hs1, hu, h1⟩ := iha _ _ _ _ h
    obtain ⟨v, s2, g2, hs2, hv, h2⟩ := ihb _ _ _ _ h1
    exact ⟨u ++ v, s2, g2, by rw [hs1, hs2, List.append_assoc], ⟨u, v, g1, rfl, hu, hv⟩, h2⟩
  | cap i a iha =>
    intro s g k x h
    rw [run_cap] at h
    obtain ⟨w, s1, g1, hs, hw, hk⟩ := iha _ _ _ _ h
    have ht : s.take (s.length - s1.length) = w := by rw [hs, take_length_sub]
    rw [ht] at hk
    exact ⟨w, s1, _, hs, ⟨g1, hw, rfl⟩, hk⟩

theorem acceptsWith_cat_cons (r r1 : Re) (rs : List Re) (w : Str) (g g1 : Caps)
    (h : Re.acceptsWith (Re.cat (r :: r1 :: rs)) w g g1) :
    ∃ u v gm, w = u ++ v ∧ Re.acceptsWith r u g gm
      ∧ Re.acceptsWith (Re.cat (r1 :: rs)) v gm g1 := by
  rw [cat_cons_cons] at h
  exact h

/-- A text the creation pattern accepts is a non-empty line, a newline and
a creation line, and the groups set are the four tokens of the line. -/
theorem acceptsWith_newDagRunRe (w : Str) (g g1 : Caps)
    (h : Re.acceptsWith newDagRunRe w g g1) :
    ∃ (P D R : Str) (year month day hour min sec : Nat) (sign : Char) (zh zm : Nat) (B : Bool),
      w = P ++ '\n' :: creationLine D (stampText year month day hour min sec sign zh zm) R B
        ∧ P ≠ [] ∧ '\n' ∉ P ∧ D ≠ []
        ∧ (∀ c ∈ D, c.isAlphanum = true ∨ c = '_' ∨ c = '.' ∨ c = '-')
        ∧ R ≠ [] ∧ '\n' ∉ R ∧ stampDigits year month day hour min sec sign zh zm
        ∧ g1 = (((g.set 1 D).set 2 (stampText year month day hour min sec sign zh zm)).set
            3 R).set 4 (boolText B) := by
  unfold newDagRunRe at h
  obtain ⟨P, r1, m1, rfl, ⟨⟨hP, hPc⟩, e1⟩, q1⟩ := acceptsWith_cat_cons _ _ _ _ _ _ h
  obtain ⟨_, r2, m2, rfl, ⟨rfl, e2⟩, q2⟩ := acceptsWith_cat_cons _ _ _ _ _ _ q1
  obtain ⟨D, r3, m3, rfl, ⟨m3a, ⟨⟨hD, hDc⟩, e3a⟩, e3⟩, q3⟩ := acceptsWith_cat_cons _ _ _ _ _ _ q2
  obtain ⟨_, r4, m4, rfl, ⟨rfl, e4⟩, q4⟩ := acceptsWith_cat_cons _ _ _ _ _ _ q3
  obtain ⟨T, r5, m5, rfl, ⟨m5a, hT, e5⟩, q5⟩ := acceptsWith_cat_cons _ _ _ _ _ _ q4
  obtain ⟨_, r6, m6, rfl, ⟨rfl, e6⟩, q6⟩ := acceptsWith_cat_cons _ _ _ _ _ _ q5
  obtain ⟨R, r7, m7, rfl, ⟨m7a, ⟨⟨hR, hRc⟩, e7a⟩, e7⟩, q7⟩ := acceptsWith_cat_cons _ _ _ _ _ _ q6
  obtain ⟨_, r8, m8, rfl, ⟨rfl, e8⟩, q8⟩ := acceptsWith_cat_cons _ _ _ _ _ _ q7
  obtain ⟨Bt, r9, m9, rfl, ⟨m9a, hB, e9⟩, q9⟩ := acceptsWith_cat_cons _ _ _ _ _ _ q8
  rw [cat_singleton] at q9
  obtain ⟨h9, e10⟩ : r9 = ['>'] ∧ g1 = m9 := q9
  subst h9
  obtain ⟨hTa, e5a⟩ := accepts_of_capFree stampRe T m4 m5a (by decide) hT
  obtain ⟨year, month, day, hour, min, sec, sign, zh, zm, hdig, rfl⟩ := accepts_stampRe T hTa
  have hnl : ∀ (X : Str), (∀ c ∈ X, dot c = true) → '\n' ∉ X := by
    intro X hX hmem
    have := hX _ hmem
    simp [dot] at this
  have hBt : ∃ B, Bt = boolText B ∧ m9a = m8 := by
    rcases hB with ⟨e, e'⟩ | ⟨e, e'⟩
    · exact ⟨true, e, e'⟩
    · exact ⟨false, e, e'⟩
  obtain ⟨B, rfl, e9a⟩ := hBt
  refine ⟨P, D, R, year, month, day, hour, min, sec, sign, zh, zm, B, ?_, hP, hnl P hPc, hD,
    fun c hc => ascii_of_dagIdChar c (hDc c hc), hR, hnl R hRc, hdig, ?_⟩
  · simp [creationLine]
  · rw [e10, e9, e9a, e8, e7, e7a, e6, e5, e5a, e4, e3, e3a, e2, e1]

theorem search_matchHere (r : Re) (n : Nat) (s : Str) (x : Str × Caps)
    (h : search r n s = some x) : ∃ pre s0, s = pre ++ s0 ∧ matchHere r n s0 = some x := by
  induction s with
  | nil => exact ⟨[], [], rfl, h⟩
  | cons c s ih =>
    rw [search] at h
    cases hm : matchHere r n (c :: s) with
    | none =>
      rw [hm] at h
      obtain ⟨pre, s0, hs, h0⟩ := ih h
      exact ⟨c :: pre, s0, by rw [hs]; rfl, h0⟩
    | some m =>
      rw [hm] at h
      exact ⟨[], c :: s, rfl, by rw [hm]; exact h⟩

/-- Every match of the creation pattern lies on a creation line after a
non-empty line, and its groups are the match and the four tokens. -/
theorem find_newDagRunRe_sound (s : Str) (m : Caps)
    (h : FindStringSubmatch newDagRunRe 4 s = some m) :
    ∃ (pre P D R post : Str) (year month day hour min sec : Nat) (sign : Char) (zh zm : Nat)
      (B : Bool),
      s = pre ++ (P ++ '\n' :: (creationLine D
          (stampText year month day hour min sec sign zh zm) R B ++ post))
        ∧ P ≠ [] ∧ '\n' ∉ P ∧ D ≠ []
        ∧ (∀ c ∈ D, c.isAlphanum = true ∨ c = '_' ∨ c = '.' ∨ c = '-')
        ∧ R ≠ [] ∧ '\n' ∉ R ∧ stampDigits year month day hour min sec sign zh zm
        ∧ m = [P ++ '\n' :: creationLine D (stampText year month day hour min sec sign zh zm)
            R B, D, stampText year month day hour min sec sign zh zm, R, boolText B] := by
  unfold FindStringSubmatch at h
  cases hs : search newDagRunRe 4 s with
  | none => rw [hs] at h; cases h
  | some x =>
    rw [hs] at h
    have hm : x.2 = m := Option.some.inj h
    obtain ⟨pre, s0, hs0, h0⟩ := search_matchHere _ _ _ _ hs
    unfold matchHere at h0
    cases hr : Re.run newDagRunRe s0 (List.replicate (4 + 1) []) (fun s1 g => some (s1, g)) with
    | none => rw [hr] at h0; cases h0
    | some y =>
      rw [hr] at h0
      have hx : x = (y.1, y.2.set 0 (s0.take (s0.length - y.1.length))) :=
        (Option.some.inj h0).symm
      obtain ⟨w, s1, g1, hw, hacc, hk⟩ := run_sound_groups newDagRunRe _ _ _ _ hr
      have hy : y = (s1, g1) := (Option.some.inj hk).symm
      obtain ⟨P, D, R, year, month, day, hour, min, sec, sign, zh, zm, B, rfl, h1, h2, h3, h4,
        h5, h6, h7, hg⟩ := acceptsWith_newDagRunRe w _ g1 hacc
      refine ⟨pre, P, D, R, s1, year, month, day, hour, min, sec, sign, zh, zm, B, ?_, h1, h2,
        h3, h4, h5, h6, h7, ?_⟩
      · rw [hs0, hw]; simp
      · rw [← hm, hx, hy]
        simp only []
        rw [hw, take_length_sub, hg]
        simp [List.replicate, List.set]

/-- Whenever `ParseNewDagRun` returns no error, the stdout holds a creation
line after a non-empty line, no field of its timestamp is out of range, and
the run returned has the tokens and the date-time of that line. -/
theorem parseNewDagRun_ok_sound (d : MWAAData) (h : (ParseNewDagRun d).2 = none) :
    ∃ (pre P D R post : Str) (year month day hour min sec : Nat) (sign : Char) (zh zm : Nat)
      (B : Bool),
      d.StdoutStr = pre ++ (P ++ '\n' :: (creationLine D
          (stampText year month day hour min sec sign zh zm) R B ++ post))
        ∧ P ≠ [] ∧ '\n' ∉ P ∧ D ≠ []
        ∧ (∀ c ∈ D, c.isAlphanum = true ∨ c = '_' ∨ c = '.' ∨ c = '-')
        ∧ R ≠ [] ∧ '\n' ∉ R ∧ stampDigits year month day hour min sec sign zh zm
        ∧ ¬ fieldOutOfRange year month day hour min sec zh zm
        ∧ ParseNewDagRun d
          = (⟨some R, some D, none,
              some ⟨year, month, day, hour, min, sec, 0,
                if sign = '-' then -(((zh : Int) * 60 + zm) * 60)
                else ((zh : Int) * 60 + zm) * 60⟩,
              none, none, none, some B, none⟩, none) := by
  cases hf : FindStringSubmatch newDagRunRe 4 d.StdoutStr with
  | none =>
    simp [ParseNewDagRun, hf] at h
  | some m =>
    obtain ⟨pre, P, D, R, post, year, month, day, hour, min, sec, sign, zh, zm, B, hs, h1, h2,
      h3, h4, h5, h6, h7, hm⟩ := find_newDagRunRe_sound _ _ hf
    rw [hm] at hf
    have hOk : ¬ fieldOutOfRange year month day hour min sec zh zm := by
      intro hBad
      obtain ⟨e, he⟩ := parseNoDecimal_out_of_range year month day hour min sec sign zh zm h7 hBad
      rw [parseNewDagRun_of_bad_time d _ D _ R _ e B hf (parseBool_boolText B) he] at h
      cases h
    exact ⟨pre, P, D, R, post, year, month, day, hour, min, sec, sign, zh, zm, B, hs, h1, h2,
      h3, h4, h5, h6, h7, hOk, parseNewDagRun_of_match d _ D _ R _ B _ hf (parseBool_boolText B)
        (parseNoDecimal_in_range year month day hour min sec sign zh zm h7 hOk)⟩

/-- C30, as amended: take any stdout in which a creation line whose
timestamp fits the digit pattern follows a non-empty line, is the first line
to begin with `Created <DagRun `, and ends where its line ends, whatever
lines stand before and after.  When a field of the timestamp is out of range
(no such month, no such day in that month, an hour of 24 or more, a minute
or second of 60 or more, or a zone offset of more than 24 hours or with more
than 60 minutes), `ParseNewDagRun` returns an error and the zero DAG run.
When none is, zone offsets of up to 24 hours and 60 minutes of either sign
included, it returns no error and the run with the line's tokens and the
date-time with that offset.  Group 4 of every match of the creation pattern
is `True` or `False`, which `ParseBool` reads without an error.  And for
every stdout whatever: when `ParseNewDagRun` returns no error, the stdout
holds such a creation line after a non-empty line, no field of its timestamp
is out of range, and the run returned has that line's tokens and that
date-time, so that no run with a zero or partly filled execution date is
ever returned. -/
theorem ParseNewDagRun_field_out_of_range (pre P D R post : Str)
    (year month day hour min sec : Nat) (sign : Char) (zh zm : Nat) (B : Bool)
    (stderr stdout stderrStr : Str)
    (hPre : pre = [] ∨ ∃ q, pre = q ++ ['\n'])
    (hFirst : ¬ "\nCreated <DagRun ".toList <:+: pre ++ P)
    (hP : P ≠ []) (hPl : '\n' ∉ P) (hD : D ≠ [])
    (hDc : ∀ c ∈ D, c.isAlphanum = true ∨ c = '_' ∨ c = '.' ∨ c = '-')
    (hR : R ≠ []) (hRl : '\n' ∉ R) (hPost : lineEnds post)
    (hT : stampDigits year month day hour min sec sign zh zm) :
    (fieldOutOfRange year month day hour min sec zh zm →
        ∃ err, ParseNewDagRun ⟨stderr, stdout, stderrStr, pre ++ (P ++ '\n' :: (creationLine D
            (stampText year month day hour min sec sign zh zm) R B ++ post))⟩
          = (DAGRun.zero, some err))
      ∧ (¬ fieldOutOfRange year month day hour min sec zh zm →
        ParseNewDagRun ⟨stderr, stdout, stderrStr, pre ++ (P ++ '\n' :: (creationLine D
            (stampText year month day hour min sec sign zh zm) R B ++ post))⟩
          = (⟨some R, some D, none,
              some ⟨year, month, day, hour, min, sec, 0,
                if sign = '-' then -(((zh : Int) * 60 + zm) * 60)
                else ((zh : Int) * 60 + zm) * 60⟩,
              none, none, none, some B, none⟩, none))
      ∧ (∀ (s : Str) (m : Caps), FindStringSubmatch newDagRunRe 4 s = some m →
          (m.getD 4 [] = "True".toList ∨ m.getD 4 [] = "False".toList)
            ∧ (ParseBool (m.getD 4 [])).2 = none)
      ∧ ∀ d : MWAAData, (ParseNewDagRun d).2 = none →
          ∃ (pre1 P1 D1 R1 post1 : Str) (year1 month1 day1 hour1 min1 sec1 : Nat) (sign1 : Char)
            (zh1 zm1 : Nat) (B1 : Bool),
            d.StdoutStr = pre1 ++ (P1 ++ '\n' :: (creationLine D1
                (stampText year1 month1 day1 hour1 min1 sec1 sign1 zh1 zm1) R1 B1 ++ post1))
              ∧ P1 ≠ [] ∧ '\n' ∉ P1 ∧ D1 ≠ []
              ∧ (∀ c ∈ D1, c.isAlphanum = true ∨ c = '_' ∨ c = '.' ∨ c = '-')
              ∧ R1 ≠ [] ∧ '\n' ∉ R1
              ∧ stampDigits year1 month1 day1 hour1 min1 sec1 sign1 zh1 zm1
              ∧ ¬ fieldOutOfRange year1 month1 day1 hour1 min1 sec1 zh1 zm1
              ∧ ParseNewDagRun d
                = (⟨some R1, some D1, none,
                    some ⟨year1, month1, day1, hour1, min1, sec1, 0,
                      if sign1 = '-' then -(((zh1 : Int) * 60 + zm1) * 60)
                      else ((zh1 : Int) * 60 + zm1) * 60⟩,
                    none, none, none, some B1, none⟩, none) := by
  have hfind := find_newDagRunRe pre P D R post year month day hour min sec sign zh zm B hPre
    hFirst hP hPl hD (fun c hc => dagIdChar_of_ascii c (hDc c hc)) hR hRl hPost hT
  refine ⟨fun hBad => ?_, fun hOk => ?_, ?_, parseNewDagRun_ok_sound⟩
  · obtain ⟨e, he⟩ := parseNoDecimal_out_of_range year month day hour min sec sign zh zm hT hBad
    exact ⟨e, parseNewDagRun_of_bad_time _ _ D _ R _ e B hfind (parseBool_boolText B) he⟩
  · exact parseNewDagRun_of_match _ _ D _ R _ B _ hfind (parseBool_boolText B)
      (parseNoDecimal_in_range year month day hour min sec sign zh zm hT hOk)
  · intro s m hm
    have h4 := newDagRunRe_group_four s m hm
    refine ⟨h4, ?_⟩
    rcases h4 with h | h <;> rw [h] <;> decide

set_option maxRecDepth 100000 in
theorem ParseNewDagRun_field_out_of_range_witness :
    (∃ err, ParseNewDagRun ⟨[], [], [],
          "WARN\n".toList ++ ("INFO".toList ++ '\n' :: (creationLine "d".toList
            (stampText 2022 13 5 18 15 5 '+' 0 0) "r".toList false ++ "\ndone".toList))⟩
        = (DAGRun.zero, some err))
      ∧ ParseNewDagRun ⟨[], [], [],
          "WARN\n".toList ++ ("INFO".toList ++ '\n' :: (creationLine "d".toList
            (stampText 2022 11 5 18 15 5 '-' 24 0) "r".toList false ++ "\ndone".toList))⟩
        = (⟨some "r".toList, some "d".toList, none, some ⟨2022, 11, 5, 18, 15, 5, 0, -86400⟩,
            none, none, none, some false, none⟩, none) :=
  ⟨(ParseNewDagRun_field_out_of_range "WARN\n".toList "INFO".toList "d".toList "r".toList
      "\ndone".toList 2022 13 5 18 15 5 '+' 0 0 false [] [] [] (Or.inr ⟨"WARN".toList, rfl⟩)
      (by rw [← contains_iff]; decide) (by decide) (by decide) (by decide) (by decide)
      (by decide) (by decide) (Or.inr ⟨_, rfl⟩) (by unfold stampDigits; decide)).1
      (by unfold fieldOutOfRange; decide),
    (ParseNewDagRun_field_out_of_range "WARN\n".toList "INFO".toList "d".toList "r".toList
      "\ndone".toList 2022 11 5 18 15 5 '-' 24 0 false [] [] [] (Or.inr ⟨"WARN".toList, rfl⟩)
      (by rw [← contains_iff]; decide) (by decide) (by decide) (by decide) (by decide)
      (by decide) (by decide) (Or.inr ⟨_, rfl⟩) (by unfold stampDigits; decide)).2.1
      (by unfold fieldOutOfRange; decide)⟩

end Mwaah
